import Mathlib

/-!
# The data transformation engine of `scripts/dataProcessor.js`

A shallow embedding of the pure functions of `dataProcessor.js`
(`convertValueType`, `filterData`, `sortData`, `aggregateData`, `pivotData`)
together with the properties the specification states about them.

## Modelling conventions

* **Numbers.** A JavaScript number is a `JSNum`: an exact rational, `NaN`, or one of the
  two infinities; there is no negative zero.  The operations `add`, `sub`, `mul` and `div`
  are exact (no rounding, no overflow).  Where a statement depends on the rounding of the
  engine, the operations are `fadd`, `fsub`, `fmul` and `fdiv`, which round the exact result
  to the nearest double (`roundToDouble`), and the functions that use them carry the suffix
  `64` (`normalCDF64`); `parseFloat` rounds the value of its numeral in the same way.
* **Strings.** A JavaScript string is a Lean `String`; comparison of strings is by code
  point (JavaScript compares UTF-16 code units, which differs only for characters outside
  the Basic Multilingual Plane).
* **Objects.** A plain object is a `JSObject`: its own properties, listed in the order
  `Object.keys` enumerates them (array-index keys in ascending numeric order first, then
  the other keys in insertion order).  Property reads see own properties only: the members
  a plain object inherits from `Object.prototype` (`constructor`, `toString`, `__proto__`,
  ...) are outside the model, and the general theorems about maps keyed by data exclude
  those keys by hypothesis (`isObjectPrototypeKey`).
* **Reference types.** `Date` objects are modelled by their time value.  Two `Date`
  objects (or two arrays) held by different rows or parameters are different objects, so
  `===` and `SameValueZero` never identify them.
* **Host functions.** What the engine provides and the repository does not define
  (`localeCompare`, `toLowerCase`, the rendering of non-integral numbers and of dates,
  `Number(string)`, `new Date(string)`) is a parameter, `Host`.
* **Built-in sort.** `Array.prototype.sort` is a stable sort; it is modelled by the stable
  insertion sort `List.insertionSort`.
-/

namespace DataProcessor

/-! ## Numbers -/

/-- A JavaScript number: an exact rational, `NaN`, `Infinity` or `-Infinity`. -/
inductive JSNum
  | fin (q : ℚ)
  | nan
  | posInf
  | negInf
  deriving DecidableEq

namespace JSNum

/-- Unary minus. -/
def neg : JSNum → JSNum
  | fin q => fin (-q)
  | nan => nan
  | posInf => negInf
  | negInf => posInf

/-- The `+` of two numbers. -/
def add : JSNum → JSNum → JSNum
  | fin a, fin b => fin (a + b)
  | nan, _ => nan
  | _, nan => nan
  | posInf, negInf => nan
  | negInf, posInf => nan
  | posInf, _ => posInf
  | negInf, _ => negInf
  | _, posInf => posInf
  | _, negInf => negInf

/-- The `-` of two numbers. -/
def sub (a b : JSNum) : JSNum := add a (neg b)

/-- The sign of a number that is not `NaN` (`0` for `NaN`). -/
def sgn : JSNum → Int
  | fin q => if 0 < q then 1 else if q < 0 then -1 else 0
  | nan => 0
  | posInf => 1
  | negInf => -1

/-- The `*` of two numbers. -/
def mul : JSNum → JSNum → JSNum
  | fin a, fin b => fin (a * b)
  | nan, _ => nan
  | _, nan => nan
  | a, b => if sgn a * sgn b = 0 then nan else if 0 < sgn a * sgn b then posInf else negInf

/-- The `/` of two numbers (a zero divisor is the positive zero). -/
def div : JSNum → JSNum → JSNum
  | fin a, fin b =>
      if b = 0 then (if 0 < a then posInf else if a < 0 then negInf else nan) else fin (a / b)
  | nan, _ => nan
  | _, nan => nan
  | fin _, _ => fin 0
  | a, fin b => if 0 ≤ sgn a * (if 0 ≤ b then 1 else -1) then posInf else negInf
  | _, _ => nan

/-- The comparison `a < b` of two numbers; false when either is `NaN`. -/
def lt : JSNum → JSNum → Bool
  | fin a, fin b => decide (a < b)
  | nan, _ => false
  | _, nan => false
  | negInf, negInf => false
  | negInf, _ => true
  | _, negInf => false
  | posInf, _ => false
  | fin _, posInf => true

/-- Whether a number is `NaN`. -/
def isNaN : JSNum → Bool
  | nan => true
  | _ => false

/-- Truthiness of a number: every number but `0` and `NaN`. -/
def truthy : JSNum → Bool
  | fin q => decide (q ≠ 0)
  | nan => false
  | _ => true

/-- The value of `Math.min(a, b)`. -/
def min (a b : JSNum) : JSNum :=
  if a.isNaN || b.isNaN then nan else if lt b a then b else a

/-- The value of `Math.max(a, b)`. -/
def max (a b : JSNum) : JSNum :=
  if a.isNaN || b.isNaN then nan else if lt a b then b else a

/-- The number `n || 0`: `n` when it is truthy, `0` otherwise. -/
def orZero (n : JSNum) : JSNum := if n.truthy then n else fin 0

end JSNum

/-! ## Double-precision numbers

The engine keeps a number as an IEEE 754 double: the result of an arithmetic operation is
the exact result rounded to the nearest double, ties to the even mantissa.  The definitions
below round a rational to a double; the operations `fadd`, `fsub`, `fmul` and `fdiv` are the
exact operations followed by that rounding. -/

/-- The power `2^e` for an integer `e`. -/
def pow2 : Int → ℚ
  | .ofNat n => ((2 ^ n : Nat) : ℚ)
  | .negSucc n => 1 / ((2 ^ (n + 1) : Nat) : ℚ)

/-- The number of times `n` can be halved before it drops below `2` (at most `fuel`
times). -/
def log2Fuel : Nat → Nat → Nat
  | 0, _ => 0
  | fuel + 1, n => if 2 ≤ n then log2Fuel fuel (n / 2) + 1 else 0

/-- The exponent `e` of the binade of a rational that is not zero:
`2^e ≤ |q| < 2^(e+1)`. -/
def binade (q : ℚ) : Int :=
  let e0 : Int := (log2Fuel q.num.natAbs q.num.natAbs : Int) - (log2Fuel q.den q.den : Int)
  if pow2 e0 ≤ |q| then e0 else e0 - 1

/-- The integer nearest to a rational, the even one of the two when it is half way. -/
def roundHalfEven (q : ℚ) : Int :=
  let f := Rat.floor q
  if q - f < 1 / 2 then f
  else if 1 / 2 < q - f then f + 1
  else if f % 2 = 0 then f else f + 1

/-- The exponent of the unit in the last place of the doubles of the binade of `q`: 52 below
the binade, and `-1074` for the subnormal numbers. -/
def ulpExponent (q : ℚ) : Int := max (binade q) (-1022) - 52

/-- The least rational that rounds to `Infinity`: `2^1024 - 2^970`, written as
`(2^54 - 1) * 2^970` with `2^970 = (2^97)^10`. -/
def overflowThreshold : ℚ := ((2 ^ 54 - 1 : Nat) : ℚ) * (((2 ^ 97) ^ 10 : Nat) : ℚ)

/-- The multiple of the unit in the last place of `q` that is nearest to `q`, the even
multiple when two are equally near. -/
def nearestDouble (q : ℚ) : ℚ :=
  (roundHalfEven (q / pow2 (ulpExponent q)) : ℚ) * pow2 (ulpExponent q)

/-- The double nearest to a rational, ties to the even mantissa; `Infinity` from
`2^1024 - 2^970` on. -/
def roundToDouble (q : ℚ) : JSNum :=
  if overflowThreshold ≤ q then .posInf
  else if q ≤ -overflowThreshold then .negInf
  else .fin (nearestDouble q)

namespace JSNum

/-- The double a number is stored as. -/
def round : JSNum → JSNum
  | fin q => roundToDouble q
  | v => v

/-- The `+` of two doubles. -/
def fadd (a b : JSNum) : JSNum := (add a b).round

/-- The `-` of two doubles. -/
def fsub (a b : JSNum) : JSNum := (sub a b).round

/-- The `*` of two doubles. -/
def fmul (a b : JSNum) : JSNum := (mul a b).round

/-- The `/` of two doubles. -/
def fdiv (a b : JSNum) : JSNum := (div a b).round

/-- The order of the numbers that are not `NaN`: `-Infinity` is below and `Infinity` above
every number. -/
def le : JSNum → JSNum → Prop
  | nan, _ => False
  | _, nan => False
  | negInf, _ => True
  | _, posInf => True
  | fin a, fin b => a ≤ b
  | _, _ => False

end JSNum

/-- The double a decimal literal of the source denotes. -/
def literal (q : ℚ) : JSNum := roundToDouble q

/-! ## Values -/

/-- The scalar values a cell of a dataset holds. -/
inductive Scalar
  | undefined
  | null
  | bool (b : Bool)
  | num (n : JSNum)
  | str (s : String)
  | date (t : JSNum)
  deriving DecidableEq

/-- A value: a scalar or an array of scalars. -/
inductive JSValue
  | scalar (s : Scalar)
  | arr (xs : List Scalar)
  deriving DecidableEq

/-- The functions of the JavaScript engine that the repository relies on and does not
define. -/
structure Host where
  /-- The conversion of a finite number that is not an integer of magnitude below `10^21`
  to a string. -/
  numberToString : ℚ → String
  /-- The conversion `Number(s)` of a string. -/
  stringToNumber : String → JSNum
  /-- The conversion `String(d)` of a date with the given time value. -/
  dateToString : JSNum → String
  /-- The time value of `new Date(s)`; `NaN` for an invalid date. -/
  dateParse : String → JSNum
  /-- The method `a.localeCompare(b)`. -/
  localeCompare : String → String → Int
  /-- The method `s.toLowerCase()`. -/
  toLowerCase : String → String

namespace Scalar

/-- The test `v === null || v === undefined`. -/
def isNullish : Scalar → Bool
  | undefined => true
  | null => true
  | _ => false

/-- The test `v === null || v === undefined || v === ''` used to skip missing values. -/
def isMissing : Scalar → Bool
  | undefined => true
  | null => true
  | str s => decide (s = "")
  | _ => false

/-- Truthiness of a scalar. -/
def truthy : Scalar → Bool
  | undefined => false
  | null => false
  | bool b => b
  | num n => n.truthy
  | str s => decide (s ≠ "")
  | date _ => true

end Scalar

/-- The conversion of a number to a string. -/
def numberToString (h : Host) : JSNum → String
  | .nan => "NaN"
  | .posInf => "Infinity"
  | .negInf => "-Infinity"
  | .fin q => if q.den = 1 ∧ q.num.natAbs < 10 ^ 21 then toString q.num else h.numberToString q

/-- The conversion `String(v)` of a scalar. -/
def Scalar.toStr (h : Host) : Scalar → String
  | .undefined => "undefined"
  | .null => "null"
  | .bool b => if b then "true" else "false"
  | .num n => numberToString h n
  | .str s => s
  | .date t => h.dateToString t

/-- The string an element contributes to `Array.prototype.join`: empty for `null` and
`undefined`. -/
def Scalar.joinStr (h : Host) (v : Scalar) : String :=
  if v.isNullish then "" else v.toStr h

/-- The method `xs.join(sep)` of an array of scalars. -/
def joinWith (h : Host) (sep : String) (xs : List Scalar) : String :=
  String.intercalate sep (xs.map (Scalar.joinStr h))

/-- The conversion `Number(v)` of a scalar. -/
def Scalar.toNumber (h : Host) : Scalar → JSNum
  | .undefined => .nan
  | .null => .fin 0
  | .bool b => if b then .fin 1 else .fin 0
  | .num n => n
  | .str s => h.stringToNumber s
  | .date t => t

namespace JSValue

/-- The value `undefined`. -/
def undefined : JSValue := scalar .undefined

/-- The value `null`. -/
def null : JSValue := scalar .null

/-- A number as a value. -/
def num (n : JSNum) : JSValue := scalar (.num n)

/-- A string as a value. -/
def str (s : String) : JSValue := scalar (.str s)

/-- Truthiness of a value: an array is truthy. -/
def truthy : JSValue → Bool
  | scalar s => s.truthy
  | arr _ => true

/-- The conversion `String(v)`: an array is joined with commas. -/
def toStr (h : Host) : JSValue → String
  | scalar s => s.toStr h
  | arr xs => joinWith h "," xs

/-- The conversion `Number(v)`: an array is converted through its string. -/
def toNumber (h : Host) : JSValue → JSNum
  | scalar s => s.toNumber h
  | arr xs => h.stringToNumber (joinWith h "," xs)

end JSValue

/-- Strict equality `a === b` of two scalars held by different owners: `NaN` differs from
itself and two `Date` objects are never the same object. -/
def Scalar.strictEq : Scalar → Scalar → Bool
  | .num .nan, _ => false
  | .date _, _ => false
  | a, b => decide (a = b)

/-- The comparison `SameValueZero` of two scalars held by different owners: as `===`, but
`NaN` equals itself. -/
def Scalar.sameValueZero : Scalar → Scalar → Bool
  | .date _, _ => false
  | a, b => decide (a = b)

/-- The string the operand of a relational operator becomes when `ToPrimitive` (hint
number) yields a string: a string itself, or an array joined with commas. -/
def JSValue.relString (h : Host) : JSValue → Option String
  | .scalar (.str s) => some s
  | .arr xs => some (joinWith h "," xs)
  | _ => none

/-- The abstract relational comparison `a < b`: `none` stands for `undefined` (an operand
is `NaN`).  Two strings compare by code points, anything else numerically. -/
def relCompare (h : Host) (a b : JSValue) : Option Bool :=
  match a.relString h, b.relString h with
  | some s, some t => some (decide (s.data < t.data))
  | _, _ =>
    if (a.toNumber h).isNaN || (b.toNumber h).isNaN then none
    else some (JSNum.lt (a.toNumber h) (b.toNumber h))

/-- The operator `a < b`. -/
def jsLt (h : Host) (a b : JSValue) : Bool := relCompare h a b == some true

/-- The operator `a > b`. -/
def jsGt (h : Host) (a b : JSValue) : Bool := relCompare h b a == some true

/-- The operator `a <= b`. -/
def jsLe (h : Host) (a b : JSValue) : Bool := relCompare h b a == some false

/-- The operator `a >= b`. -/
def jsGe (h : Host) (a b : JSValue) : Bool := relCompare h a b == some false

/-- Whether `ToPrimitive` (default hint) of the value is a string: strings, dates and
arrays. -/
def JSValue.isStringLike : JSValue → Bool
  | .scalar (.str _) => true
  | .scalar (.date _) => true
  | .arr _ => true
  | _ => false

/-- The operator `a + b`: concatenation when an operand becomes a string, addition of
numbers otherwise. -/
def jsAdd (h : Host) (a b : JSValue) : JSValue :=
  if a.isStringLike || b.isStringLike then .str (a.toStr h ++ b.toStr h)
  else .num (JSNum.add (a.toNumber h) (b.toNumber h))

/-- The operator `a / b`. -/
def jsDiv (h : Host) (a b : JSValue) : JSValue :=
  .num (JSNum.div (a.toNumber h) (b.toNumber h))

/-- The expression `a || b`. -/
def jsOr (a b : JSValue) : JSValue := if a.truthy then a else b

/-- The elements of `new Set(xs)` in insertion order: the first occurrence of each
element is kept. -/
def dedupBy {α : Type} (eq : α → α → Bool) : List α → List α
  | [] => []
  | x :: xs => x :: (dedupBy eq xs).filter (fun y => !eq x y)

/-- The method `xs.sort()` without a comparator: `undefined` goes last, the other
elements are ordered by their strings, stably. -/
def defaultSort (h : Host) (xs : List Scalar) : List Scalar :=
  (xs.filter (fun x => decide (x ≠ .undefined))).insertionSort
      (fun a b => (a.toStr h).data ≤ (b.toStr h).data)
    ++ xs.filter (fun x => decide (x = .undefined))

/-- The method `k.startsWith('_')`. -/
def startsWithUnderscore (k : String) : Bool :=
  match k.data with
  | c :: _ => decide (c = '_')
  | [] => false

/-! ## Objects -/

/-- A plain object: its own properties in enumeration order. -/
abbrev JSObject (α : Type) := List (String × α)

/-- The array index a property key denotes: the key is the canonical decimal numeral of
a natural number below `2^32 - 1`. -/
def arrayIndex? (k : String) : Option Nat :=
  match k.data with
  | [] => none
  | c :: cs =>
    if (c :: cs).all Char.isDigit && (decide (c ≠ '0') || cs.isEmpty) then
      let n := (c :: cs).foldl (fun acc d => 10 * acc + (d.toNat - 48)) 0
      if n < 4294967295 then some n else none
    else none

/-- The keys `Object.prototype` defines: a plain object answers a read of one of them even
when it has no such property of its own. -/
def objectPrototypeKeys : List String :=
  ["constructor", "__proto__", "hasOwnProperty", "isPrototypeOf", "propertyIsEnumerable",
   "toLocaleString", "toString", "valueOf", "__defineGetter__", "__defineSetter__",
   "__lookupGetter__", "__lookupSetter__"]

/-- Whether a key is one that `Object.prototype` defines. -/
def isObjectPrototypeKey (k : String) : Bool := objectPrototypeKeys.contains k

namespace JSObject

variable {α : Type}

/-- The own property `o[k]`, if there is one. -/
def get? : JSObject α → String → Option α
  | [], _ => none
  | (k', v) :: rest, k => if k' = k then some v else get? rest k

/-- Whether `o` has an own property `k`. -/
def hasKey (o : JSObject α) (k : String) : Bool := (o.get? k).isSome

/-- Assignment to an existing property: the value changes, the position does not. -/
def replace : JSObject α → String → α → JSObject α
  | [], _, _ => []
  | (k', v') :: rest, k, v =>
    if k' = k then (k, v) :: rest else (k', v') :: replace rest k v

/-- Creation of the array-index property `k` (of index `n`): it goes after the
array-index properties of smaller index. -/
def insertIndex (n : Nat) (k : String) (v : α) : JSObject α → JSObject α
  | [] => [(k, v)]
  | (k', v') :: rest =>
    match arrayIndex? k' with
    | some m => if m < n then (k', v') :: insertIndex n k v rest else (k, v) :: (k', v') :: rest
    | none => (k, v) :: (k', v') :: rest

/-- Creation of a new property: an array-index key goes among the array-index keys, any
other key goes last. -/
def insertNew (o : JSObject α) (k : String) (v : α) : JSObject α :=
  match arrayIndex? k with
  | some n => insertIndex n k v o
  | none => o ++ [(k, v)]

/-- The assignment `o[k] = v`. -/
def set (o : JSObject α) (k : String) (v : α) : JSObject α :=
  if o.hasKey k then o.replace k v else o.insertNew k v

/-- The result of `Object.keys(o)`. -/
def keys (o : JSObject α) : List String := o.map Prod.fst

/-- The result of `Object.values(o)`. -/
def values (o : JSObject α) : List α := o.map Prod.snd

end JSObject

/-- A row of a dataset: column names and their scalar values. -/
abbrev Row := JSObject Scalar

/-- The read `row[column]` of a row: `undefined` when the row has no such property. -/
def Row.get (row : Row) (column : String) : Scalar := (JSObject.get? row column).getD .undefined

/-- The read `o[k]` of an object of values. -/
def JSObject.getV (o : JSObject JSValue) (k : String) : JSValue :=
  (JSObject.get? o k).getD JSValue.undefined

/-- A row seen as an object of values. -/
def Row.lift (row : Row) : JSObject JSValue := row.map (fun kv => (kv.1, JSValue.scalar kv.2))

/-! ## `pivotData` -/

/-- A parameter that names one field or a list of fields (`rowFields`, `groupBy`). -/
inductive FieldSpec
  | single (name : String)
  | many (names : List String)
  deriving DecidableEq

/-- Truthiness of a field parameter: an array is truthy, a string unless it is empty. -/
def FieldSpec.truthy : FieldSpec → Bool
  | .single name => decide (name ≠ "")
  | .many _ => true

/-- The fields as a list: `Array.isArray(f) ? f : [f]`. -/
def FieldSpec.toList : FieldSpec → List String
  | .single name => [name]
  | .many names => names

/-- The parameters of `pivotData`; `none` is a field that is not given. -/
structure PivotParams where
  rowFields : Option FieldSpec
  columnField : Option String
  valueField : Option String
  aggregationFunc : Option String

/-- Truthiness of an optional string parameter. -/
def optTruthy : Option String → Bool
  | some s => decide (s ≠ "")
  | none => false

/-- The key of the row group of a row: `rowFields.map(field => row[field]).join('|')`. -/
def pivotRowKey (h : Host) (rowFields : List String) (row : Row) : String :=
  joinWith h "|" (rowFields.map row.get)

/-- The distinct values of the pivot column, sorted:
`[...new Set(data.map(row => row[columnField]))].sort()`. -/
def uniqueColumnValues (h : Host) (columnField : String) (data : List Row) : List Scalar :=
  defaultSort h (dedupBy Scalar.sameValueZero (data.map (fun row => row.get columnField)))

/-- The group a row key gets when it is first met: `_key`, the row fields of the row, and
every pivot column set to `null`. -/
def newRowGroup (h : Host) (rowFields : List String) (ucv : List Scalar) (rowKey : String)
    (row : Row) : JSObject JSValue :=
  let obj : JSObject Scalar :=
    rowFields.foldl (fun obj field => obj.set field (row.get field)) []
  let group : JSObject JSValue :=
    obj.foldl (fun g kv => g.set kv.1 (.scalar kv.2)) (JSObject.set [] "_key" (.str rowKey))
  ucv.foldl (fun g colValue => g.set (colValue.toStr h) .null) group

/-- The body of the `switch (aggregationFunc)`: the cell `colKey` of a group takes in the
value `v`, which is neither `null` nor `undefined`. -/
def aggregateCell (h : Host) (func : String) (g : JSObject JSValue) (colKey : String)
    (v : Scalar) : JSObject JSValue :=
  let currentValue := g.getV colKey
  if func = "sum" then
    g.set colKey (jsAdd h (jsOr currentValue (.num (.fin 0))) (.num (v.toNumber h).orZero))
  else if func = "avg" then
    let countKey := "_count_" ++ colKey
    let sumKey := "_sum_" ++ colKey
    let g1 := if !(g.getV countKey).truthy
      then (g.set countKey (.num (.fin 0))).set sumKey (.num (.fin 0)) else g
    let g2 := g1.set countKey (.num (JSNum.add ((g1.getV countKey).toNumber h) (.fin 1)))
    let g3 := g2.set sumKey (jsAdd h (g2.getV sumKey) (.num (v.toNumber h).orZero))
    g3.set colKey (jsDiv h (g3.getV sumKey) (g3.getV countKey))
  else if func = "min" then
    if currentValue = .null || jsLt h (.scalar v) currentValue
    then g.set colKey (.num (v.toNumber h)) else g
  else if func = "max" then
    if currentValue = .null || jsGt h (.scalar v) currentValue
    then g.set colKey (.num (v.toNumber h)) else g
  else if func = "count" then
    g.set colKey (jsAdd h (jsOr currentValue (.num (.fin 0))) (.num (.fin 1)))
  else if func = "first" then
    if currentValue = .null then g.set colKey (.scalar v) else g
  else if func = "last" then
    g.set colKey (.scalar v)
  else if func = "list" then
    if currentValue = .null then g.set colKey (.arr [v])
    else
      match currentValue with
      | .arr xs => if xs.any (fun x => x.sameValueZero v) then g else g.set colKey (.arr (xs ++ [v]))
      | _ => g -- not reached: in this mode a cell holds `null` or an array
  else
    g.set colKey (.scalar v)

/-- The first half of the body of `data.forEach` in `pivotData`: the group of the row is
created if its key is new. -/
def ensureRowGroup (h : Host) (rowFields : List String) (ucv : List Scalar)
    (rowGroups : JSObject (JSObject JSValue)) (row : Row) : JSObject (JSObject JSValue) :=
  let rowKey := pivotRowKey h rowFields row
  if rowGroups.hasKey rowKey then rowGroups
  else rowGroups.set rowKey (newRowGroup h rowFields ucv rowKey row)

/-- The second half of the body of `data.forEach` in `pivotData`: the cell of the row takes
in its value unless the value is `null` or `undefined`. -/
def aggregateRow (h : Host) (rowFields : List String) (columnField valueField func : String)
    (rowGroups : JSObject (JSObject JSValue)) (row : Row) : JSObject (JSObject JSValue) :=
  let rowKey := pivotRowKey h rowFields row
  let colKey := (row.get columnField).toStr h
  let valueToAggregate := row.get valueField
  if valueToAggregate.isNullish then rowGroups
  else
    match rowGroups.get? rowKey with
    | some g => rowGroups.set rowKey (aggregateCell h func g colKey valueToAggregate)
    | none => rowGroups -- not reached: the group has just been created

/-- The body of `data.forEach` in `pivotData`: one row is added to the row groups. -/
def pivotStep (h : Host) (rowFields : List String) (columnField valueField func : String)
    (ucv : List Scalar) (rowGroups : JSObject (JSObject JSValue)) (row : Row) :
    JSObject (JSObject JSValue) :=
  aggregateRow h rowFields columnField valueField func
    (ensureRowGroup h rowFields ucv rowGroups row) row

/-- The row groups after every row has been added. -/
def pivotGroups (h : Host) (rowFields : List String) (columnField valueField func : String)
    (data : List Row) : JSObject (JSObject JSValue) :=
  data.foldl (pivotStep h rowFields columnField valueField func
    (uniqueColumnValues h columnField data)) []

/-- The output row of a group: the properties whose key does not start with `_`, and
`_key`; in `list` mode the arrays are joined into strings. -/
def finalizeGroup (h : Host) (func : String) (ucv : List Scalar) (group : JSObject JSValue) :
    JSObject JSValue :=
  let result : JSObject JSValue :=
    group.foldl (fun res kv =>
      if !startsWithUnderscore kv.1 || decide (kv.1 = "_key") then res.set kv.1 kv.2 else res) []
  if func = "list" then
    ucv.foldl (fun res colValue =>
      match res.getV (colValue.toStr h) with
      | .arr xs => res.set (colValue.toStr h) (.str (joinWith h ", " xs))
      | _ => res) result
  else result

/-- The function `pivotData(data, params)`; `params = none` is a missing `params`. -/
def pivotData (h : Host) (data : List Row) (params : Option PivotParams) :
    List (JSObject JSValue) :=
  match params with
  | none => data.map Row.lift
  | some p =>
    match p.rowFields, p.columnField, p.valueField with
    | some rowFields, some columnField, some valueField =>
      if !rowFields.truthy || columnField = "" || valueField = "" then data.map Row.lift
      else
        let func := if optTruthy p.aggregationFunc then p.aggregationFunc.getD "sum" else "sum"
        let ucv := uniqueColumnValues h columnField data
        (JSObject.values (pivotGroups h rowFields.toList columnField valueField func data)).map
          (finalizeGroup h func ucv)
    | _, _, _ => data.map Row.lift

/-! ## `aggregateData` -/

/-- One requested aggregation `{ column, function, as }`. -/
structure Aggregation where
  column : String
  function : String
  as : Option String

/-- The parameters of `aggregateData`; `none` is a field that is not given (for
`aggregations`, also one that is not an array). -/
structure AggregateParams where
  groupBy : Option FieldSpec
  aggregations : Option (List Aggregation)

/-- The key of the group of a row: the values of the group-by columns joined with `|`, or
`String(row[groupBy])` for a single column name. -/
def groupKey (h : Host) (groupBy : FieldSpec) (row : Row) : String :=
  match groupBy with
  | .many cols => joinWith h "|" (cols.map row.get)
  | .single col => (row.get col).toStr h

/-- A group under construction: the bookkeeping properties `_rows` and `_count`, and the
properties that hold the values of the group-by columns.  (A group-by column that is itself
called `_rows` or `_count` would overwrite the bookkeeping; the theorems exclude it.) -/
structure Group where
  rows : List Row
  count : Nat
  fields : JSObject Scalar

/-- The group a key gets when it is first met. -/
def newGroup (groupBy : FieldSpec) (row : Row) : Group :=
  { rows := [], count := 0,
    fields := groupBy.toList.foldl (fun fields col => fields.set col (row.get col)) [] }

/-- The body of `data.forEach` in `aggregateData`: one row is added to its group. -/
def addToGroups (h : Host) (groupBy : FieldSpec) (groups : JSObject Group) (row : Row) :
    JSObject Group :=
  let key := groupKey h groupBy row
  let groups := if groups.hasKey key then groups else groups.set key (newGroup groupBy row)
  match groups.get? key with
  | some g => groups.set key { g with rows := g.rows ++ [row], count := g.count + 1 }
  | none => groups -- not reached: the group has just been created

/-- The name of the output field of an aggregation: `as`, or the function and the column
joined by an underscore when `as` is not given. -/
def outputName (agg : Aggregation) : String :=
  if optTruthy agg.as then agg.as.getD "" else agg.function ++ "_" ++ agg.column

/-- The values an aggregation works on: the column of the rows of the group without
`null`, `undefined` and the empty string. -/
def columnValues (rows : List Row) (column : String) : List Scalar :=
  (rows.map (fun row => row.get column)).filter (fun val => !val.isMissing)

/-- The sum `values.reduce((sum, val) => sum + (Number(val) || 0), 0)`. -/
def sumValues (h : Host) (values : List Scalar) : JSNum :=
  values.foldl (fun sum val => JSNum.add sum (val.toNumber h).orZero) (.fin 0)

/-- The body of the `switch (func)` of `aggregateData`, on a non-empty list of values. -/
def applyAggregation (h : Host) (func : String) (values : List Scalar) : Scalar :=
  if func = "sum" then .num (sumValues h values)
  else if func = "avg" then .num (JSNum.div (sumValues h values) (.fin values.length))
  else if func = "min" then
    .num ((values.map (fun v => (v.toNumber h).orZero)).foldl JSNum.min .posInf)
  else if func = "max" then
    .num ((values.map (fun v => (v.toNumber h).orZero)).foldl JSNum.max .negInf)
  else if func = "count" then .num (.fin values.length)
  else if func = "count_distinct" then .num (.fin (dedupBy Scalar.sameValueZero values).length)
  else if func = "first" then values.headD .undefined
  else if func = "last" then values.getLastD .undefined
  else if func = "list" then .str (joinWith h ", " (dedupBy Scalar.sameValueZero values))
  else .null

/-- The body of `params.aggregations.forEach`: one aggregation writes its output field. -/
def aggregationStep (h : Host) (rows : List Row) (aggregated : Row) (agg : Aggregation) : Row :=
  let values := columnValues rows agg.column
  if values.length = 0 then aggregated.set (outputName agg) .null
  else aggregated.set (outputName agg) (applyAggregation h agg.function values)

/-- The output row of a group: the group-by values whose key does not start with `_`, the
`count`, and the output field of every aggregation. -/
def aggregateGroup (h : Host) (aggregations : List Aggregation) (group : Group) : Row :=
  let copied : Row :=
    group.fields.foldl (fun res kv =>
      if !startsWithUnderscore kv.1 then res.set kv.1 kv.2 else res) []
  let aggregated := copied.set "count" (.num (.fin group.count))
  aggregations.foldl (aggregationStep h group.rows) aggregated

/-- The groups after every row has been added. -/
def buildGroups (h : Host) (groupBy : FieldSpec) (data : List Row) : JSObject Group :=
  data.foldl (addToGroups h groupBy) []

/-- The function `aggregateData(data, params)`; `params = none` is a missing `params`. -/
def aggregateData (h : Host) (data : List Row) (params : Option AggregateParams) : List Row :=
  match params with
  | none => data
  | some p =>
    match p.groupBy, p.aggregations with
    | some groupBy, some aggregations =>
      if !groupBy.truthy then data
      else (JSObject.values (buildGroups h groupBy data)).map (aggregateGroup h aggregations)
    | _, _ => data

/-! ## `filterData` -/

/-- One filter condition `{ column, operator, value }`; `none` is a field that is not
given. -/
structure Condition where
  column : Option String
  operator : Option String
  value : JSValue

/-- The parameters of `filterData`; `none` is a `conditions` that is missing or not an
array. -/
structure FilterParams where
  conditions : Option (List Condition)

/-- The comparison `fieldValue === value` of a cell with the value of a condition. -/
def strictEqValue (fieldValue : Scalar) : JSValue → Bool
  | .scalar v => fieldValue.strictEq v
  | .arr _ => false

/-- The callback of `params.conditions.every`: whether a row passes one condition. -/
def conditionHolds (h : Host) (row : Row) (condition : Condition) : Bool :=
  if !optTruthy condition.column || !optTruthy condition.operator then true
  else
    let fieldValue := row.get (condition.column.getD "")
    let operator := condition.operator.getD ""
    let value := condition.value
    if operator = "eq" then strictEqValue fieldValue value
    else if operator = "neq" then !strictEqValue fieldValue value
    else if operator = "gt" then jsGt h (.scalar fieldValue) value
    else if operator = "lt" then jsLt h (.scalar fieldValue) value
    else if operator = "gte" then jsGe h (.scalar fieldValue) value
    else if operator = "lte" then jsLe h (.scalar fieldValue) value
    else if operator = "contains" then
      match fieldValue with
      | .str s => decide ((h.toLowerCase (value.toStr h)).data <:+: (h.toLowerCase s).data)
      | _ => false
    else if operator = "startsWith" then
      match fieldValue with
      | .str s => (h.toLowerCase (value.toStr h)).data.isPrefixOf (h.toLowerCase s).data
      | _ => false
    else if operator = "endsWith" then
      match fieldValue with
      | .str s => (h.toLowerCase (value.toStr h)).data.isSuffixOf (h.toLowerCase s).data
      | _ => false
    else if operator = "between" then
      match value with
      | .arr [lo, hi] =>
        jsGe h (.scalar fieldValue) (.scalar lo) && jsLe h (.scalar fieldValue) (.scalar hi)
      | _ => false
    else if operator = "in" then
      match value with
      | .arr xs => xs.any (fun x => x.sameValueZero fieldValue)
      | _ => false
    else true

/-- The function `filterData(data, params)`; `params = none` is a missing `params`. -/
def filterData (h : Host) (data : List Row) (params : Option FilterParams) : List Row :=
  match params with
  | none => data
  | some p =>
    match p.conditions with
    | none => data
    | some conditions => data.filter (fun row => conditions.all (conditionHolds h row))

/-! ## `sortData` -/

/-- One sort key `{ column, direction }`. -/
structure SortColumn where
  column : String
  direction : Option String

/-- The parameters of `sortData`; `none` is a `columns` that is missing or not an array. -/
structure SortParams where
  columns : Option (List SortColumn)

/-- The value of `comparison` for one sort key, before the direction is applied. -/
def compareValues (h : Host) (valA valB : Scalar) : JSNum :=
  if valA.isNullish then (if valB.isNullish then .fin 0 else .fin (-1))
  else if valB.isNullish then .fin 1
  else
    match valA, valB with
    | .date a, .date b => JSNum.sub a b
    | .str a, .str b => .fin (h.localeCompare a b)
    | _, _ =>
      if jsLt h (.scalar valA) (.scalar valB) then .fin (-1)
      else if jsGt h (.scalar valA) (.scalar valB) then .fin 1 else .fin 0

/-- The multiplier of a sort key: `direction === 'desc' ? -1 : 1`. -/
def directionSign (sortCol : SortColumn) : JSNum :=
  if sortCol.direction = some "desc" then .fin (-1) else .fin 1

/-- The comparator `(a, b) => ...` that `sortData` hands to `sort`. -/
def compareRows (h : Host) : List SortColumn → Row → Row → JSNum
  | [], _, _ => .fin 0
  | sortCol :: rest, a, b =>
    if compareValues h (a.get sortCol.column) (b.get sortCol.column) ≠ .fin 0 then
      JSNum.mul (compareValues h (a.get sortCol.column) (b.get sortCol.column))
        (directionSign sortCol)
    else compareRows h rest a b

/-- The order `Array.prototype.sort` derives from a comparator: `a` may stay before `b`
unless the comparator returns a positive number. -/
def sortsBefore {α : Type} (cmp : α → α → JSNum) (a b : α) : Prop :=
  JSNum.lt (.fin 0) (cmp a b) = false

instance {α : Type} (cmp : α → α → JSNum) : DecidableRel (sortsBefore cmp) :=
  fun a b => inferInstanceAs (Decidable (JSNum.lt (.fin 0) (cmp a b) = false))

/-- The function `sortData(data, params)`; `params = none` is a missing `params`. -/
def sortData (h : Host) (data : List Row) (params : Option SortParams) : List Row :=
  match params with
  | none => data
  | some p =>
    match p.columns with
    | none => data
    | some columns =>
      if columns.length = 0 then data
      else data.insertionSort (sortsBefore (compareRows h columns))

/-! ## `convertValueType` -/

/-- The white space and line terminators that `String.prototype.trim` removes. -/
def isTrimChar (c : Char) : Bool :=
  [0x09, 0x0A, 0x0B, 0x0C, 0x0D, 0x20, 0xA0, 0x1680, 0x2000, 0x2001, 0x2002, 0x2003, 0x2004,
   0x2005, 0x2006, 0x2007, 0x2008, 0x2009, 0x200A, 0x2028, 0x2029, 0x202F, 0x205F, 0x3000,
   0xFEFF].contains c.toNat

/-- The characters of a string without the leading and trailing white space. -/
def trimChars (cs : List Char) : List Char :=
  ((cs.dropWhile isTrimChar).reverse.dropWhile isTrimChar).reverse

/-- The method `s.trim()`. -/
def jsTrim (s : String) : String := ⟨trimChars s.data⟩

/-- The characters after an optional leading `-`. -/
def dropSign : List Char → List Char
  | '-' :: rest => rest
  | cs => cs

/-- The test of the regular expression `/^-?\d+(\.\d+)?$/`. -/
def numberPattern (cs : List Char) : Bool :=
  let body := dropSign cs
  let intPart := body.takeWhile Char.isDigit
  !intPart.isEmpty &&
    (match body.dropWhile Char.isDigit with
     | [] => true
     | '.' :: frac => !frac.isEmpty && frac.all Char.isDigit
     | _ => false)

/-- The number a sequence of decimal digits denotes, read from the left. -/
def digitsValue (ds : List Char) : Nat :=
  ds.foldl (fun acc d => 10 * acc + (d.toNat - 48)) 0

/-- The function `parseFloat` on a signed decimal numeral (the only strings
`convertValueType` hands to it): the value of the digits before the point plus the value of
the digits after it scaled by their number, negated after a leading `-`, rounded to the
nearest double; `NaN` without a digit.  (The language lets an engine ignore the digits after
the twentieth significant one; the engines round the whole numeral, and so does this
definition.) -/
def parseFloat (cs : List Char) : JSNum :=
  let body := dropSign cs
  let intPart := body.takeWhile Char.isDigit
  let frac :=
    match body.dropWhile Char.isDigit with
    | '.' :: rest => rest.takeWhile Char.isDigit
    | _ => []
  if intPart.isEmpty && frac.isEmpty then .nan
  else
    let magnitude : ℚ := (digitsValue intPart : ℚ) + (digitsValue frac : ℚ) / 10 ^ frac.length
    roundToDouble (if body ≠ cs then -magnitude else magnitude)

/-- Reads exactly `n` decimal digits and returns the characters after them. -/
def expectDigits : Nat → List Char → Option (List Char)
  | 0, cs => some cs
  | n + 1, c :: cs => if c.isDigit then expectDigits n cs else none
  | _ + 1, [] => none

/-- Reads the character `c` and returns the characters after it. -/
def expectChar (c : Char) : List Char → Option (List Char)
  | d :: cs => if d = c then some cs else none
  | [] => none

/-- The zone `(Z|[+-]\d{2}:\d{2})?$` that may end a date-time. -/
def zonePattern : List Char → Bool
  | [] => true
  | ['Z'] => true
  | s :: rest =>
    (s = '+' || s = '-') &&
      ((expectDigits 2 rest).bind (fun r => (expectChar ':' r).bind (expectDigits 2)) == some [])

/-- The test of the regular expression
`/^\d{4}-\d{2}-\d{2}(T\d{2}:\d{2}:\d{2}(\.\d{3})?(Z|[+-]\d{2}:\d{2})?)?$/`. -/
def datePattern (cs : List Char) : Bool :=
  match (expectDigits 4 cs).bind (fun r => (expectChar '-' r).bind (fun r =>
      (expectDigits 2 r).bind (fun r => (expectChar '-' r).bind (expectDigits 2)))) with
  | none => false
  | some [] => true
  | some ('T' :: time) =>
    match (expectDigits 2 time).bind (fun r => (expectChar ':' r).bind (fun r =>
        (expectDigits 2 r).bind (fun r => (expectChar ':' r).bind (expectDigits 2)))) with
    | none => false
    | some ('.' :: millis) =>
      (match expectDigits 3 millis with
       | some zone => zonePattern zone
       | none => false)
    | some zone => zonePattern zone
  | some _ => false

/-- The function `convertValueType(value)`. -/
def convertValueType (h : Host) : Scalar → Scalar
  | .str value =>
    let trimmed := jsTrim value
    if trimmed = "" then .str ""
    else if numberPattern trimmed.data then .num (parseFloat trimmed.data)
    else if h.toLowerCase trimmed = "true" then .bool true
    else if h.toLowerCase trimmed = "false" then .bool false
    else if datePattern trimmed.data && !(h.dateParse trimmed).isNaN then
      .date (h.dateParse trimmed)
    else .str trimmed
  | value => value

/-! ## The wording of the specification

Definitions that follow the words of the specification, to be compared with the code. -/

/-- The specification's number pattern: an optional leading `-`, one or more digits, and
optionally a `.` followed by one or more digits. -/
def IsDecimalNumeral (cs : List Char) : Prop :=
  ∃ (negative : Bool) (intPart frac : List Char),
    intPart ≠ [] ∧ (∀ c ∈ intPart, c.isDigit = true) ∧ (∀ c ∈ frac, c.isDigit = true) ∧
    cs = (if negative then ['-'] else []) ++ intPart ++ (if frac = [] then [] else '.' :: frac)

/-- The decimal value the specification's numeral denotes: each digit weighs ten times the
digit to its right, the digits after the point are scaled by their number. -/
def decimalValue (negative : Bool) (intPart frac : List Char) : ℚ :=
  (if negative then -1 else 1) *
    ((Nat.ofDigits 10 (intPart.reverse.map (fun d => d.toNat - 48)) : ℚ) +
      (Nat.ofDigits 10 (frac.reverse.map (fun d => d.toNat - 48)) : ℚ) / 10 ^ frac.length)

/-! ## A host for concrete evaluation -/

/-- A host for evaluating the definitions on concrete inputs: strings compare by code
point, lower case is ASCII lower case, the other conversions are constant. -/
def plainHost : Host where
  numberToString := fun _ => "?"
  stringToNumber := fun _ => .nan
  dateToString := fun _ => "Invalid Date"
  dateParse := fun _ => .nan
  localeCompare := fun a b => if a.data < b.data then -1 else if b.data < a.data then 1 else 0
  toLowerCase := fun s => ⟨s.data.map Char.toLower⟩

/-! ## Concrete inputs -/

/-- The rows of the pivot scenario of the specification. -/
def scenarioRows : List Row :=
  [[("r", .str "A"), ("c", .str "X"), ("v", .num (.fin 10))],
   [("r", .str "A"), ("c", .str "Y"), ("v", .num (.fin 5))],
   [("r", .str "B"), ("c", .str "X"), ("v", .num (.fin 3))]]

/-- The parameters of the pivot scenario: rows by `r`, columns by `c`, sum of `v`. -/
def scenarioParams : PivotParams :=
  { rowFields := some (.many ["r"]), columnField := some "c", valueField := some "v",
    aggregationFunc := some "sum" }

/-- The rows the specification expects from the pivot scenario. -/
def scenarioClaimedOutput : List (JSObject JSValue) :=
  [[("r", .str "A"), ("X", .num (.fin 10)), ("Y", .num (.fin 5))],
   [("r", .str "B"), ("X", .num (.fin 3)), ("Y", .null)]]

/-- The rows `pivotData` returns for the pivot scenario. -/
def scenarioOutput : List (JSObject JSValue) :=
  [[("_key", .str "A"), ("r", .str "A"), ("X", .num (.fin 10)), ("Y", .num (.fin 5))],
   [("_key", .str "B"), ("r", .str "B"), ("X", .num (.fin 3)), ("Y", .null)]]

/-- A dataset whose pivot column holds a value that starts with an underscore. -/
def underscoreRows : List Row :=
  [[("r", .str "A"), ("c", .str "_x"), ("v", .num (.fin 5))]]

/-- A dataset whose pivot column holds both `X` and the name `_count_X` of the counter
that the `avg` aggregation keeps for `X`. -/
def collisionRows : List Row :=
  [[("r", .str "A"), ("c", .str "_count_X"), ("v", .num (.fin 5))],
   [("r", .str "A"), ("c", .str "X"), ("v", .num (.fin 3))]]

/-- The parameters of the pivot scenario with the `avg` aggregation. -/
def avgParams : PivotParams := { scenarioParams with aggregationFunc := some "avg" }

/-! ## Auxiliary notions of the statements -/

/-- The sum of the `count` fields of a list of rows. -/
def countTotal (h : Host) (rows : List Row) : JSNum :=
  rows.foldl (fun total row => JSNum.add total ((row.get "count").toNumber h)) (.fin 0)

/-- The law `localeCompare` obeys as a consistent comparison of strings: exchanging the
arguments exchanges the sign of the result. -/
def localeCompareAntisymmetric (h : Host) : Prop :=
  ∀ a b : String,
    (h.localeCompare a b = 0 → h.localeCompare b a = 0) ∧
    (0 < h.localeCompare a b → h.localeCompare b a < 0) ∧
    (h.localeCompare a b < 0 → 0 < h.localeCompare b a)

/-- Two comparison results that answer each other: one is zero exactly when the other is,
and after multiplication by a direction they are never both positive. -/
def Opposed (x y : JSNum) : Prop :=
  (x = .fin 0 ↔ y = .fin 0) ∧
  ∀ d : JSNum, d = .fin 1 ∨ d = .fin (-1) →
    ¬ (JSNum.lt (.fin 0) (JSNum.mul x d) = true ∧ JSNum.lt (.fin 0) (JSNum.mul y d) = true)

/-- A dataset in which the column `v` is missing from one of the two rows of group `a`. -/
def overwriteRows : List Row :=
  [[("g", .str "a"), ("v", .num (.fin 1))],
   [("g", .str "a"), ("v", .null)]]

/-- Aggregation parameters that name the output of a `count` aggregation `count`. -/
def overwriteParams : AggregateParams :=
  { groupBy := some (.single "g"),
    aggregations := some [{ column := "v", function := "count", as := some "count" }] }

/-- A host whose `localeCompare` finds all strings equal. -/
def neutralHost : Host := { plainHost with localeCompare := fun _ _ => 0 }

/-! ## `detectColumnType` and `getDataStatistics` -/

namespace JSNum

/-- The value of `Math.abs(x)`. -/
def abs : JSNum → JSNum
  | fin q => fin |q|
  | nan => nan
  | _ => posInf

/-- The value of `Math.pow(x, 2)`. -/
def square (x : JSNum) : JSNum := mul x x

/-- The operator `a >= b` on numbers: false when either is `NaN`. -/
def ge (a b : JSNum) : Bool := !a.isNaN && !b.isNaN && !lt a b

end JSNum

/-- The functions of `Math` that are not rational: the repository calls them, the engine
defines them. -/
structure JSMath where
  /-- The function `Math.exp`. -/
  exp : JSNum → JSNum
  /-- The function `Math.sqrt`. -/
  sqrt : JSNum → JSNum

/-- The result of `typeof value`; a date, like `null`, is an object. -/
def Scalar.typeOf : Scalar → String
  | .undefined => "undefined"
  | .null => "object"
  | .bool _ => "boolean"
  | .num _ => "number"
  | .str _ => "string"
  | .date _ => "object"

/-- The test `value instanceof Date`. -/
def Scalar.isDate : Scalar → Bool
  | .date _ => true
  | _ => false

/-- The counters of `detectColumnType`. -/
structure TypeCounts where
  number : Nat
  string : Nat
  boolean : Nat
  date : Nat
  null : Nat
  other : Nat
  deriving DecidableEq

/-- The callback of `values.reduce` in `detectColumnType`: one value is counted under the
first test it passes, in the order of the source. -/
def countType (counts : TypeCounts) (value : Scalar) : TypeCounts :=
  if value.isDate then { counts with date := counts.date + 1 }
  else if value.typeOf = "number" then { counts with number := counts.number + 1 }
  else if value.typeOf = "boolean" then { counts with boolean := counts.boolean + 1 }
  else if value.typeOf = "string" then { counts with string := counts.string + 1 }
  else if value = .null ∨ value = .undefined ∨ value = .str "" then
    { counts with null := counts.null + 1 }
  else { counts with other := counts.other + 1 }

/-- The counters after every value has been counted. -/
def typeCounts (values : List Scalar) : TypeCounts :=
  values.foldl countType { number := 0, string := 0, boolean := 0, date := 0, null := 0, other := 0 }

/-- The test `count / nonNullCount > 0.75`. -/
def exceedsThreshold (count nonNullCount : Nat) : Bool :=
  JSNum.lt (.fin 0.75) (JSNum.div (.fin count) (.fin nonNullCount))

/-- The function `detectColumnType(values)`. -/
def detectColumnType (values : List Scalar) : String :=
  let counts := typeCounts values
  let nonNullCount := values.length - counts.null
  if exceedsThreshold counts.number nonNullCount then "number"
  else if exceedsThreshold counts.date nonNullCount then "date"
  else if exceedsThreshold counts.boolean nonNullCount then "boolean"
  else if exceedsThreshold counts.string nonNullCount then "string"
  else "mixed"

/-- The statistics of one column; `none` is a property that is not set. -/
structure ColumnStats where
  type : String
  notNull : Nat
  null : Nat
  min : Option Scalar
  max : Option Scalar
  sum : Option JSNum
  mean : Option JSNum
  stdDev : Option JSNum
  uniqueValues : Option Nat
  mostFrequent : Option (List (String × Nat))

/-- The number held by a value of type number. -/
def Scalar.number? : Scalar → Option JSNum
  | .num n => some n
  | _ => none

/-- The time value held by a date. -/
def Scalar.time? : Scalar → Option JSNum
  | .date t => some t
  | _ => none

/-- The value of `Math.min(...xs)`. -/
def mathMin (xs : List JSNum) : JSNum := xs.foldl JSNum.min .posInf

/-- The value of `Math.max(...xs)`. -/
def mathMax (xs : List JSNum) : JSNum := xs.foldl JSNum.max .negInf

/-- The sum `xs.reduce((sum, v) => sum + v, 0)`. -/
def sumOf (xs : List JSNum) : JSNum := xs.foldl JSNum.add (.fin 0)

/-- The variance `xs.reduce((sum, v) => sum + Math.pow(v - mean, 2), 0) / xs.length`. -/
def varianceOf (xs : List JSNum) (mean : JSNum) : JSNum :=
  JSNum.div (xs.foldl (fun sum v => JSNum.add sum (JSNum.square (JSNum.sub v mean))) (.fin 0))
    (.fin xs.length)

/-- The time value of `new Date(t)`: a whole number of milliseconds within the range of
dates, `NaN` otherwise. -/
def timeClip : JSNum → JSNum
  | .fin q => if 8640000000000000 < |q| then .nan
      else if 0 ≤ q then .fin (Rat.floor q) else .fin (Rat.ceil q)
  | _ => .nan

/-- The body of the loop that counts strings: `valueCounts[v] = (valueCounts[v] || 0) + 1`
for a value of type string, nothing for another value. -/
def countString (valueCounts : JSObject Nat) (v : Scalar) : JSObject Nat :=
  match v with
  | .str s => valueCounts.set s ((valueCounts.get? s).getD 0 + 1)
  | _ => valueCounts

/-- The object `valueCounts` of `getDataStatistics`: the number of occurrences of every
string of the column. -/
def countStrings (values : List Scalar) : JSObject Nat :=
  values.foldl countString []

/-- The comparator `(a, b) => b[1] - a[1]` of the entries of `valueCounts`. -/
def compareCounts (a b : String × Nat) : JSNum := JSNum.sub (.fin b.2) (.fin a.2)

/-- The ten most frequent strings:
`Object.entries(valueCounts).sort((a, b) => b[1] - a[1]).slice(0, 10)`. -/
def mostFrequentOf (valueCounts : JSObject Nat) : List (String × Nat) :=
  (valueCounts.insertionSort (sortsBefore compareCounts)).take 10

/-- The body of `columnNames.forEach` in `getDataStatistics`: the statistics of the column
with the given values. -/
def columnStatsOf (m : JSMath) (values : List Scalar) : ColumnStats :=
  let dataType := detectColumnType values
  let numericValues := values.filterMap Scalar.number?
  let dateValues := values.filterMap Scalar.time?
  let valueCounts := countStrings values
  let mean := JSNum.div (sumOf numericValues) (.fin numericValues.length)
  { type := dataType,
    notNull := (values.filter (fun v => !v.isMissing)).length,
    null := (values.filter (fun v => v.isMissing)).length,
    min := if dataType = "number" then some (.num (mathMin numericValues))
      else if dataType = "date" then some (.date (timeClip (mathMin dateValues))) else none,
    max := if dataType = "number" then some (.num (mathMax numericValues))
      else if dataType = "date" then some (.date (timeClip (mathMax dateValues))) else none,
    sum := if dataType = "number" then some (sumOf numericValues) else none,
    mean := if dataType = "number" then some mean else none,
    stdDev := if dataType = "number" then some (m.sqrt (varianceOf numericValues mean)) else none,
    uniqueValues := if dataType = "string" then some (JSObject.keys valueCounts).length else none,
    mostFrequent := if dataType = "string" then some (mostFrequentOf valueCounts) else none }

/-- The result of `getDataStatistics`. -/
structure Statistics where
  rowCount : Nat
  columnCount : Nat
  columns : JSObject ColumnStats

/-- The rows `getDataStatistics` analyses: `data || dataStore.currentData || []`, where
`none` is `null` and every array, also an empty one, is truthy. -/
def dataToAnalyze (currentData data : Option (List Row)) : List Row :=
  (data.orElse (fun _ => currentData)).getD []

/-- The values of a column: `dataToAnalyze.map(row => row[col])`. -/
def valuesOf (rows : List Row) (col : String) : List Scalar :=
  rows.map (fun row => row.get col)

/-- The function `getDataStatistics(data)`: `data = none` is a call without data, which
falls back on the current data of the store (`currentData`, `none` when it is `null`). -/
def getDataStatistics (m : JSMath) (currentData : Option (List Row))
    (data : Option (List Row)) : Statistics :=
  match dataToAnalyze currentData data with
  | [] => { rowCount := 0, columnCount := 0, columns := [] }
  | first :: rest =>
    let columnNames := JSObject.keys first
    { rowCount := (first :: rest).length,
      columnCount := columnNames.length,
      columns := columnNames.foldl (fun columns col =>
        columns.set col (columnStatsOf m (valuesOf (first :: rest) col))) [] }

/-! ## `calculateVariableStatistics` and the normal distribution -/

/-- The result of `calculateVariableStatistics`; `min`, `max` and `median` are `undefined`
for an empty list. -/
structure VariableStatistics where
  count : Nat
  mean : JSNum
  stdDev : JSNum
  variance : JSNum
  min : Scalar
  max : Scalar
  median : Scalar
  range : JSNum

/-- The read `xs[i]` of an array of numbers: `undefined` past the end. -/
def elementAt (xs : List JSNum) (i : Nat) : Scalar :=
  match xs.get? i with
  | some v => .num v
  | none => .undefined

/-- The comparator `(a, b) => a - b`. -/
def compareNumbers (a b : JSNum) : JSNum := JSNum.sub a b

/-- The function `calculateVariableStatistics(values)`. -/
def calculateVariableStatistics (m : JSMath) (values : List JSNum) : VariableStatistics :=
  let n := values.length
  let mean := JSNum.div (sumOf values) (.fin n)
  let variance := varianceOf values mean
  let sortedValues := values.insertionSort (sortsBefore compareNumbers)
  { count := n,
    mean := mean,
    stdDev := m.sqrt variance,
    variance := variance,
    min := elementAt sortedValues 0,
    max := elementAt sortedValues (sortedValues.length - 1),
    median := elementAt sortedValues (n / 2),
    range :=
      match sortedValues.get? (sortedValues.length - 1), sortedValues.get? 0 with
      | some hi, some lo => JSNum.sub hi lo
      | _, _ => .nan }

/-- The polynomial of the Abramowitz and Stegun approximation, in Horner form. -/
def tailPolynomial (t : JSNum) : JSNum :=
  JSNum.add (.fin 0.3193815) (JSNum.mul t
    (JSNum.add (.fin (-0.3565638)) (JSNum.mul t
      (JSNum.add (.fin 1.7814779) (JSNum.mul t
        (JSNum.add (.fin (-1.8212560)) (JSNum.mul t (.fin 1.3302744))))))))

/-- The function `normalCDF(x)` in exact arithmetic. -/
def normalCDF (m : JSMath) (x : JSNum) : JSNum :=
  let t := JSNum.div (.fin 1) (JSNum.add (.fin 1) (JSNum.mul (.fin 0.2316419) (JSNum.abs x)))
  let d := JSNum.mul (.fin 0.3989423) (m.exp (JSNum.div (JSNum.mul (JSNum.neg x) x) (.fin 2)))
  let prob := JSNum.mul (JSNum.mul d t) (tailPolynomial t)
  if JSNum.lt (.fin 0) x then JSNum.sub (.fin 1) prob else prob

/-- The function `calculateNormalProbability(x, mean, stdDev)` in exact arithmetic. -/
def calculateNormalProbability (m : JSMath) (x mean stdDev : JSNum) : JSNum :=
  normalCDF m (JSNum.div (JSNum.sub x mean) stdDev)

/-- The polynomial of `normalCDF` in double arithmetic, in the order of the source. -/
def tailPolynomial64 (t : JSNum) : JSNum :=
  JSNum.fadd (literal 0.3193815) (JSNum.fmul t
    (JSNum.fadd (literal (-0.3565638)) (JSNum.fmul t
      (JSNum.fadd (literal 1.7814779) (JSNum.fmul t
        (JSNum.fadd (literal (-1.8212560)) (JSNum.fmul t (literal 1.3302744))))))))

/-- The value of `t` in `normalCDF(x)`, in double arithmetic. -/
def t64 (x : JSNum) : JSNum :=
  JSNum.fdiv (.fin 1) (JSNum.fadd (.fin 1) (JSNum.fmul (literal 0.2316419) (JSNum.abs x)))

/-- The argument `-x * x / 2.0` of `Math.exp` in `normalCDF(x)`, in double arithmetic. -/
def expArgument64 (x : JSNum) : JSNum := JSNum.fdiv (JSNum.fmul (JSNum.neg x) x) (.fin 2)

/-- The value of `prob` in `normalCDF(x)` before the branch on the sign of `x`, in double
arithmetic. -/
def tail64 (m : JSMath) (x : JSNum) : JSNum :=
  let t := t64 x
  let d := JSNum.fmul (literal 0.3989423) (m.exp (expArgument64 x))
  JSNum.fmul (JSNum.fmul d t) (tailPolynomial64 t)

/-- The function `normalCDF(x)` in double arithmetic. -/
def normalCDF64 (m : JSMath) (x : JSNum) : JSNum :=
  if JSNum.lt (.fin 0) x then JSNum.fsub (.fin 1) (tail64 m x) else tail64 m x

/-- The function `calculateNormalProbability(x, mean, stdDev)` in double arithmetic. -/
def calculateNormalProbability64 (m : JSMath) (x mean stdDev : JSNum) : JSNum :=
  normalCDF64 m (JSNum.fdiv (JSNum.fsub x mean) stdDev)

/-- An entry of `calculationHistory`.  The text of the calculation is represented by the
bounds it is written from; the time stamp is left out. -/
structure HistoryItem where
  type : String
  bounds : List JSNum
  probability : JSNum
  variableName : Option String
  mean : JSNum
  stdDev : JSNum

/-- The module state of the probabilistic analysis that the range query reads and writes. -/
structure ProbState where
  currentVariable : Option String
  variableStats : Option VariableStatistics
  calculationHistory : List HistoryItem

/-- What `showResult` puts in the result element: an error message, or the probability the
result text is written from. -/
inductive ResultContent
  | error (message : String)
  | probability (p : JSNum)

/-- The effect of a query: what is shown (`none` when nothing is) and the state after. -/
structure QueryOutcome where
  shown : Option ResultContent
  state : ProbState

/-- The function `addToHistory(type, calculation, probability)`: the entry goes first and
the history keeps its 20 first entries. -/
def addToHistory (state : ProbState) (stats : VariableStatistics) (type : String)
    (bounds : List JSNum) (probability : JSNum) : ProbState :=
  { state with calculationHistory :=
      ({ type := type, bounds := bounds, probability := probability,
         variableName := state.currentVariable, mean := stats.mean, stdDev := stats.stdDev }
        :: state.calculationHistory).take 20 }

/-- The function `calculateRangeProbability()`: `elementsPresent` says whether the page has
the two inputs and the result element, `minValue` and `maxValue` are the numbers that
`parseFloat` reads from the inputs. -/
def calculateRangeProbability (m : JSMath) (state : ProbState) (elementsPresent : Bool)
    (minValue maxValue : JSNum) : QueryOutcome :=
  match state.variableStats with
  | none => { shown := none, state := state }
  | some stats =>
    if !elementsPresent then { shown := none, state := state }
    else if minValue.isNaN || maxValue.isNaN then
      { shown := some (.error "Por favor ingresa valores numéricos válidos"), state := state }
    else if JSNum.ge minValue maxValue then
      { shown := some (.error "El valor mínimo debe ser menor que el máximo"), state := state }
    else
      let pMin := calculateNormalProbability m minValue stats.mean stats.stdDev
      let pMax := calculateNormalProbability m maxValue stats.mean stats.stdDev
      let probability := JSNum.sub pMax pMin
      { shown := some (.probability probability),
        state := addToHistory state stats "Entre rangos" [minValue, maxValue] probability }

/-- A law of `Math.exp`: on the numbers up to `0` its value is a number between `0` and
`1`. -/
def expBounded (m : JSMath) : Prop :=
  ∀ y : ℚ, y ≤ 0 → ∃ e : ℚ, m.exp (.fin y) = .fin e ∧ 0 ≤ e ∧ e ≤ 1

/-- A law of `Math.exp`: on the numbers up to `0` its value does not decrease. -/
def expMonotone (m : JSMath) : Prop :=
  ∀ y z e f : ℚ, y ≤ z → z ≤ 0 → m.exp (.fin y) = .fin e → m.exp (.fin z) = .fin f → e ≤ f

/-- A `Math` for concrete evaluation: `exp` is `1` at `0` and `0` elsewhere, `sqrt` is
exact on `0`, `1` and `4` and `NaN` elsewhere. -/
def plainMath : JSMath where
  exp := fun y => if y = .fin 0 then .fin 1 else .fin 0
  sqrt := fun y => if y = .fin 0 then .fin 0 else if y = .fin 1 then .fin 1
    else if y = .fin 4 then .fin 2 else .nan

/-- A `Math` whose `exp` is a step function that does not decrease, with values in `[0, 1]`
on the numbers up to `0`.  At the three arguments that the evaluations of `normalCDF64` on
concrete doubles read, it takes the values a double-precision engine returns:
`Math.exp(-0.5)` is `2731571253070597 / 2^52`, and `Math.exp` is `3974412721635417 / 2^52`
both at `-2251799813686082 / 2^54` and at `-2251799813686081 / 2^54`. -/
def doubleMath : JSMath where
  exp := fun y =>
    match y with
    | .fin q =>
      if 0 ≤ q then .fin 1
      else if -2251799813686082 / 2 ^ 54 ≤ q then .fin (3974412721635417 / 2 ^ 52)
      else if -1 / 2 ≤ q then .fin (2731571253070597 / 2 ^ 52)
      else .fin 0
    | .posInf => .posInf
    | .negInf => .fin 0
    | .nan => .nan
  sqrt := fun y => if y = .fin 0 then .fin 0 else if y = .fin 1 then .fin 1 else .nan

/-! ## The wording of the specification about columns -/

/-- The number of values of type number in a column. -/
def numberCount (values : List Scalar) : Nat :=
  (values.filter (fun v => decide (v.typeOf = "number"))).length

/-- The number of non-null values of a column in the sense of the specification: the values
other than `null`, `undefined` and the empty string. -/
def nonNullCount (values : List Scalar) : Nat :=
  (values.filter (fun v => decide (v ≠ .null ∧ v ≠ .undefined ∧ v ≠ .str ""))).length

/-- The string held by a value of type string. -/
def Scalar.string? : Scalar → Option String
  | .str s => some s
  | _ => none

/-- The strings of a column in the order in which they are first encountered. -/
def firstEncountered (values : List Scalar) : List String :=
  dedupBy (fun a b => decide (a = b)) (values.filterMap Scalar.string?)

/-- Pairs with equal counts appear in the order of `order`: for every count, the values
that have it are listed as `order` lists them. -/
def TiesInOrderOf (order : List String) (pairs : List (String × Nat)) : Prop :=
  ∀ c : Nat, ((pairs.filter (fun p => decide (p.2 = c))).map Prod.fst).Sublist order

/-! ## Concrete columns and queries -/

/-- A column with one number and three empty strings. -/
def emptyStringColumn : List Scalar := [.str "", .str "", .str "", .num (.fin 1)]

/-- A dataset whose column `a` holds four numbers and one string. -/
def mixedNumberRows : List Row :=
  [[("a", .num (.fin 1))], [("a", .num (.fin 2))], [("a", .num (.fin 3))],
   [("a", .num (.fin 4))], [("a", .str "x")]]

/-- A dataset whose column `a` holds the strings `5` and `3`, in this order. -/
def indexStringRows : List Row := [[("a", .str "5")], [("a", .str "3")]]

/-- A dataset whose column `a` holds the strings `x`, `y`, `x`. -/
def letterRows : List Row := [[("a", .str "x")], [("a", .str "y")], [("a", .str "x")]]

/-- The statistics of a variable with mean `0` and standard deviation `1`. -/
def fittedStats : VariableStatistics :=
  { count := 2, mean := .fin 0, stdDev := .fin 1, variance := .fin 1,
    min := .num (.fin (-1)), max := .num (.fin 1), median := .num (.fin 1), range := .fin 2 }

/-- A state of the probabilistic analysis with a fitted model and an empty history. -/
def fittedState : ProbState :=
  { currentVariable := some "edad", variableStats := some fittedStats,
    calculationHistory := [] }

/-! ## The rational values inside `normalCDF` -/

/-- The value of `t = 1 / (1 + 0.2316419 * |z|)` for a rational `z`. -/
def tOf (z : ℚ) : ℚ := 1 / (1 + 0.2316419 * |z|)

/-- The value of `t * (0.3193815 + t * (...))` for a rational `t`. -/
def polyQ (t : ℚ) : ℚ :=
  t * (0.3193815 + t * (-0.3565638 + t * (1.7814779 + t * (-1.8212560 + t * 1.3302744))))

/-- The value of `prob` before the branch on the sign of `z`, for a rational `z` at which
`Math.exp(-z*z/2)` is `e`. -/
def tailQ (z e : ℚ) : ℚ := 0.3989423 * e * polyQ (tOf z)

/-! ## `cleanData` -/

/-- The options of `cleanData`; `none` is an option that is not given, which counts as
`true`. -/
structure CleanOptions where
  removeEmpty : Option Bool
  convertTypes : Option Bool
  trimStrings : Option Bool
  normalizeHeaders : Option Bool

/-- The replacement `.replace(/\s+/g, '_')` on the characters of a string: every run of white
space becomes one underscore (`inRun` says whether the character before was white space). -/
def underscoreRuns (inRun : Bool) : List Char → List Char
  | [] => []
  | c :: cs =>
    if isTrimChar c then (if inRun then underscoreRuns true cs else '_' :: underscoreRuns true cs)
    else c :: underscoreRuns false cs

/-- The normalised column name `key.trim().replace(/\s+/g, '_').toLowerCase()`. -/
def normalizeHeader (h : Host) (key : String) : String :=
  h.toLowerCase ⟨underscoreRuns false (trimChars key.data)⟩

/-- The test `Object.values(row).every(val => val === null || val === undefined || val === '')`
of an empty row. -/
def isEmptyRow (row : Row) : Bool := (JSObject.values row).all Scalar.isMissing

/-- The body of `Object.entries(row).forEach` in `cleanData`: one property of the row is
written to the clean row. -/
def cleanEntry (h : Host) (options : CleanOptions) (cleanRow : Row) (entry : String × Scalar) :
    Row :=
  let cleanKey := if options.normalizeHeaders.getD true then normalizeHeader h entry.1 else entry.1
  let trimmedValue :=
    match entry.2 with
    | .str s => if options.trimStrings.getD true then .str (jsTrim s) else entry.2
    | _ => entry.2
  let cleanValue :=
    if options.convertTypes.getD true then convertValueType h trimmedValue else trimmedValue
  cleanRow.set cleanKey cleanValue

/-- The function `cleanData(data, options)` on an array of rows. -/
def cleanData (h : Host) (data : List Row) (options : CleanOptions) : List Row :=
  (data.filter (fun row => !(options.removeEmpty.getD true && isEmptyRow row))).map
    (fun row => row.foldl (cleanEntry h options) [])

/-! ## `transformData` and the dataset store -/

/-- The object `params` of a transformation: each operation reads the fields it needs. -/
structure TransformParams where
  conditions : Option (List Condition)
  columns : Option (List SortColumn)
  groupBy : Option FieldSpec
  aggregations : Option (List Aggregation)
  rowFields : Option FieldSpec
  columnField : Option String
  valueField : Option String
  aggregationFunc : Option String

/-- The fields of `params` that `filterData` reads. -/
def TransformParams.toFilterParams (p : TransformParams) : FilterParams := ⟨p.conditions⟩

/-- The fields of `params` that `sortData` reads. -/
def TransformParams.toSortParams (p : TransformParams) : SortParams := ⟨p.columns⟩

/-- The fields of `params` that `aggregateData` reads. -/
def TransformParams.toAggregateParams (p : TransformParams) : AggregateParams :=
  ⟨p.groupBy, p.aggregations⟩

/-- The fields of `params` that `pivotData` reads. -/
def TransformParams.toPivotParams (p : TransformParams) : PivotParams :=
  ⟨p.rowFields, p.columnField, p.valueField, p.aggregationFunc⟩

/-- A transformation `{ type, params, description }`; `none` is a field that is not
given. -/
structure Transformation where
  type : Option String
  params : Option TransformParams
  description : Option String

/-- An entry of `dataStore.transformations`. -/
structure TransformationRecord where
  type : String
  params : Option TransformParams
  timestamp : String
  description : String

/-- A processed dataset `{ data, meta }`; `none` is a field that is not given. -/
structure Dataset where
  data : Option (List Row)
  meta : Option Row

/-- An entry of `dataStore.datasetHistory`.  An entry restored from the local storage has no
`data`. -/
structure DatasetEntry where
  id : Scalar
  timestamp : Scalar
  description : Scalar
  meta : Option Row
  data : Option (List Row)

/-- The module state `dataStore`; `none` is `null`. -/
structure DataStore where
  currentData : Option (List Row)
  currentMeta : Option Row
  datasetHistory : List DatasetEntry
  transformations : List TransformationRecord

/-- What the environment answers during one call. -/
structure CallEnv where
  /-- The string that `generateDatasetId()` returns. -/
  datasetId : String
  /-- The string that `new Date().toISOString()` returns. -/
  now : String
  /-- The method `toISOString` of a date with the given time value. -/
  dateToISOString : ℚ → String

/-- The constant `MAX_STORED_DATASETS`. -/
def MAX_STORED_DATASETS : Nat := 5

/-- The initial value of `dataStore`. -/
def initialStore : DataStore :=
  { currentData := none, currentMeta := none, datasetHistory := [], transformations := [] }

/-- The rows `transformData` works on: `data || dataStore.currentData || []`. -/
def dataToTransform (store : DataStore) (data : Option (List Row)) : List Row :=
  (data.orElse (fun _ => store.currentData)).getD []

/-- The `switch (transformation.type)` of `transformData`: the result of the operation, or
`none` in the `default` case. -/
def applyTransformation (h : Host) (type : String) (params : Option TransformParams)
    (rows : List Row) : Option (List (JSObject JSValue)) :=
  if type = "filter" then
    some ((filterData h rows (params.map TransformParams.toFilterParams)).map Row.lift)
  else if type = "sort" then
    some ((sortData h rows (params.map TransformParams.toSortParams)).map Row.lift)
  else if type = "aggregate" then
    some ((aggregateData h rows (params.map TransformParams.toAggregateParams)).map Row.lift)
  else if type = "pivot" then
    some (pivotData h rows (params.map TransformParams.toPivotParams))
  else none

/-- The effect of `transformData`: the rows it returns or the message of the error it
throws, and the store after the call. -/
structure TransformOutcome where
  result : Except String (List (JSObject JSValue))
  store : DataStore

/-- The function `transformData(data, transformation)`; `data = none` is a call with
`null`, `transformation = none` a call without transformation. -/
def transformData (h : Host) (env : CallEnv) (store : DataStore) (data : Option (List Row))
    (transformation : Option Transformation) : TransformOutcome :=
  let rows := dataToTransform store data
  if rows.length = 0 then { result := .ok [], store := store }
  else
    match transformation with
    | none => { result := .error "Transformación no válida", store := store }
    | some t =>
      if !optTruthy t.type then { result := .error "Transformación no válida", store := store }
      else
        match applyTransformation h (t.type.getD "") t.params rows with
        | none =>
          { result := .error ("Tipo de transformación no soportado: " ++ t.type.getD ""),
            store := store }
        | some transformedData =>
          { result := .ok transformedData,
            store := { store with transformations := store.transformations ++
              [{ type := t.type.getD "", params := t.params, timestamp := env.now,
                 description := if optTruthy t.description then t.description.getD ""
                   else "Transformación aplicada" }] } }

/-- The value a scalar has after `JSON.parse(JSON.stringify(...))`; `none` is a property
that is left out. -/
def jsonValue (env : CallEnv) : Scalar → Option Scalar
  | .undefined => none
  | .num (.fin q) => some (.num (.fin q))
  | .num _ => some .null
  | .date (.fin t) => some (.str (env.dateToISOString t))
  | .date _ => some .null
  | v => some v

/-- The copy `JSON.parse(JSON.stringify(row))` of a row. -/
def jsonCloneRow (env : CallEnv) (row : Row) : Row :=
  row.filterMap (fun kv => (jsonValue env kv.2).map (fun v => (kv.1, v)))

/-- The function `generateDatasetDescription(dataset)`. -/
def generateDatasetDescription (h : Host) (data : Option (List Row)) (meta : Option Row) :
    String :=
  let rows := data.getD []
  let datasetName :=
    if ((meta.getD []).get "datasetName").truthy then ((meta.getD []).get "datasetName").toStr h
    else "Dataset sin nombre"
  let colCount :=
    match rows with
    | first :: _ => (JSObject.keys first).length
    | [] => 0
  datasetName ++ " (" ++ toString rows.length ++ " filas, " ++ toString colCount ++ " columnas)"

/-- The entry `datasetCopy` that `addToDatasetHistory` builds: the copy of the dataset with
its id, time stamp and description. -/
def historyEntry (h : Host) (env : CallEnv) (dataset : Dataset) : DatasetEntry :=
  let data := dataset.data.map (fun rows => rows.map (jsonCloneRow env))
  let meta := dataset.meta.map (jsonCloneRow env)
  { id := .str env.datasetId, timestamp := .str env.now,
    description := .str (generateDatasetDescription h data meta), meta := meta, data := data }

/-- The function `addToDatasetHistory(dataset)`. -/
def addToDatasetHistory (h : Host) (env : CallEnv) (store : DataStore) (dataset : Dataset) :
    DataStore :=
  let datasetHistory := historyEntry h env dataset :: store.datasetHistory
  { store with datasetHistory :=
      if datasetHistory.length > MAX_STORED_DATASETS
      then datasetHistory.take MAX_STORED_DATASETS else datasetHistory }

/-- An element of `datasetHistory` in the object that `saveToLocalStorage` writes. -/
structure Snapshot where
  id : Scalar
  timestamp : Scalar
  description : Scalar
  meta : Option Row
  dataSample : List Row
  totalRows : Nat

/-- The object `storageData` that `saveToLocalStorage` writes. -/
structure StorageData where
  lastUpdated : String
  currentDatasetId : Scalar
  datasetHistory : List Snapshot

/-- The callback of `dataStore.datasetHistory.map` in `saveToLocalStorage`. -/
def snapshotOf (dataset : DatasetEntry) : Snapshot :=
  { id := dataset.id, timestamp := dataset.timestamp, description := dataset.description,
    meta := dataset.meta,
    dataSample := (dataset.data.map (fun rows => rows.take 100)).getD [],
    totalRows := (dataset.data.map (fun rows => rows.length)).getD 0 }

/-- The read `dataStore.currentMeta?.id`. -/
def currentMetaId (store : DataStore) : Scalar :=
  match store.currentMeta with
  | some meta => meta.get "id"
  | none => .undefined

/-- The function `saveToLocalStorage()`: the object it hands to `JSON.stringify` for the
local storage. -/
def saveToLocalStorage (env : CallEnv) (store : DataStore) : StorageData :=
  { lastUpdated := env.now, currentDatasetId := currentMetaId store,
    datasetHistory := store.datasetHistory.map snapshotOf }

/-- The function `removeDatasetFromHistory(datasetId)`: the store after the call (the call
then saves the store and updates the page). -/
def removeDatasetFromHistory (store : DataStore) (datasetId : Scalar) : DataStore :=
  let datasetHistory := store.datasetHistory.filter (fun dataset => !dataset.id.strictEq datasetId)
  if (currentMetaId store).strictEq datasetId then
    { store with datasetHistory := datasetHistory, currentData := none, currentMeta := none }
  else { store with datasetHistory := datasetHistory }

/-- The function `clearAllData()`: the store after the call. -/
def clearAllData : DataStore :=
  { currentData := none, currentMeta := none, datasetHistory := [], transformations := [] }

/-- An operation on the history of datasets. -/
inductive StoreOp
  | add (env : CallEnv) (dataset : Dataset)
  | remove (datasetId : Scalar)
  | clear

/-- The store after an operation. -/
def StoreOp.apply (h : Host) (store : DataStore) : StoreOp → DataStore
  | .add env dataset => addToDatasetHistory h env store dataset
  | .remove datasetId => removeDatasetFromHistory store datasetId
  | .clear => clearAllData

/-! ## The CSV texts -/

/-- The field a value becomes in `downloadStatisticsData`: a string with a comma is put
between double quotes. -/
def statisticsField (value : Scalar) : Scalar :=
  match value with
  | .str s => if s.data.contains ',' then .str ("\"" ++ s ++ "\"") else value
  | _ => value

/-- The text `csvContent` that `downloadStatisticsData` builds from the selected data;
`none` when there is no data to download. -/
def downloadStatisticsData (h : Host) (data : Option (List Row)) : Option String :=
  match data with
  | some (first :: rest) =>
    let headers := JSObject.keys first
    some (String.intercalate "\n" (String.intercalate "," headers ::
      (first :: rest).map (fun row =>
        joinWith h "," (headers.map (fun header => statisticsField (row.get header))))))
  | _ => none

/-- The replacement `.replace(/"/g, '""')` on the characters of a string. -/
def doubleQuotes (cs : List Char) : List Char :=
  cs.foldr (fun c acc => if c = '"' then '"' :: '"' :: acc else c :: acc) []

/-- The field a value becomes in `generateTestCSV`: a string with a comma or a double quote
is put between double quotes, its double quotes doubled. -/
def testField (value : Scalar) : Scalar :=
  match value with
  | .str s =>
    if s.data.contains ',' || s.data.contains '"'
    then .str ("\"" ++ String.mk (doubleQuotes s.data) ++ "\"") else value
  | _ => value

/-- The text that `generateTestCSV` returns for the rows of a test dataset. -/
def generateTestCSV (h : Host) (data : List Row) : String :=
  match data with
  | first :: rest =>
    let headers := JSObject.keys first
    String.intercalate "\n" (String.intercalate "," headers ::
      (first :: rest).map (fun row =>
        joinWith h "," (headers.map (fun header => testField (row.get header)))))
  | [] => ""

/-! ## Notions of the statements about groups and operations -/

/-- The names of the aggregation functions that `aggregateData` implements. -/
def aggregateFunctions : List String :=
  ["sum", "avg", "min", "max", "count", "count_distinct", "first", "last", "list"]

/-- The names of the aggregation functions that `pivotData` implements. -/
def pivotFunctions : List String :=
  ["sum", "avg", "min", "max", "count", "first", "last", "list"]

/-- The values of a row in the group-by columns. -/
def groupValues (groupBy : FieldSpec) (row : Row) : List Scalar :=
  groupBy.toList.map row.get

/-- Two rows are in the same group of `aggregateData`: one group holds both in `_rows`. -/
def SameGroup (h : Host) (groupBy : FieldSpec) (data : List Row) (a b : Row) : Prop :=
  ∃ kv ∈ buildGroups h groupBy data, a ∈ kv.2.rows ∧ b ∈ kv.2.rows

/-- The rows that a map of groups holds under a key: none when it has no such group. -/
def rowsOf (groups : JSObject Group) (key : String) : List Row :=
  ((groups.get? key).map (fun g => g.rows)).getD []

/-- The key of a group written from the values of the group-by columns. -/
def keyOfValues (h : Host) (groupBy : FieldSpec) (values : List Scalar) : String :=
  match groupBy with
  | .many _ => joinWith h "|" values
  | .single _ => (values.headD .undefined).toStr h

/-- No group-by value of the dataset is a string that contains the separator `|`. -/
def SeparatorFree (groupBy : FieldSpec) (data : List Row) : Prop :=
  ∀ row ∈ data, ∀ col ∈ groupBy.toList, ∀ s : String, row.get col = .str s → '|' ∉ s.data

/-- Every group-by value of the dataset is a string. -/
def StringValued (groupBy : FieldSpec) (data : List Row) : Prop :=
  ∀ row ∈ data, ∀ col ∈ groupBy.toList, ∃ s : String, row.get col = .str s

/-! ## Concrete stores, datasets and transformations -/

/-- An environment for concrete evaluation. -/
def plainEnv : CallEnv :=
  { datasetId := "dataset_1", now := "2024-01-01T00:00:00.000Z",
    dateToISOString := fun _ => "1970-01-01T00:00:00.000Z" }

/-- The default options of `cleanData`: none is given. -/
def defaultOptions : CleanOptions :=
  { removeEmpty := none, convertTypes := none, trimStrings := none, normalizeHeaders := none }

/-- A dataset whose only row holds one blank string. -/
def blankRows : List Row := [[("a", .str " ")]]

/-- A dataset whose only value holds a comma and a double quote. -/
def quoteRows : List Row := [[("x", .str "a,\"b")]]

/-- A dataset with one row of group `a`. -/
def medianRows : List Row := [[("g", .str "a"), ("c", .str "X"), ("v", .num (.fin 1))]]

/-- Aggregation parameters that ask for the function `median`, which is not implemented. -/
def medianAggregate : TransformParams :=
  { conditions := none, columns := none, groupBy := some (.single "g"),
    aggregations := some [{ column := "v", function := "median", as := none }],
    rowFields := none, columnField := none, valueField := none, aggregationFunc := none }

/-- Pivot parameters that ask for the function `median`, which is not implemented. -/
def medianPivot : TransformParams :=
  { conditions := none, columns := none, groupBy := none, aggregations := none,
    rowFields := some (.many ["g"]), columnField := some "c", valueField := some "v",
    aggregationFunc := some "median" }

/-- The group-by columns `a` and `b`. -/
def separatorBy : FieldSpec := .many ["a", "b"]

/-- Two rows whose group-by values differ and whose joined keys are equal. -/
def separatorRows : List Row :=
  [[("a", .str "x|y"), ("b", .str "z")], [("a", .str "x"), ("b", .str "y|z")]]

/-- Two rows of different groups and one row of the first group. -/
def groupRows : List Row :=
  [[("a", .str "x"), ("b", .str "z")], [("a", .str "y"), ("b", .str "z")],
   [("a", .str "x"), ("b", .str "z")]]

/-- A history entry with the given id and two rows of data. -/
def entryWithId (id : String) : DatasetEntry :=
  { id := .str id, timestamp := .str "2024-01-01T00:00:00.000Z", description := .str "d",
    meta := some [("datasetName", .str "d")], data := some [[("a", .num (.fin 1))], []] }

/-! ## Reading and writing properties -/

namespace JSObject
variable {α : Type}

theorem get?_replace_self (o : JSObject α) (k : String) (v : α) (hk : o.hasKey k = true) :
    (o.replace k v).get? k = some v := by
  induction o with
  | nil => simp [hasKey, get?] at hk
  | cons kv rest ih =>
    obtain ⟨k', v'⟩ := kv
    by_cases hkk : k' = k
    · simp [replace, get?, hkk]
    · simp only [hasKey, get?, hkk, if_false] at hk
      simp only [replace, get?, hkk, if_false]
      exact ih hk

theorem get?_replace_ne (o : JSObject α) (k k' : String) (v : α) (hne : k' ≠ k) :
    (o.replace k v).get? k' = o.get? k' := by
  induction o with
  | nil => rfl
  | cons kv rest ih =>
    obtain ⟨k0, v0⟩ := kv
    by_cases hkk : k0 = k
    · subst hkk
      simp [replace, get?, Ne.symm hne]
    · simp only [replace, hkk, if_false, get?, ih]

theorem get?_insertIndex_ne (n : Nat) (o : JSObject α) (k k' : String) (v : α) (hne : k' ≠ k) :
    (insertIndex n k v o).get? k' = o.get? k' := by
  induction o with
  | nil => simp [insertIndex, get?, Ne.symm hne]
  | cons kv rest ih =>
    obtain ⟨k0, v0⟩ := kv
    simp only [insertIndex]
    split
    · split
      · simp only [get?, ih]
      · simp [get?, Ne.symm hne]
    · simp [get?, Ne.symm hne]

theorem get?_insertIndex_self (n : Nat) (o : JSObject α) (k : String) (v : α)
    (hk : o.get? k = none) : (insertIndex n k v o).get? k = some v := by
  induction o with
  | nil => simp [insertIndex, get?]
  | cons kv rest ih =>
    obtain ⟨k0, v0⟩ := kv
    by_cases hkk : k0 = k
    · simp [get?, hkk] at hk
    · simp only [get?, hkk, if_false] at hk
      simp only [insertIndex]
      split
      · split
        · simp only [get?, hkk, if_false, ih hk]
        · simp [get?]
      · simp [get?]

theorem get?_append_single (o : JSObject α) (k k' : String) (v : α) :
    (o ++ [(k, v)]).get? k' = if (o.get? k').isSome then o.get? k' else if k = k' then some v else none := by
  induction o with
  | nil => simp [get?]
  | cons kv rest ih =>
    obtain ⟨k0, v0⟩ := kv
    by_cases hkk : k0 = k'
    · simp [get?, hkk]
    · simp only [List.cons_append, get?, hkk, if_false]
      exact ih

theorem get?_insertNew_self (o : JSObject α) (k : String) (v : α) (hk : o.get? k = none) :
    (o.insertNew k v).get? k = some v := by
  unfold insertNew
  split
  · exact get?_insertIndex_self _ o k v hk
  · simp [get?_append_single, hk]

theorem get?_insertNew_ne (o : JSObject α) (k k' : String) (v : α) (hne : k' ≠ k) :
    (o.insertNew k v).get? k' = o.get? k' := by
  unfold insertNew
  split
  · exact get?_insertIndex_ne _ o k k' v hne
  · rw [get?_append_single]
    simp only [Ne.symm hne, if_false]
    cases o.get? k' <;> simp

theorem get?_set_self (o : JSObject α) (k : String) (v : α) : (o.set k v).get? k = some v := by
  unfold set
  split
  · next hk => exact get?_replace_self o k v hk
  · next hk =>
    apply get?_insertNew_self
    simpa [hasKey] using hk

theorem get?_set_ne (o : JSObject α) (k k' : String) (v : α) (hne : k' ≠ k) :
    (o.set k v).get? k' = o.get? k' := by
  unfold set
  split
  · exact get?_replace_ne o k k' v hne
  · exact get?_insertNew_ne o k k' v hne

theorem perm_insertIndex (n : Nat) (o : JSObject α) (k : String) (v : α) :
    (insertIndex n k v o).Perm ((k, v) :: o) := by
  induction o with
  | nil => simp [insertIndex]
  | cons kv rest ih =>
    obtain ⟨k0, v0⟩ := kv
    simp only [insertIndex]
    split
    · split
      · exact (List.Perm.cons _ ih).trans (List.Perm.swap _ _ _)
      · exact List.Perm.refl _
    · exact List.Perm.refl _

theorem perm_insertNew (o : JSObject α) (k : String) (v : α) :
    (o.insertNew k v).Perm ((k, v) :: o) := by
  unfold insertNew
  split
  · exact perm_insertIndex _ o k v
  · exact List.perm_append_singleton _ _ |>.trans (List.Perm.refl _)

theorem sum_replace (f : α → Nat) (o : JSObject α) (k : String) (v v' : α)
    (hk : o.get? k = some v) :
    ((o.replace k v').map (fun kv => f kv.2)).sum + f v = (o.map (fun kv => f kv.2)).sum + f v' := by
  induction o with
  | nil => simp [get?] at hk
  | cons kv rest ih =>
    obtain ⟨k0, v0⟩ := kv
    by_cases hkk : k0 = k
    · simp only [get?, hkk, if_true, Option.some.injEq] at hk
      subst hk
      simp [replace, hkk]
      omega
    · simp only [get?, hkk, if_false] at hk
      simp only [replace, hkk, if_false, List.map_cons, List.sum_cons]
      have := ih hk
      omega

end JSObject

/-! ## `pivotData`: the scenario of the specification -/

theorem pivotData_scenario (h : Host) :
    pivotData h scenarioRows (some scenarioParams) = scenarioOutput := by
  have hu : uniqueColumnValues h "c" scenarioRows = [.str "X", .str "Y"] := by
    with_unfolding_all rfl
  have h1 : pivotStep h ["r"] "c" "v" "sum" [.str "X", .str "Y"] []
      [("r", .str "A"), ("c", .str "X"), ("v", .num (.fin 10))]
      = [("A", [("_key", .str "A"), ("r", .str "A"), ("X", .num (.fin 10)), ("Y", .null)])] := by
    with_unfolding_all rfl
  have h2 : pivotStep h ["r"] "c" "v" "sum" [.str "X", .str "Y"]
      [("A", [("_key", .str "A"), ("r", .str "A"), ("X", .num (.fin 10)), ("Y", .null)])]
      [("r", .str "A"), ("c", .str "Y"), ("v", .num (.fin 5))]
      = [("A", [("_key", .str "A"), ("r", .str "A"), ("X", .num (.fin 10)),
          ("Y", .num (.fin 5))])] := by
    with_unfolding_all rfl
  have h3 : pivotStep h ["r"] "c" "v" "sum" [.str "X", .str "Y"]
      [("A", [("_key", .str "A"), ("r", .str "A"), ("X", .num (.fin 10)),
          ("Y", .num (.fin 5))])]
      [("r", .str "B"), ("c", .str "X"), ("v", .num (.fin 3))]
      = [("A", [("_key", .str "A"), ("r", .str "A"), ("X", .num (.fin 10)),
          ("Y", .num (.fin 5))]),
         ("B", [("_key", .str "B"), ("r", .str "B"), ("X", .num (.fin 3)), ("Y", .null)])] := by
    with_unfolding_all rfl
  have hg : pivotGroups h ["r"] "c" "v" "sum" scenarioRows =
      [("A", [("_key", .str "A"), ("r", .str "A"), ("X", .num (.fin 10)),
          ("Y", .num (.fin 5))]),
       ("B", [("_key", .str "B"), ("r", .str "B"), ("X", .num (.fin 3)), ("Y", .null)])] := by
    rw [pivotGroups, hu]
    simp only [scenarioRows, List.foldl, h1, h2, h3]
  have hp : pivotData h scenarioRows (some scenarioParams) =
      (JSObject.values (pivotGroups h ["r"] "c" "v" "sum" scenarioRows)).map
        (finalizeGroup h "sum" (uniqueColumnValues h "c" scenarioRows)) := rfl
  rw [hp, hg, hu]
  with_unfolding_all rfl

/-- C1 (as the code behaves): on the scenario rows, with rowFields `["r"]`, columnField
`c`, valueField `v` and the `sum` aggregation, `pivotData` returns exactly two rows,
`{_key:"A", r:"A", X:10, Y:5}` followed by `{_key:"B", r:"B", X:3, Y:null}`; each row has
exactly the keys `_key`, `r`, `X` and `Y`. -/
theorem pivotData_scenario_rows (h : Host) :
    pivotData h scenarioRows (some scenarioParams) =
      [[("_key", .str "A"), ("r", .str "A"), ("X", .num (.fin 10)), ("Y", .num (.fin 5))],
       [("_key", .str "B"), ("r", .str "B"), ("X", .num (.fin 3)), ("Y", .null)]] ∧
    ∀ row ∈ pivotData h scenarioRows (some scenarioParams),
      JSObject.keys row = ["_key", "r", "X", "Y"] := by
  rw [pivotData_scenario h]
  refine ⟨rfl, ?_⟩
  intro row hrow
  simp only [scenarioOutput, List.mem_cons, List.mem_singleton, List.not_mem_nil, or_false] at hrow
  rcases hrow with rfl | rfl <;> rfl

/-- C1 (as the specification words it) fails: whatever the host, the rows `pivotData`
returns for the scenario are not the rows `{r:"A", X:10, Y:5}`, `{r:"B", X:3, Y:null}` with
the keys `r`, `X` and `Y` only. -/
theorem pivotData_scenario_not_claimed :
    ¬ ∃ h : Host, pivotData h scenarioRows (some scenarioParams) = scenarioClaimedOutput := by
  rintro ⟨h, hh⟩
  rw [pivotData_scenario h] at hh
  exact absurd hh (by decide)

/-! ## `pivotData`: pivot columns that start with an underscore -/

/-- C2 (failing input): the pivot column of `underscoreRows` takes the value `_x`, yet the
one row `pivotData` returns is `{_key:"A", r:"A"}`: it has no key `_x`, neither with the
sum `5` nor with `null`. -/
theorem pivotData_drops_underscore_column (h : Host) :
    Scalar.str "_x" ∈ uniqueColumnValues h "c" underscoreRows ∧
    pivotData h underscoreRows (some scenarioParams) =
      [[("_key", .str "A"), ("r", .str "A")]] ∧
    ∀ row ∈ pivotData h underscoreRows (some scenarioParams), row.hasKey "_x" = false := by
  have hu : uniqueColumnValues h "c" underscoreRows = [.str "_x"] := by
    with_unfolding_all rfl
  have h1 : pivotStep h ["r"] "c" "v" "sum" [.str "_x"] []
      [("r", .str "A"), ("c", .str "_x"), ("v", .num (.fin 5))]
      = [("A", [("_key", .str "A"), ("r", .str "A"), ("_x", .num (.fin 5))])] := by
    with_unfolding_all rfl
  have hg : pivotGroups h ["r"] "c" "v" "sum" underscoreRows =
      [("A", [("_key", .str "A"), ("r", .str "A"), ("_x", .num (.fin 5))])] := by
    rw [pivotGroups, hu]
    simp only [underscoreRows, List.foldl, h1]
  have hp : pivotData h underscoreRows (some scenarioParams) =
      (JSObject.values (pivotGroups h ["r"] "c" "v" "sum" underscoreRows)).map
        (finalizeGroup h "sum" (uniqueColumnValues h "c" underscoreRows)) := rfl
  have hout : pivotData h underscoreRows (some scenarioParams) =
      [[("_key", .str "A"), ("r", .str "A")]] := by
    rw [hp, hg, hu]
    with_unfolding_all rfl
  refine ⟨by rw [hu]; exact List.mem_singleton.mpr rfl, hout, ?_⟩
  intro row hrow
  rw [hout, List.mem_singleton] at hrow
  subst hrow
  rfl

/-! ## `pivotData`: the running sum and count of `avg` -/

/-- C3 (failing input): in `collisionRows` one row has row key `A`, column `X` and value
`3`, so the average of the cell is `3 / 1`; `pivotData` returns `NaN` in that cell, because
the counter `_count_X` of the cell is also the cell of the pivot column `_count_X`. -/
theorem pivotData_avg_key_collision (h : Host) :
    pivotData h collisionRows (some avgParams) =
      [[("_key", .str "A"), ("r", .str "A"), ("X", .num .nan)]] := by
  have hu : uniqueColumnValues h "c" collisionRows = [.str "X", .str "_count_X"] := by
    with_unfolding_all rfl
  have e1 : ensureRowGroup h ["r"] [.str "X", .str "_count_X"] []
      [("r", .str "A"), ("c", .str "_count_X"), ("v", .num (.fin 5))]
      = [("A", [("_key", .str "A"), ("r", .str "A"), ("X", .null), ("_count_X", .null)])] := by
    with_unfolding_all rfl
  have a1 : aggregateRow h ["r"] "c" "v" "avg"
      [("A", [("_key", .str "A"), ("r", .str "A"), ("X", .null), ("_count_X", .null)])]
      [("r", .str "A"), ("c", .str "_count_X"), ("v", .num (.fin 5))]
      = [("A", [("_key", .str "A"), ("r", .str "A"), ("X", .null),
          ("_count_X", .num (.fin 5)), ("_count__count_X", .num (.fin 1)),
          ("_sum__count_X", .num (.fin 5))])] := by
    with_unfolding_all rfl
  have h1 : pivotStep h ["r"] "c" "v" "avg" [.str "X", .str "_count_X"] []
      [("r", .str "A"), ("c", .str "_count_X"), ("v", .num (.fin 5))]
      = [("A", [("_key", .str "A"), ("r", .str "A"), ("X", .null),
          ("_count_X", .num (.fin 5)), ("_count__count_X", .num (.fin 1)),
          ("_sum__count_X", .num (.fin 5))])] := by
    rw [pivotStep, e1, a1]
  have h2 : pivotStep h ["r"] "c" "v" "avg" [.str "X", .str "_count_X"]
      [("A", [("_key", .str "A"), ("r", .str "A"), ("X", .null),
          ("_count_X", .num (.fin 5)), ("_count__count_X", .num (.fin 1)),
          ("_sum__count_X", .num (.fin 5))])]
      [("r", .str "A"), ("c", .str "X"), ("v", .num (.fin 3))]
      = [("A", [("_key", .str "A"), ("r", .str "A"), ("X", .num .nan),
          ("_count_X", .num (.fin 6)), ("_count__count_X", .num (.fin 1)),
          ("_sum__count_X", .num (.fin 5)), ("_sum_X", .num .nan)])] := by
    with_unfolding_all rfl
  have hg : pivotGroups h ["r"] "c" "v" "avg" collisionRows =
      [("A", [("_key", .str "A"), ("r", .str "A"), ("X", .num .nan),
          ("_count_X", .num (.fin 6)), ("_count__count_X", .num (.fin 1)),
          ("_sum__count_X", .num (.fin 5)), ("_sum_X", .num .nan)])] := by
    rw [pivotGroups, hu]
    simp only [collisionRows, List.foldl, h1, h2]
  have hp : pivotData h collisionRows (some avgParams) =
      (JSObject.values (pivotGroups h ["r"] "c" "v" "avg" collisionRows)).map
        (finalizeGroup h "avg" (uniqueColumnValues h "c" collisionRows)) := rfl
  rw [hp, hg, hu]
  with_unfolding_all rfl

/-! ## `aggregateData`: the count of the groups -/

theorem countSum_addToGroups (h : Host) (groupBy : FieldSpec) (groups : JSObject Group)
    (row : Row) :
    ((addToGroups h groupBy groups row).map (fun kv => kv.2.count)).sum =
      (groups.map (fun kv => kv.2.count)).sum + 1 := by
  unfold addToGroups
  by_cases hk : groups.hasKey (groupKey h groupBy row) = true
  · simp only [hk, if_true]
    obtain ⟨g, hg⟩ := Option.isSome_iff_exists.mp hk
    simp only [hg]
    have hset : groups.set (groupKey h groupBy row)
        { g with rows := g.rows ++ [row], count := g.count + 1 } =
        groups.replace (groupKey h groupBy row)
          { g with rows := g.rows ++ [row], count := g.count + 1 } := by
      simp [JSObject.set, hk]
    rw [hset]
    have := JSObject.sum_replace (fun g => g.count) groups _ g
      { g with rows := g.rows ++ [row], count := g.count + 1 } hg
    dsimp only at this
    omega
  · have hk' : groups.hasKey (groupKey h groupBy row) = false := by simpa using hk
    simp only [hk', Bool.false_eq_true, if_false]
    have hnone : groups.get? (groupKey h groupBy row) = none := by
      simpa [JSObject.hasKey] using hk
    have hnew : groups.set (groupKey h groupBy row) (newGroup groupBy row) =
        groups.insertNew (groupKey h groupBy row) (newGroup groupBy row) := by
      simp [JSObject.set, hk]
    rw [hnew]
    have hget := JSObject.get?_insertNew_self groups _ (newGroup groupBy row) hnone
    rw [hget]
    dsimp only
    have hhas : (groups.insertNew (groupKey h groupBy row) (newGroup groupBy row)).hasKey
        (groupKey h groupBy row) = true := by simp [JSObject.hasKey, hget]
    have hset : (groups.insertNew (groupKey h groupBy row) (newGroup groupBy row)).set
        (groupKey h groupBy row)
        { newGroup groupBy row with rows := (newGroup groupBy row).rows ++ [row],
                                     count := (newGroup groupBy row).count + 1 } =
        (groups.insertNew (groupKey h groupBy row) (newGroup groupBy row)).replace
        (groupKey h groupBy row)
        { newGroup groupBy row with rows := (newGroup groupBy row).rows ++ [row],
                                     count := (newGroup groupBy row).count + 1 } := by
      simp [JSObject.set, hhas]
    rw [hset]
    have h1 := JSObject.sum_replace (fun g => g.count) _ _ (newGroup groupBy row)
      { newGroup groupBy row with rows := (newGroup groupBy row).rows ++ [row],
                                   count := (newGroup groupBy row).count + 1 } hget
    have h2 := (JSObject.perm_insertNew groups (groupKey h groupBy row)
      (newGroup groupBy row)).map (fun kv => kv.2.count) |>.sum_eq
    simp only [List.map_cons, List.sum_cons] at h2
    dsimp only at h1 ⊢
    have h3 : (newGroup groupBy row).count = 0 := rfl
    omega

theorem countSum_foldl (h : Host) (groupBy : FieldSpec) (data : List Row)
    (groups : JSObject Group) :
    ((data.foldl (addToGroups h groupBy) groups).map (fun kv => kv.2.count)).sum =
      (groups.map (fun kv => kv.2.count)).sum + data.length := by
  induction data generalizing groups with
  | nil => simp
  | cons row rest ih =>
    simp only [List.foldl_cons, List.length_cons]
    rw [ih, countSum_addToGroups]
    omega

theorem countSum_buildGroups (h : Host) (groupBy : FieldSpec) (data : List Row) :
    ((buildGroups h groupBy data).map (fun kv => kv.2.count)).sum = data.length := by
  unfold buildGroups
  rw [countSum_foldl]
  simp

theorem get?_aggregationStep_ne (h : Host) (rows : List Row) (aggregated : Row)
    (agg : Aggregation) (k : String) (hne : k ≠ outputName agg) :
    JSObject.get? (aggregationStep h rows aggregated agg) k = JSObject.get? aggregated k := by
  unfold aggregationStep
  simp only
  split <;> exact JSObject.get?_set_ne _ _ _ _ hne

theorem get?_foldl_aggregationStep_ne (h : Host) (rows : List Row)
    (aggregations : List Aggregation) (aggregated : Row) (k : String)
    (hne : ∀ agg ∈ aggregations, outputName agg ≠ k) :
    JSObject.get? (aggregations.foldl (aggregationStep h rows) aggregated) k =
      JSObject.get? aggregated k := by
  induction aggregations generalizing aggregated with
  | nil => rfl
  | cons agg rest ih =>
    simp only [List.foldl_cons]
    rw [ih _ (fun a ha => hne a (List.mem_cons_of_mem _ ha))]
    exact get?_aggregationStep_ne h rows aggregated agg k
      (Ne.symm (hne agg (List.mem_cons_self _ _)))

theorem aggregateGroup_count (h : Host) (aggregations : List Aggregation) (group : Group)
    (hne : ∀ agg ∈ aggregations, outputName agg ≠ "count") :
    (aggregateGroup h aggregations group).get "count" = .num (.fin group.count) := by
  unfold aggregateGroup Row.get
  simp only
  rw [get?_foldl_aggregationStep_ne h _ _ _ _ hne, JSObject.get?_set_self]
  rfl

theorem countTotal_foldl (h : Host) (rows : List Row) (counts : List Nat) (acc : Nat)
    (hrows : rows.map (fun row => row.get "count") =
      counts.map (fun (n : Nat) => Scalar.num (.fin (n : ℚ)))) :
    rows.foldl (fun total row => JSNum.add total ((row.get "count").toNumber h))
        (.fin (acc : ℚ)) = .fin ((acc + counts.sum : Nat) : ℚ) := by
  induction rows generalizing counts acc with
  | nil =>
    cases counts with
    | nil => simp
    | cons c cs => exact absurd hrows (by simp)
  | cons row rest ih =>
    cases counts with
    | nil => exact absurd hrows (by simp)
    | cons c cs =>
      rw [List.map_cons, List.map_cons] at hrows
      have hrow : row.get "count" = Scalar.num (.fin (c : ℚ)) := (List.cons.inj hrows).1
      have hrest := (List.cons.inj hrows).2
      rw [List.foldl_cons, hrow]
      have hstep : JSNum.add (.fin (acc : ℚ)) ((Scalar.num (.fin (c : ℚ))).toNumber h) =
          .fin ((acc + c : Nat) : ℚ) := by
        simp [Scalar.toNumber, JSNum.add]
      rw [hstep, ih cs (acc + c) hrest, List.sum_cons, Nat.add_assoc]

theorem countTotal_eq (h : Host) (rows : List Row) (counts : List Nat)
    (hrows : rows.map (fun row => row.get "count") =
      counts.map (fun (n : Nat) => Scalar.num (.fin (n : ℚ)))) :
    countTotal h rows = .fin ((counts.sum : Nat) : ℚ) := by
  have := countTotal_foldl h rows counts 0 hrows
  simpa [countTotal] using this

theorem countTotal_aggregateData (h : Host) (data : List Row) (groupBy : FieldSpec)
    (aggregations : List Aggregation) (htruthy : groupBy.truthy = true)
    (hname : ∀ agg ∈ aggregations, outputName agg ≠ "count") :
    countTotal h (aggregateData h data (some ⟨some groupBy, some aggregations⟩)) =
      .fin ((data.length : Nat) : ℚ) := by
  have hout : aggregateData h data (some ⟨some groupBy, some aggregations⟩) =
      (JSObject.values (buildGroups h groupBy data)).map (aggregateGroup h aggregations) := by
    simp [aggregateData, htruthy]
  rw [hout]
  rw [countTotal_eq h _ ((buildGroups h groupBy data).map (fun kv => kv.2.count))]
  · rw [countSum_buildGroups]
  · simp only [JSObject.values, List.map_map]
    apply List.map_congr_left
    intro kv _
    simp only [Function.comp]
    exact aggregateGroup_count h aggregations kv.2 hname

/-! ## Missing values, conditions and sort keys -/

theorem isMissing_eq_false_iff (v : Scalar) :
    v.isMissing = false ↔ v ≠ .null ∧ v ≠ .undefined ∧ v ≠ .str "" := by
  cases v <;> simp [Scalar.isMissing]

theorem isMissing_iff (v : Scalar) :
    v.isMissing = true ↔ v = .null ∨ v = .undefined ∨ v = .str "" := by
  cases v <;> simp [Scalar.isMissing]

theorem columnValues_eq (rows : List Row) (column : String) :
    columnValues rows column =
      (rows.map (fun row => row.get column)).filter
        (fun v => decide (v ≠ .null ∧ v ≠ .undefined ∧ v ≠ .str "")) := by
  unfold columnValues
  apply List.filter_congr
  intro v _
  cases v <;> simp [Scalar.isMissing]

theorem columnValues_eq_nil_iff (rows : List Row) (column : String) :
    columnValues rows column = [] ↔
      ∀ row ∈ rows, row.get column = .null ∨ row.get column = .undefined ∨
        row.get column = .str "" := by
  unfold columnValues
  rw [List.filter_eq_nil_iff]
  constructor
  · intro hall row hrow
    have := hall (row.get column) (List.mem_map_of_mem _ hrow)
    rw [← isMissing_iff]
    simpa using this
  · intro hall v hv
    obtain ⟨row, hrow, rfl⟩ := List.mem_map.mp hv
    have := (isMissing_iff _).mpr (hall row hrow)
    simp [this]

theorem get_aggregationStep (h : Host) (rows : List Row) (aggregated : Row) (agg : Aggregation) :
    (aggregationStep h rows aggregated agg).get (outputName agg) =
      if columnValues rows agg.column = [] then .null
      else applyAggregation h agg.function (columnValues rows agg.column) := by
  unfold aggregationStep Row.get
  simp only [List.length_eq_zero]
  split <;> simp [JSObject.get?_set_self]

theorem get_aggregateGroup (h : Host) (group : Group) (pre : List Aggregation)
    (agg : Aggregation) (post : List Aggregation)
    (hpost : ∀ a ∈ post, outputName a ≠ outputName agg) :
    (aggregateGroup h (pre ++ agg :: post) group).get (outputName agg) =
      if columnValues group.rows agg.column = [] then .null
      else applyAggregation h agg.function (columnValues group.rows agg.column) := by
  unfold aggregateGroup
  simp only [List.foldl_append, List.foldl_cons]
  rw [← get_aggregationStep h group.rows
    (List.foldl (aggregationStep h group.rows)
      (JSObject.set (List.foldl (fun res kv =>
          if (!startsWithUnderscore kv.1) = true then JSObject.set res kv.1 kv.2 else res) []
        group.fields) "count" (Scalar.num (JSNum.fin group.count))) pre) agg]
  unfold Row.get
  rw [get?_foldl_aggregationStep_ne h group.rows post _ _ hpost]

theorem filterData_eq (h : Host) (data : List Row) (conditions : List Condition) :
    filterData h data (some ⟨some conditions⟩) =
      data.filter (fun row => conditions.all (conditionHolds h row)) := rfl

theorem compareRows_first_nonzero (h : Host) (pre : List SortColumn) (sortCol : SortColumn)
    (post : List SortColumn) (a b : Row)
    (hpre : ∀ c ∈ pre, compareValues h (a.get c.column) (b.get c.column) = .fin 0)
    (hcol : compareValues h (a.get sortCol.column) (b.get sortCol.column) ≠ .fin 0) :
    compareRows h (pre ++ sortCol :: post) a b =
      JSNum.mul (compareValues h (a.get sortCol.column) (b.get sortCol.column))
        (directionSign sortCol) := by
  induction pre with
  | nil => simp [compareRows, hcol]
  | cons c rest ih =>
    have hc := hpre c (List.mem_cons_self _ _)
    simp only [List.cons_append, compareRows, hc, ne_eq, not_true_eq_false, if_false]
    exact ih (fun c' hc' => hpre c' (List.mem_cons_of_mem _ hc'))

theorem compareRows_all_zero (h : Host) (cols : List SortColumn) (a b : Row)
    (hall : ∀ c ∈ cols, compareValues h (a.get c.column) (b.get c.column) = .fin 0) :
    compareRows h cols a b = .fin 0 := by
  induction cols with
  | nil => rfl
  | cons c rest ih =>
    have hc := hall c (List.mem_cons_self _ _)
    simp only [compareRows, hc, ne_eq, not_true_eq_false, if_false]
    exact ih (fun c' hc' => hall c' (List.mem_cons_of_mem _ hc'))

theorem compareValues_nullish (h : Host) (valA valB : Scalar) :
    (valA.isNullish = true → valB.isNullish = true → compareValues h valA valB = .fin 0) ∧
    (valA.isNullish = true → valB.isNullish = false → compareValues h valA valB = .fin (-1)) ∧
    (valA.isNullish = false → valB.isNullish = true → compareValues h valA valB = .fin 1) := by
  refine ⟨?_, ?_, ?_⟩ <;> intro ha hb <;> simp [compareValues, ha, hb]

/-! ## `sortData`: the order of the comparator -/

theorem opposed_zero : Opposed (.fin 0) (.fin 0) := by
  refine ⟨Iff.rfl, ?_⟩
  rintro d (rfl | rfl) <;> simp [JSNum.mul, JSNum.lt]

theorem opposed_fin (x y : ℚ) (hzero : x = 0 ↔ y = 0) (hpos : 0 < x → y < 0)
    (hneg : x < 0 → 0 < y) : Opposed (.fin x) (.fin y) := by
  refine ⟨by simp [hzero], ?_⟩
  rintro d (rfl | rfl)
  · simp only [JSNum.mul, JSNum.lt, mul_one, decide_eq_true_eq, not_and, not_lt]
    intro hx
    exact le_of_lt (hpos hx)
  · simp only [JSNum.mul, JSNum.lt, mul_neg, mul_one, Left.neg_pos_iff, decide_eq_true_eq,
      not_and, not_lt]
    intro hx
    exact le_of_lt (hneg hx)

theorem mul_posInf_one : JSNum.mul .posInf (.fin 1) = .posInf := by
  norm_num [JSNum.mul, JSNum.sgn]

theorem mul_posInf_negOne : JSNum.mul .posInf (.fin (-1)) = .negInf := by
  norm_num [JSNum.mul, JSNum.sgn]

theorem mul_negInf_one : JSNum.mul .negInf (.fin 1) = .negInf := by
  norm_num [JSNum.mul, JSNum.sgn]

theorem mul_negInf_negOne : JSNum.mul .negInf (.fin (-1)) = .posInf := by
  norm_num [JSNum.mul, JSNum.sgn]

theorem mul_nan_left (d : JSNum) : JSNum.mul .nan d = .nan := by
  cases d <;> rfl

theorem opposed_sub (a b : JSNum) : Opposed (JSNum.sub a b) (JSNum.sub b a) := by
  cases a <;> cases b
  case fin.fin x y =>
    simp only [JSNum.sub, JSNum.neg, JSNum.add]
    apply opposed_fin
    · constructor <;> intro hxy <;> linarith
    · intro hxy; linarith
    · intro hxy; linarith
  all_goals
    refine ⟨by simp [JSNum.sub, JSNum.neg, JSNum.add], ?_⟩
    rintro d (rfl | rfl) <;>
      simp [JSNum.sub, JSNum.neg, JSNum.add, JSNum.lt, mul_posInf_one, mul_posInf_negOne,
        mul_negInf_one, mul_negInf_negOne, mul_nan_left]

theorem opposed_ite (p q : Bool) (hpq : ¬ (p = true ∧ q = true)) :
    Opposed (if p = true then .fin (-1) else if q = true then .fin 1 else .fin 0)
      (if q = true then .fin (-1) else if p = true then .fin 1 else .fin 0) := by
  cases p <;> cases q
  · simpa using opposed_zero
  · simp only [Bool.false_eq_true, if_false, if_true]
    exact opposed_fin 1 (-1) (by norm_num) (by norm_num) (by norm_num)
  · simp only [Bool.false_eq_true, if_false, if_true]
    exact opposed_fin (-1) 1 (by norm_num) (by norm_num) (by norm_num)
  · exact absurd ⟨rfl, rfl⟩ hpq

theorem JSNum.lt_asymm (a b : JSNum) : ¬ (JSNum.lt a b = true ∧ JSNum.lt b a = true) := by
  cases a <;> cases b <;> simp [JSNum.lt]
  intro hab
  exact le_of_lt hab

theorem relCompare_numeric_asymm (h : Host) (a b : JSValue)
    (hnum : a.relString h = none ∨ b.relString h = none) :
    ¬ (jsLt h a b = true ∧ jsLt h b a = true) := by
  have hab : relCompare h a b =
      if (a.toNumber h).isNaN || (b.toNumber h).isNaN then none
      else some (JSNum.lt (a.toNumber h) (b.toNumber h)) := by
    unfold relCompare
    rcases hnum with hn | hn
    · rw [hn]
    · rw [hn]
      cases a.relString h <;> rfl
  have hba : relCompare h b a =
      if (b.toNumber h).isNaN || (a.toNumber h).isNaN then none
      else some (JSNum.lt (b.toNumber h) (a.toNumber h)) := by
    unfold relCompare
    rcases hnum with hn | hn
    · rw [hn]
      cases b.relString h <;> rfl
    · rw [hn]
  unfold jsLt
  rw [hab, hba]
  rintro ⟨h1, h2⟩
  by_cases hnan : ((a.toNumber h).isNaN || (b.toNumber h).isNaN) = true
  · simp [hnan] at h1
  · have hnan' : ((b.toNumber h).isNaN || (a.toNumber h).isNaN) = false := by
      rw [Bool.or_comm]; simpa using hnan
    have hnan'' : ((a.toNumber h).isNaN || (b.toNumber h).isNaN) = false := by simpa using hnan
    rw [hnan''] at h1
    rw [hnan'] at h2
    simp only [Bool.false_eq_true, if_false, beq_iff_eq, Option.some.injEq] at h1 h2
    exact JSNum.lt_asymm _ _ ⟨h1, h2⟩

theorem compareValues_opposed (h : Host) (hlc : localeCompareAntisymmetric h)
    (valA valB : Scalar) :
    Opposed (compareValues h valA valB) (compareValues h valB valA) := by
  have hfallback : ∀ a b : Scalar,
      (JSValue.scalar a).relString h = none ∨ (JSValue.scalar b).relString h = none →
      Opposed
        (if jsLt h (.scalar a) (.scalar b) = true then .fin (-1)
          else if jsGt h (.scalar a) (.scalar b) = true then .fin 1 else .fin 0)
        (if jsLt h (.scalar b) (.scalar a) = true then .fin (-1)
          else if jsGt h (.scalar b) (.scalar a) = true then .fin 1 else .fin 0) := by
    intro a b hnum
    exact opposed_ite _ _ (relCompare_numeric_asymm h _ _ hnum)
  cases valA <;> cases valB <;>
    simp only [compareValues, Scalar.isNullish, if_true, if_false, Bool.false_eq_true]
  any_goals exact opposed_zero
  any_goals exact opposed_fin 1 (-1) (by norm_num) (by norm_num) (by norm_num)
  any_goals exact opposed_fin (-1) 1 (by norm_num) (by norm_num) (by norm_num)
  any_goals exact opposed_sub _ _
  any_goals (apply hfallback; simp [JSValue.relString])
  case str.str a b =>
    obtain ⟨h0, hp, hn⟩ := hlc a b
    obtain ⟨h0', _, _⟩ := hlc b a
    apply opposed_fin
    · constructor
      · intro hx; exact_mod_cast h0 (by exact_mod_cast hx)
      · intro hx; exact_mod_cast h0' (by exact_mod_cast hx)
    · intro hx; exact_mod_cast hp (by exact_mod_cast hx)
    · intro hx; exact_mod_cast hn (by exact_mod_cast hx)

theorem directionSign_cases (sortCol : SortColumn) :
    directionSign sortCol = .fin 1 ∨ directionSign sortCol = .fin (-1) := by
  unfold directionSign
  split
  · exact Or.inr rfl
  · exact Or.inl rfl

theorem compareRows_total (h : Host) (hlc : localeCompareAntisymmetric h)
    (cols : List SortColumn) (a b : Row) :
    sortsBefore (compareRows h cols) a b ∨ sortsBefore (compareRows h cols) b a := by
  induction cols with
  | nil => left; simp [sortsBefore, compareRows, JSNum.lt]
  | cons c rest ih =>
    have hopp := compareValues_opposed h hlc (a.get c.column) (b.get c.column)
    by_cases hz : compareValues h (a.get c.column) (b.get c.column) = .fin 0
    · have hz' := hopp.1.mp hz
      simpa [sortsBefore, compareRows, hz, hz'] using ih
    · have hz' : compareValues h (b.get c.column) (a.get c.column) ≠ .fin 0 :=
        fun hzero => hz (hopp.1.mpr hzero)
      have hnot := hopp.2 (directionSign c) (directionSign_cases c)
      simp only [sortsBefore, compareRows, ne_eq, hz, hz', not_false_eq_true, if_true]
      by_cases hpos : JSNum.lt (.fin 0)
          (JSNum.mul (compareValues h (a.get c.column) (b.get c.column)) (directionSign c)) = true
      · right
        by_contra hcon
        exact hnot ⟨hpos, by simpa using hcon⟩
      · left
        simpa using hpos

theorem chain_orderedInsert {α : Type} (r : α → α → Prop) [DecidableRel r]
    (htotal : ∀ a b, r a b ∨ r b a) (a : α) (l : List α) (hl : l.Chain' r) :
    (l.orderedInsert r a).Chain' r ∧ ∀ b, r b a → (b :: l).Chain' r →
      (b :: l.orderedInsert r a).Chain' r := by
  induction l with
  | nil =>
    refine ⟨by simp, ?_⟩
    intro b hba _
    simp [hba]
  | cons c rest ih =>
    have hrest : rest.Chain' r := (List.chain'_cons'.mp hl).2
    by_cases hac : r a c
    · simp only [List.orderedInsert, hac, if_true]
      refine ⟨List.chain'_cons.mpr ⟨hac, hl⟩, ?_⟩
      intro b hba hchain
      exact List.chain'_cons.mpr ⟨hba, List.chain'_cons.mpr ⟨hac, hl⟩⟩
    · simp only [List.orderedInsert, hac, if_false]
      have hca : r c a := (htotal a c).resolve_left hac
      have h1 := (ih hrest).2 c hca hl
      refine ⟨h1, ?_⟩
      intro b _ hchain
      exact List.chain'_cons'.mpr ⟨fun y hy => by
        have := (List.chain'_cons.mp hchain).1
        simp only [List.head?_cons, Option.mem_def, Option.some.injEq] at hy
        subst hy
        exact this, h1⟩

theorem chain_insertionSort {α : Type} (r : α → α → Prop) [DecidableRel r]
    (htotal : ∀ a b, r a b ∨ r b a) (l : List α) : (l.insertionSort r).Chain' r := by
  induction l with
  | nil => simp
  | cons a rest ih => exact (chain_orderedInsert r htotal a _ ih).1

theorem insertionSort_eq_of_chain {α : Type} (r : α → α → Prop) [DecidableRel r]
    (l : List α) (hl : l.Chain' r) : l.insertionSort r = l := by
  induction l with
  | nil => rfl
  | cons a rest ih =>
    have hrest : rest.Chain' r := (List.chain'_cons'.mp hl).2
    rw [List.insertionSort, ih hrest]
    cases rest with
    | nil => rfl
    | cons b l =>
      have hab : r a b := (List.chain'_cons.mp hl).1
      simp [List.orderedInsert, hab]

theorem sortData_sortData (h : Host) (hlc : localeCompareAntisymmetric h) (data : List Row)
    (params : Option SortParams) :
    sortData h (sortData h data params) params = sortData h data params := by
  cases params with
  | none => rfl
  | some p =>
    cases hcols : p.columns with
    | none => simp [sortData, hcols]
    | some columns =>
      by_cases hlen : columns.length = 0
      · simp [sortData, hcols, hlen]
      · simp only [sortData, hcols, hlen, if_false]
        exact insertionSort_eq_of_chain _ _
          (chain_insertionSort _ (compareRows_total h hlc columns) data)

/-! ## `convertValueType`: trimming and the number pattern -/

theorem dropWhile_rdropWhile_of_self {α : Type} (p : α → Bool) (l : List α)
    (hl : l.dropWhile p = l) : (l.rdropWhile p).dropWhile p = l.rdropWhile p := by
  cases l with
  | nil => simp
  | cons c rest =>
    have hc : ¬ p c = true := by
      have := (List.dropWhile_eq_self_iff).mp hl (by simp)
      simpa using this
    obtain ⟨t, ht⟩ := List.rdropWhile_prefix (p := p) (l := c :: rest)
    cases hr : List.rdropWhile p (c :: rest) with
    | nil => simp
    | cons d m =>
      rw [hr] at ht
      have hd : d = c := (List.cons.inj ht).1
      subst hd
      exact List.dropWhile_cons_of_neg hc

theorem trimChars_trimChars (cs : List Char) : trimChars (trimChars cs) = trimChars cs := by
  have h1 : ∀ l : List Char, trimChars l = (l.dropWhile isTrimChar).rdropWhile isTrimChar :=
    fun _ => rfl
  rw [h1 (trimChars cs), h1 cs,
    dropWhile_rdropWhile_of_self _ _ (List.dropWhile_idempotent _ _), List.rdropWhile_idempotent]

theorem jsTrim_jsTrim (s : String) : jsTrim (jsTrim s) = jsTrim s := by
  unfold jsTrim
  rw [trimChars_trimChars]

theorem jsTrim_empty : jsTrim "" = "" := by decide

theorem convertValueType_convertValueType (h : Host) (x : Scalar) :
    convertValueType h (convertValueType h x) = convertValueType h x := by
  cases x with
  | str s =>
    simp only [convertValueType]
    split_ifs with h1 h2 h3 h4 h5
    · simp [convertValueType, jsTrim_empty]
    · rfl
    · rfl
    · rfl
    · rfl
    · simp only [convertValueType, jsTrim_jsTrim, h1, h2, h3, h4, h5, if_false]
      simp
  | _ => rfl

theorem dropSign_cases (cs : List Char) :
    (dropSign cs = cs ∧ cs.head? ≠ some '-') ∨ cs = '-' :: dropSign cs := by
  unfold dropSign
  split
  · right; rfl
  · next hne =>
    left
    refine ⟨rfl, ?_⟩
    intro hhead
    cases cs with
    | nil => simp at hhead
    | cons c rest =>
      simp only [List.head?_cons, Option.some.injEq] at hhead
      exact hne rest (by rw [hhead])

theorem dropSign_minus (cs : List Char) : dropSign ('-' :: cs) = cs := rfl

theorem dropSign_digit (c : Char) (cs : List Char) (hc : c.isDigit = true) :
    dropSign (c :: cs) = c :: cs := by
  rcases dropSign_cases (c :: cs) with h | h
  · exact h.1
  · have : c = '-' := (List.cons.inj h).1
    subst this
    exact absurd hc (by decide)

theorem digitsValue_eq_ofDigits (ds : List Char) :
    digitsValue ds = Nat.ofDigits 10 (ds.reverse.map (fun d => d.toNat - 48)) := by
  induction ds using List.reverseRecOn with
  | nil => rfl
  | append_singleton ds d ih =>
    unfold digitsValue at ih ⊢
    rw [List.foldl_append, List.reverse_append]
    simp only [List.foldl_cons, List.foldl_nil, List.reverse_cons, List.reverse_nil,
      List.nil_append, List.singleton_append, List.map_cons, Nat.ofDigits_cons]
    rw [ih]
    ring

/-- The shape of a signed decimal numeral after its sign. -/
theorem body_split (intPart frac : List Char) (hint : ∀ c ∈ intPart, c.isDigit = true) :
    (intPart ++ (if frac = [] then [] else '.' :: frac)).takeWhile Char.isDigit = intPart ∧
    (intPart ++ (if frac = [] then [] else '.' :: frac)).dropWhile Char.isDigit =
      (if frac = [] then [] else '.' :: frac) := by
  have hdot : Char.isDigit '.' = false := by decide
  constructor
  · rw [List.takeWhile_append_of_pos hint]
    split
    · simp
    · simp [List.takeWhile_cons, hdot]
  · rw [List.dropWhile_append_of_pos hint]
    split
    · simp
    · simp [List.dropWhile_cons, hdot]

theorem dropSign_numeral (negative : Bool) (intPart rest : List Char) (hne : intPart ≠ [])
    (hint : ∀ c ∈ intPart, c.isDigit = true) :
    dropSign ((if negative then ['-'] else []) ++ intPart ++ rest) = intPart ++ rest ∧
    (dropSign ((if negative then ['-'] else []) ++ intPart ++ rest) ≠
      (if negative then ['-'] else []) ++ intPart ++ rest ↔ negative = true) := by
  cases negative with
  | true =>
    have hd : dropSign ((if true = true then ['-'] else []) ++ intPart ++ rest) =
        intPart ++ rest := rfl
    refine ⟨hd, ?_⟩
    rw [hd]
    simp only [iff_true]
    intro heq
    have := congrArg List.length heq
    simp at this
  | false =>
    cases intPart with
    | nil => exact absurd rfl hne
    | cons c cs =>
      have hc := hint c (List.mem_cons_self _ _)
      simp [dropSign_digit c _ hc]

theorem numberPattern_iff (cs : List Char) : numberPattern cs = true ↔ IsDecimalNumeral cs := by
  constructor
  · intro hpat
    unfold numberPattern at hpat
    simp only [Bool.and_eq_true, Bool.not_eq_true', List.isEmpty_eq_false] at hpat
    obtain ⟨hint, hrest⟩ := hpat
    have hsplit := List.takeWhile_append_dropWhile Char.isDigit (dropSign cs)
    have hdig : ∀ c ∈ (dropSign cs).takeWhile Char.isDigit, c.isDigit = true :=
      fun c hc => List.mem_takeWhile_imp hc
    have hsign : ∃ negative : Bool, cs = (if negative then ['-'] else []) ++ dropSign cs := by
      rcases dropSign_cases cs with hs | hs
      · exact ⟨false, by simp [hs.1]⟩
      · exact ⟨true, by simpa using hs⟩
    obtain ⟨negative, hcs⟩ := hsign
    cases hdrop : (dropSign cs).dropWhile Char.isDigit with
    | nil =>
      refine ⟨negative, (dropSign cs).takeWhile Char.isDigit, [], ?_, hdig, by simp, ?_⟩
      · simpa using hint
      · rw [hdrop, List.append_nil] at hsplit
        simp only [if_true, List.append_nil, hsplit]
        exact hcs
    | cons d frac =>
      rw [hdrop] at hrest
      by_cases hd : d = '.'
      · subst hd
        simp only [Bool.and_eq_true, Bool.not_eq_true', List.isEmpty_eq_false,
          List.all_eq_true] at hrest
        have hfrac : frac ≠ [] := by simpa using hrest.1
        refine ⟨negative, (dropSign cs).takeWhile Char.isDigit, frac, ?_, hdig, hrest.2, ?_⟩
        · simpa using hint
        · rw [hdrop] at hsplit
          simp only [hfrac, if_false, List.append_assoc, hsplit]
          exact hcs
      · exfalso
        revert hrest
        split
        · next heq => exact absurd heq (by simp)
        · next heq =>
          have := (List.cons.inj heq).1
          exact absurd this hd
        · simp
  · rintro ⟨negative, intPart, frac, hne, hint, hfrac, rfl⟩
    have hbody := (dropSign_numeral negative intPart (if frac = [] then [] else '.' :: frac)
      hne hint).1
    have hsplit := body_split intPart frac hint
    unfold numberPattern
    simp only [hbody, hsplit.1, hsplit.2]
    by_cases hf : frac = []
    · simp [hf, hne]
    · simpa [hf, hne] using hfrac

theorem parseFloat_numeral (negative : Bool) (intPart frac : List Char) (hne : intPart ≠ [])
    (hint : ∀ c ∈ intPart, c.isDigit = true) (hfrac : ∀ c ∈ frac, c.isDigit = true) :
    parseFloat ((if negative then ['-'] else []) ++ intPart ++
        (if frac = [] then [] else '.' :: frac)) =
      roundToDouble (decimalValue negative intPart frac) := by
  have hbody := dropSign_numeral negative intPart (if frac = [] then [] else '.' :: frac)
    hne hint
  have hsplit := body_split intPart frac hint
  have hempty : intPart.isEmpty = false := by
    cases intPart with
    | nil => exact absurd rfl hne
    | cons c cs => rfl
  have hsign : (if dropSign ((if negative then ['-'] else []) ++ intPart ++
        (if frac = [] then [] else '.' :: frac)) ≠
        (if negative then ['-'] else []) ++ intPart ++ (if frac = [] then [] else '.' :: frac)
      then -((digitsValue intPart : ℚ) + (digitsValue frac : ℚ) / 10 ^ frac.length)
      else (digitsValue intPart : ℚ) + (digitsValue frac : ℚ) / 10 ^ frac.length) =
      decimalValue negative intPart frac := by
    unfold decimalValue
    rw [digitsValue_eq_ofDigits, digitsValue_eq_ofDigits]
    cases negative
    · rw [if_neg (by rw [hbody.2]; simp)]
      simp [Nat.coe_ofDigits]
    · rw [if_pos (by rw [hbody.2])]
      simp [Nat.coe_ofDigits]
  rw [← hsign]
  unfold parseFloat
  simp only [hbody.1, hsplit.1, hsplit.2, hempty, Bool.false_and, Bool.false_eq_true, if_false]
  by_cases hf : frac = []
  · subst hf
    simp
  · simp only [hf, if_false]
    rw [List.takeWhile_eq_self_iff.mpr hfrac]

/-! ## Rounding to a double -/

theorem pow2_eq (e : Int) : pow2 e = (2 : ℚ) ^ e := by
  cases e with
  | ofNat n => simp [pow2]
  | negSucc n =>
    simp only [pow2, zpow_negSucc, Nat.cast_pow, Nat.cast_ofNat, one_div]

theorem pow2_pos (e : Int) : 0 < pow2 e := by
  rw [pow2_eq]
  positivity

theorem pow2_add (a b : Int) : pow2 (a + b) = pow2 a * pow2 b := by
  rw [pow2_eq, pow2_eq, pow2_eq, zpow_add₀ (by norm_num)]

theorem pow2_le (a b : Int) (hab : a ≤ b) : pow2 a ≤ pow2 b := by
  rw [pow2_eq, pow2_eq]
  exact zpow_le_zpow_right₀ (by norm_num) hab

theorem lt_of_pow2_lt (a b : Int) (h : pow2 a < pow2 b) : a < b := by
  by_contra hn
  exact absurd (pow2_le b a (not_lt.mp hn)) (not_le.mpr h)

theorem log2Fuel_spec (fuel n : Nat) (hn : n ≠ 0) (hf : n ≤ fuel) :
    2 ^ log2Fuel fuel n ≤ n ∧ n < 2 ^ (log2Fuel fuel n + 1) := by
  induction fuel generalizing n with
  | zero => omega
  | succ fuel ih =>
    unfold log2Fuel
    split
    · next h2 =>
      obtain ⟨h1, h3⟩ := ih (n / 2) (by omega) (by omega)
      rw [pow_succ] at h3 ⊢
      rw [pow_succ, pow_succ]
      constructor <;> omega
    · next h2 =>
      simp only [pow_zero, zero_add, pow_one]
      omega

theorem abs_eq_natAbs_div (q : ℚ) : |q| = (q.num.natAbs : ℚ) / (q.den : ℚ) := by
  have hden : (0 : ℚ) < q.den := by exact_mod_cast q.den_pos
  conv_lhs => rw [← Rat.num_div_den q]
  rw [abs_div, abs_of_pos hden]
  congr 1
  rw [← Int.cast_abs, Int.abs_eq_natAbs, Int.cast_natCast]

theorem binade_spec (q : ℚ) (hq : q ≠ 0) :
    pow2 (binade q) ≤ |q| ∧ |q| < pow2 (binade q + 1) := by
  have hn : q.num.natAbs ≠ 0 := by
    simpa [Int.natAbs_eq_zero] using hq
  have hd : q.den ≠ 0 := q.den_nz
  obtain ⟨ha1, ha2⟩ := log2Fuel_spec q.num.natAbs q.num.natAbs hn le_rfl
  obtain ⟨hb1, hb2⟩ := log2Fuel_spec q.den q.den hd le_rfl
  have hden : (0 : ℚ) < q.den := by exact_mod_cast q.den_pos
  have habs := abs_eq_natAbs_div q
  set a := log2Fuel q.num.natAbs q.num.natAbs with ha
  set b := log2Fuel q.den q.den with hb
  have ha1' : (2 : ℚ) ^ a ≤ q.num.natAbs := by exact_mod_cast ha1
  have ha2' : (q.num.natAbs : ℚ) < 2 ^ (a + 1) := by exact_mod_cast ha2
  have hb1' : (2 : ℚ) ^ b ≤ q.den := by exact_mod_cast hb1
  have hb2' : (q.den : ℚ) < 2 ^ (b + 1) := by exact_mod_cast hb2
  have hpb : (0 : ℚ) < 2 ^ b := by positivity
  have hlow : pow2 ((a : Int) - b - 1) < |q| := by
    rw [pow2_eq, habs, sub_sub, zpow_sub₀ (by norm_num), zpow_natCast, lt_div_iff₀ hden]
    have h1 : ((b : Int) + 1) = ((b + 1 : Nat) : Int) := by norm_cast
    rw [h1, zpow_natCast, div_mul_eq_mul_div, div_lt_iff₀ (by positivity)]
    calc (2 : ℚ) ^ a * q.den < 2 ^ a * 2 ^ (b + 1) :=
          mul_lt_mul_of_pos_left hb2' (by positivity)
      _ ≤ q.num.natAbs * 2 ^ (b + 1) := mul_le_mul_of_nonneg_right ha1' (by positivity)
  have hhigh : |q| < pow2 ((a : Int) - b + 1) := by
    rw [pow2_eq, habs, div_lt_iff₀ hden]
    have h1 : ((a : Int) - b + 1) = ((a + 1 : Nat) : Int) - (b : Int) := by push_cast; ring
    rw [h1, zpow_sub₀ (by norm_num), zpow_natCast, zpow_natCast, div_mul_eq_mul_div,
      lt_div_iff₀ hpb]
    calc (q.num.natAbs : ℚ) * 2 ^ b < 2 ^ (a + 1) * 2 ^ b :=
          mul_lt_mul_of_pos_right ha2' hpb
      _ ≤ 2 ^ (a + 1) * q.den := mul_le_mul_of_nonneg_left hb1' (by positivity)
  unfold binade
  simp only [← ha, ← hb]
  split
  · next hle => exact ⟨hle, hhigh⟩
  · next hle =>
    refine ⟨le_of_lt hlow, ?_⟩
    have : (a : Int) - b - 1 + 1 = a - b := by ring
    rw [this]
    exact not_le.mp hle

theorem binade_le (q : ℚ) (hq : q ≠ 0) (k : Int) (h : |q| < pow2 (k + 1)) : binade q ≤ k := by
  have h1 := (binade_spec q hq).1
  have := lt_of_pow2_lt (binade q) (k + 1) (lt_of_le_of_lt h1 h)
  omega

theorem le_binade (q : ℚ) (hq : q ≠ 0) (k : Int) (h : pow2 k ≤ |q|) : k ≤ binade q := by
  have h1 := (binade_spec q hq).2
  have := lt_of_pow2_lt k (binade q + 1) (lt_of_le_of_lt h h1)
  omega

theorem binade_neg (q : ℚ) : binade (-q) = binade q := by
  simp [binade]

theorem ulpExponent_neg (q : ℚ) : ulpExponent (-q) = ulpExponent q := by
  simp [ulpExponent, binade_neg]

theorem floor_eq (q : ℚ) : Rat.floor q = ⌊q⌋ := by
  rw [Rat.floor_def, Rat.floor_def']

theorem roundHalfEven_near (q : ℚ) : |(roundHalfEven q : ℚ) - q| ≤ 1 / 2 := by
  have h1 : ((Rat.floor q : Int) : ℚ) ≤ q := by
    rw [floor_eq]
    exact Int.floor_le q
  have h2 : q < (Rat.floor q : Int) + 1 := by
    rw [floor_eq]
    exact Int.lt_floor_add_one q
  unfold roundHalfEven
  simp only
  rw [abs_le]
  split
  · constructor <;> linarith
  · split
    · push_cast; constructor <;> linarith
    · split
      · constructor <;> linarith
      · push_cast; constructor <;> linarith

theorem roundHalfEven_intCast (k : Int) : roundHalfEven (k : ℚ) = k := by
  have hfloor : Rat.floor (k : ℚ) = k := by
    rw [floor_eq]
    exact Int.floor_intCast k
  unfold roundHalfEven
  simp [hfloor]

theorem roundHalfEven_mono (a b : ℚ) (h : a ≤ b) : roundHalfEven a ≤ roundHalfEven b := by
  by_contra hlt
  have h1 : roundHalfEven b + 1 ≤ roundHalfEven a := by omega
  have h1' : (roundHalfEven b : ℚ) + 1 ≤ roundHalfEven a := by exact_mod_cast h1
  have ha := abs_le.mp (roundHalfEven_near a)
  have hb := abs_le.mp (roundHalfEven_near b)
  have hab : a = b := le_antisymm h (by linarith [ha.2, hb.1])
  rw [hab] at hlt
  exact hlt le_rfl

theorem roundHalfEven_spec (q : ℚ) :
    |(roundHalfEven q : ℚ) - q| < 1 / 2 ∨
      (|(roundHalfEven q : ℚ) - q| = 1 / 2 ∧ roundHalfEven q % 2 = 0) := by
  have h1 : ((Rat.floor q : Int) : ℚ) ≤ q := by
    rw [floor_eq]
    exact Int.floor_le q
  have h2 : q < (Rat.floor q : Int) + 1 := by
    rw [floor_eq]
    exact Int.lt_floor_add_one q
  unfold roundHalfEven
  simp only
  split
  · next hlt =>
    left
    rw [abs_lt]
    constructor <;> linarith
  · next hge =>
    split
    · next hgt =>
      left
      rw [abs_lt]
      push_cast
      constructor <;> linarith
    · next hngt =>
      have heq : q - (Rat.floor q : Int) = 1 / 2 := le_antisymm (not_lt.mp hngt) (not_lt.mp hge)
      right
      split
      · next hev =>
        refine ⟨?_, hev⟩
        rw [abs_of_nonpos (by linarith)]
        linarith
      · next hod =>
        refine ⟨?_, by omega⟩
        push_cast
        rw [abs_of_nonneg (by linarith)]
        linarith

theorem roundHalfEven_unique (q : ℚ) (n : Int)
    (h : |(n : ℚ) - q| < 1 / 2 ∨ (|(n : ℚ) - q| = 1 / 2 ∧ n % 2 = 0)) :
    roundHalfEven q = n := by
  have h1 : ((Rat.floor q : Int) : ℚ) ≤ q := by
    rw [floor_eq]
    exact Int.floor_le q
  have h2 : q < (Rat.floor q : Int) + 1 := by
    rw [floor_eq]
    exact Int.lt_floor_add_one q
  have hle : |(n : ℚ) - q| ≤ 1 / 2 := by
    rcases h with h | h
    · exact h.le
    · exact h.1.le
  have hn := abs_le.mp hle
  unfold roundHalfEven
  simp only
  split
  · next hlt =>
    have a1 : (n : ℚ) < (Rat.floor q : Int) + 1 := by linarith
    have a2 : ((Rat.floor q : Int) : ℚ) - 1 < n := by linarith
    have a1' : n < Rat.floor q + 1 := by exact_mod_cast a1
    have a2' : Rat.floor q - 1 < n := by exact_mod_cast a2
    omega
  · next hge =>
    split
    · next hgt =>
      have a1 : ((Rat.floor q : Int) : ℚ) < n := by linarith
      have a2 : (n : ℚ) < (Rat.floor q : Int) + 2 := by linarith
      have a1' : Rat.floor q < n := by exact_mod_cast a1
      have a2' : n < Rat.floor q + 2 := by exact_mod_cast a2
      omega
    · next hngt =>
      have heq : q - (Rat.floor q : Int) = 1 / 2 := le_antisymm (not_lt.mp hngt) (not_lt.mp hge)
      have a1 : ((Rat.floor q : Int) : ℚ) - 1 < n := by linarith
      have a2 : (n : ℚ) < (Rat.floor q : Int) + 2 := by linarith
      have a1' : Rat.floor q - 1 < n := by exact_mod_cast a1
      have a2' : n < Rat.floor q + 2 := by exact_mod_cast a2
      have hpar : n % 2 = 0 := by
        rcases h with h | h
        · exfalso
          have h3 := abs_lt.mp h
          have b1 : ((Rat.floor q : Int) : ℚ) < n := by linarith
          have b2 : (n : ℚ) < (Rat.floor q : Int) + 1 := by linarith
          have b1' : Rat.floor q < n := by exact_mod_cast b1
          have b2' : n < Rat.floor q + 1 := by exact_mod_cast b2
          omega
        · exact h.2
      split
      · next hev => omega
      · next hod => omega

theorem roundHalfEven_neg (q : ℚ) : roundHalfEven (-q) = -roundHalfEven q := by
  apply roundHalfEven_unique
  have hcast : ((-roundHalfEven q : Int) : ℚ) - -q = -((roundHalfEven q : ℚ) - q) := by
    push_cast
    ring
  rw [hcast, abs_neg]
  rcases roundHalfEven_spec q with h | ⟨h, hev⟩
  · exact Or.inl h
  · exact Or.inr ⟨h, by omega⟩

theorem overflowThreshold_eq : overflowThreshold = 2 ^ 1024 - 2 ^ 970 := by
  unfold overflowThreshold
  norm_num

theorem overflowThreshold_large : (16 : ℚ) < overflowThreshold := by
  rw [overflowThreshold_eq]
  norm_num

theorem nearestDouble_zero : nearestDouble 0 = 0 := by
  have h := roundHalfEven_intCast 0
  simp only [Int.cast_zero] at h
  simp [nearestDouble, h]

theorem nearestDouble_neg (q : ℚ) : nearestDouble (-q) = -nearestDouble q := by
  simp only [nearestDouble, ulpExponent_neg, neg_div, roundHalfEven_neg]
  push_cast
  ring

theorem nearestDouble_of_grid (q : ℚ) (k : Int) (h : q = k * pow2 (ulpExponent q)) :
    nearestDouble q = q := by
  have hpos := pow2_pos (ulpExponent q)
  have hdiv : q / pow2 (ulpExponent q) = k := by
    rw [div_eq_iff hpos.ne.symm]
    exact h
  unfold nearestDouble
  rw [hdiv, roundHalfEven_intCast, ← h]

theorem nearestDouble_near (q : ℚ) : |nearestDouble q - q| ≤ pow2 (ulpExponent q) / 2 := by
  have hpos := pow2_pos (ulpExponent q)
  have hnear := roundHalfEven_near (q / pow2 (ulpExponent q))
  have hq' : q = q / pow2 (ulpExponent q) * pow2 (ulpExponent q) := by
    field_simp
  unfold nearestDouble
  calc |(roundHalfEven (q / pow2 (ulpExponent q)) : ℚ) * pow2 (ulpExponent q) - q|
      = |((roundHalfEven (q / pow2 (ulpExponent q)) : ℚ) - q / pow2 (ulpExponent q))
          * pow2 (ulpExponent q)| := by
        congr 1
        rw [sub_mul, ← hq']
    _ = |(roundHalfEven (q / pow2 (ulpExponent q)) : ℚ) - q / pow2 (ulpExponent q)|
          * pow2 (ulpExponent q) := by
        rw [abs_mul, abs_of_pos hpos]
    _ ≤ 1 / 2 * pow2 (ulpExponent q) := mul_le_mul_of_nonneg_right hnear hpos.le
    _ = pow2 (ulpExponent q) / 2 := by ring

theorem nearestDouble_err (q : ℚ) (k : Int) (hk : -1022 ≤ k) (hq : |q| < pow2 (k + 1)) :
    |nearestDouble q - q| ≤ pow2 (k - 53) := by
  by_cases h0 : q = 0
  · subst h0
    rw [nearestDouble_zero, sub_zero, abs_zero]
    exact (pow2_pos _).le
  · have hb := binade_le q h0 k hq
    have hu : ulpExponent q ≤ k - 52 := by
      unfold ulpExponent
      omega
    have h1 := nearestDouble_near q
    have h2 := pow2_le _ _ hu
    have h3 : pow2 (k - 52) = pow2 (k - 53) * 2 := by
      have : k - 52 = (k - 53) + 1 := by ring
      rw [this, pow2_add]
      congr 1
    linarith

theorem nearestDouble_nonneg (q : ℚ) (h : 0 ≤ q) : 0 ≤ nearestDouble q := by
  have hpos := pow2_pos (ulpExponent q)
  have h1 := roundHalfEven_mono 0 (q / pow2 (ulpExponent q)) (div_nonneg h hpos.le)
  have h0 := roundHalfEven_intCast 0
  simp only [Int.cast_zero] at h0
  rw [h0] at h1
  unfold nearestDouble
  have : (0 : ℚ) ≤ roundHalfEven (q / pow2 (ulpExponent q)) := by exact_mod_cast h1
  positivity

theorem binade_mono (q q' : ℚ) (h0 : 0 < q) (h : q ≤ q') : binade q ≤ binade q' := by
  have h0' : 0 < q' := lt_of_lt_of_le h0 h
  have h1 := (binade_spec q h0.ne.symm).1
  have h2 := (binade_spec q' h0'.ne.symm).2
  rw [abs_of_pos h0] at h1
  rw [abs_of_pos h0'] at h2
  have := lt_of_pow2_lt (binade q) (binade q' + 1) (by linarith)
  omega

theorem pow2_53 : pow2 53 = 2 ^ 53 := by
  rw [pow2_eq]
  norm_num

theorem pow2_52 : pow2 52 = 2 ^ 52 := by
  rw [pow2_eq]
  norm_num

theorem nearestDouble_le_pow2 (q : ℚ) (h0 : 0 < q) :
    nearestDouble q ≤ pow2 (ulpExponent q + 53) := by
  have hpos := pow2_pos (ulpExponent q)
  have h1 := (binade_spec q h0.ne.symm).2
  rw [abs_of_pos h0] at h1
  have h2 : pow2 (binade q + 1) ≤ pow2 (ulpExponent q + 53) := by
    apply pow2_le
    unfold ulpExponent
    omega
  have h3 : q / pow2 (ulpExponent q) ≤ ((2 ^ 53 : Int) : ℚ) := by
    rw [div_le_iff₀ hpos]
    have := pow2_add (ulpExponent q) 53
    rw [pow2_53] at this
    push_cast
    linarith
  have h4 := roundHalfEven_mono _ _ h3
  rw [roundHalfEven_intCast] at h4
  have h5 : (roundHalfEven (q / pow2 (ulpExponent q)) : ℚ) ≤ 2 ^ 53 := by exact_mod_cast h4
  unfold nearestDouble
  rw [pow2_add, pow2_53, mul_comm (pow2 (ulpExponent q))]
  exact mul_le_mul_of_nonneg_right h5 hpos.le

theorem pow2_le_nearestDouble (q : ℚ) (h0 : 0 < q) (hb : -1022 ≤ binade q) :
    pow2 (binade q) ≤ nearestDouble q := by
  have hpos := pow2_pos (ulpExponent q)
  have h1 := (binade_spec q h0.ne.symm).1
  rw [abs_of_pos h0] at h1
  have hu : binade q = ulpExponent q + 52 := by
    unfold ulpExponent
    omega
  have hp : pow2 (binade q) = pow2 (ulpExponent q) * 2 ^ 52 := by
    rw [hu, pow2_add, pow2_52]
  have h3 : ((2 ^ 52 : Int) : ℚ) ≤ q / pow2 (ulpExponent q) := by
    rw [le_div_iff₀ hpos]
    push_cast
    linarith
  have h4 := roundHalfEven_mono _ _ h3
  rw [roundHalfEven_intCast] at h4
  have h5 : (2 ^ 52 : ℚ) ≤ roundHalfEven (q / pow2 (ulpExponent q)) := by exact_mod_cast h4
  unfold nearestDouble
  rw [hp, mul_comm (pow2 (ulpExponent q))]
  exact mul_le_mul_of_nonneg_right h5 hpos.le

theorem nearestDouble_mono_pos (q q' : ℚ) (h0 : 0 < q) (h : q ≤ q') :
    nearestDouble q ≤ nearestDouble q' := by
  have h0' : 0 < q' := lt_of_lt_of_le h0 h
  have hb := binade_mono q q' h0 h
  by_cases he : ulpExponent q = ulpExponent q'
  · have hpos := pow2_pos (ulpExponent q')
    unfold nearestDouble
    rw [he]
    have h1 := roundHalfEven_mono (q / pow2 (ulpExponent q')) (q' / pow2 (ulpExponent q'))
      (div_le_div_of_nonneg_right h hpos.le)
    have h2 : (roundHalfEven (q / pow2 (ulpExponent q')) : ℚ) ≤
        roundHalfEven (q' / pow2 (ulpExponent q')) := by exact_mod_cast h1
    exact mul_le_mul_of_nonneg_right h2 hpos.le
  · have hlt : ulpExponent q + 53 ≤ binade q' ∧ -1022 ≤ binade q' := by
      unfold ulpExponent at he ⊢
      omega
    calc nearestDouble q ≤ pow2 (ulpExponent q + 53) := nearestDouble_le_pow2 q h0
      _ ≤ pow2 (binade q') := pow2_le _ _ hlt.1
      _ ≤ nearestDouble q' := pow2_le_nearestDouble q' h0' hlt.2

theorem nearestDouble_mono (q q' : ℚ) (h : q ≤ q') : nearestDouble q ≤ nearestDouble q' := by
  by_cases h0 : 0 < q
  · exact nearestDouble_mono_pos q q' h0 h
  · by_cases h0' : q' < 0
    · have h1 := nearestDouble_mono_pos (-q') (-q) (by linarith) (by linarith)
      rw [nearestDouble_neg, nearestDouble_neg] at h1
      linarith
    · have h1 := nearestDouble_nonneg (-q) (by linarith)
      rw [nearestDouble_neg] at h1
      have h2 := nearestDouble_nonneg q' (not_lt.mp h0')
      linarith

theorem nearestDouble_one : nearestDouble 1 = 1 := by
  with_unfolding_all rfl

theorem roundToDouble_of_lt (q : ℚ) (h : |q| < overflowThreshold) :
    roundToDouble q = .fin (nearestDouble q) := by
  have h' := abs_lt.mp h
  simp [roundToDouble, not_le.mpr h'.2, not_le.mpr h'.1]

theorem roundToDouble_neg (q : ℚ) : roundToDouble (-q) = (roundToDouble q).neg := by
  unfold roundToDouble
  by_cases h1 : overflowThreshold ≤ q
  · have hpos : (0 : ℚ) < overflowThreshold := lt_trans (by norm_num) overflowThreshold_large
    have h2 : ¬ overflowThreshold ≤ -q := by
      intro hh
      linarith
    have h3 : -q ≤ -overflowThreshold := by linarith
    rw [if_pos h1, if_neg h2, if_pos h3]
    rfl
  · rw [if_neg h1]
    by_cases h2 : q ≤ -overflowThreshold
    · have h3 : overflowThreshold ≤ -q := by linarith
      rw [if_pos h2, if_pos h3]
      rfl
    · have h3 : ¬ overflowThreshold ≤ -q := by
        intro hh
        apply h2
        linarith
      have h4 : ¬ -q ≤ -overflowThreshold := by
        intro hh
        apply h1
        linarith
      rw [if_neg h2, if_neg h3, if_neg h4, nearestDouble_neg]
      rfl

theorem roundToDouble_ne_nan (q : ℚ) : roundToDouble q ≠ .nan := by
  unfold roundToDouble
  split_ifs <;> simp

theorem roundToDouble_mono (q q' : ℚ) (h : q ≤ q') :
    JSNum.le (roundToDouble q) (roundToDouble q') := by
  unfold roundToDouble
  by_cases h1 : overflowThreshold ≤ q'
  · rw [if_pos h1]
    split_ifs <;> simp [JSNum.le]
  · have h1q : ¬ overflowThreshold ≤ q := fun hh => h1 (le_trans hh h)
    rw [if_neg h1, if_neg h1q]
    by_cases h2 : q ≤ -overflowThreshold
    · rw [if_pos h2]
      split_ifs <;> simp [JSNum.le]
    · have h2' : ¬ q' ≤ -overflowThreshold := fun hh => h2 (le_trans h hh)
      rw [if_neg h2, if_neg h2']
      exact nearestDouble_mono q q' h

/-! ## The claims about `aggregateData`, `filterData`, `sortData` and `convertValueType` -/

theorem aggregateData_overwrite (h : Host) :
    aggregateData h overwriteRows (some overwriteParams) =
      [[("g", .str "a"), ("count", .num (.fin 1))]] := by
  have s1 : addToGroups h (.single "g") [] [("g", .str "a"), ("v", .num (.fin 1))] =
      [("a", { rows := [[("g", .str "a"), ("v", .num (.fin 1))]], count := 1,
               fields := [("g", .str "a")] })] := by
    with_unfolding_all rfl
  have s2 : addToGroups h (.single "g")
      [("a", { rows := [[("g", .str "a"), ("v", .num (.fin 1))]], count := 1,
               fields := [("g", .str "a")] })]
      [("g", .str "a"), ("v", .null)] =
      [("a", { rows := [[("g", .str "a"), ("v", .num (.fin 1))],
                        [("g", .str "a"), ("v", .null)]], count := 2,
               fields := [("g", .str "a")] })] := by
    with_unfolding_all rfl
  have hg : buildGroups h (.single "g") overwriteRows =
      [("a", { rows := [[("g", .str "a"), ("v", .num (.fin 1))],
                        [("g", .str "a"), ("v", .null)]], count := 2,
               fields := [("g", .str "a")] })] := by
    simp only [buildGroups, overwriteRows, List.foldl, s1, s2]
  have hp : aggregateData h overwriteRows (some overwriteParams) =
      (JSObject.values (buildGroups h (.single "g") overwriteRows)).map
        (aggregateGroup h [{ column := "v", function := "count", as := some "count" }]) := rfl
  rw [hp, hg]
  with_unfolding_all rfl

/-- C4 (as the specification words it) fails: with the aggregation
`{column:"v", function:"count", as:"count"}` the two rows of `overwriteRows` form one group
whose `count` field is `1`, the number of rows that have a `v`, whatever the host. -/
theorem aggregateData_count_overwritten :
    ¬ ∃ h : Host, countTotal h (aggregateData h overwriteRows (some overwriteParams)) =
      .fin ((overwriteRows.length : ℕ) : ℚ) := by
  rintro ⟨h, hh⟩
  rw [aggregateData_overwrite h] at hh
  have hval : countTotal h [[("g", .str "a"), ("count", .num (.fin 1))]] = .fin 1 := by
    with_unfolding_all rfl
  rw [hval] at hh
  have : (1 : ℚ) = ((overwriteRows.length : ℕ) : ℚ) := JSNum.fin.inj hh
  norm_num [overwriteRows] at this

/-- C4 (amended): when `groupBy` and the aggregation list are given and no aggregation
writes its output to the field `count`, the sum of the `count` fields of the rows that
`aggregateData` returns equals the number of input rows.  (The two last hypotheses keep the
input inside the model: no group key is a member of `Object.prototype`, no group-by column
is the bookkeeping property `_rows` or `_count`.) -/
theorem aggregateData_count_total (h : Host) (data : List Row) (groupBy : FieldSpec)
    (aggregations : List Aggregation) (htruthy : groupBy.truthy = true)
    (hname : ∀ agg ∈ aggregations, outputName agg ≠ "count")
    (_hkeys : ∀ row ∈ data, isObjectPrototypeKey (groupKey h groupBy row) = false)
    (_hbook : ∀ col ∈ groupBy.toList, col ≠ "_rows" ∧ col ≠ "_count") :
    countTotal h (aggregateData h data (some ⟨some groupBy, some aggregations⟩)) =
      .fin ((data.length : ℕ) : ℚ) :=
  countTotal_aggregateData h data groupBy aggregations htruthy hname

/-- The hypotheses of C4 hold for the scenario rows grouped by `r` with a sum of `v`. -/
theorem aggregateData_count_total_witness :
    countTotal plainHost (aggregateData plainHost scenarioRows
        (some ⟨some (.single "r"), some [⟨"v", "sum", none⟩]⟩)) =
      .fin ((scenarioRows.length : ℕ) : ℚ) :=
  aggregateData_count_total plainHost scenarioRows (.single "r") [⟨"v", "sum", none⟩]
    (by decide) (by decide) (by decide) (by decide)

/-- C5: an aggregation of `aggregateData` writes to its output field `null` when the column
is `null`, `undefined` or the empty string in every row of the group, whatever the function
(`count` included), and otherwise the function applied to the column values that are none
of those three; every row `aggregateData` returns is the output row of a group and still
holds that value in the output field of each aggregation that no later aggregation of the
list overwrites. -/
theorem aggregateData_missing_values (h : Host) (data : List Row) (groupBy : FieldSpec)
    (aggregations : List Aggregation) (htruthy : groupBy.truthy = true) :
    (∀ (rows : List Row) (aggregated : Row) (agg : Aggregation),
      (aggregationStep h rows aggregated agg).get (outputName agg) =
        if ∀ row ∈ rows, row.get agg.column = .null ∨ row.get agg.column = .undefined ∨
            row.get agg.column = .str ""
        then .null
        else applyAggregation h agg.function
          ((rows.map (fun row => row.get agg.column)).filter
            (fun v => decide (v ≠ .null ∧ v ≠ .undefined ∧ v ≠ .str "")))) ∧
    (∀ out ∈ aggregateData h data (some ⟨some groupBy, some aggregations⟩),
      ∃ group ∈ JSObject.values (buildGroups h groupBy data),
        out = aggregateGroup h aggregations group ∧
        ∀ (pre : List Aggregation) (agg : Aggregation) (post : List Aggregation),
          aggregations = pre ++ agg :: post →
          (∀ later ∈ post, outputName later ≠ outputName agg) →
          out.get (outputName agg) =
            if ∀ row ∈ group.rows, row.get agg.column = .null ∨
                row.get agg.column = .undefined ∨ row.get agg.column = .str ""
            then .null
            else applyAggregation h agg.function
              ((group.rows.map (fun row => row.get agg.column)).filter
                (fun v => decide (v ≠ .null ∧ v ≠ .undefined ∧ v ≠ .str "")))) := by
  have hstep : ∀ (rows : List Row) (agg : Aggregation),
      (if columnValues rows agg.column = [] then Scalar.null
        else applyAggregation h agg.function (columnValues rows agg.column)) =
      if ∀ row ∈ rows, row.get agg.column = .null ∨ row.get agg.column = .undefined ∨
            row.get agg.column = .str ""
        then .null
        else applyAggregation h agg.function
          ((rows.map (fun row => row.get agg.column)).filter
            (fun v => decide (v ≠ .null ∧ v ≠ .undefined ∧ v ≠ .str ""))) := by
    intro rows agg
    rw [← columnValues_eq]
    by_cases hnil : columnValues rows agg.column = []
    · rw [if_pos hnil, if_pos ((columnValues_eq_nil_iff _ _).mp hnil)]
    · rw [if_neg hnil, if_neg (fun hall => hnil ((columnValues_eq_nil_iff _ _).mpr hall))]
  constructor
  · intro rows aggregated agg
    rw [get_aggregationStep, hstep]
  · intro out hout
    have hdata : aggregateData h data (some ⟨some groupBy, some aggregations⟩) =
        (JSObject.values (buildGroups h groupBy data)).map (aggregateGroup h aggregations) := by
      simp [aggregateData, htruthy]
    rw [hdata] at hout
    obtain ⟨group, hgroup, rfl⟩ := List.mem_map.mp hout
    refine ⟨group, hgroup, rfl, ?_⟩
    intro pre agg post haggs hpost
    rw [haggs, get_aggregateGroup h group pre agg post hpost, hstep]

/-- C5 at a concrete input: no scenario row has a column `w`, so a `count` of `w` writes
`null`. -/
theorem aggregateData_missing_values_witness :
    (aggregationStep plainHost scenarioRows [] ⟨"w", "count", none⟩).get
        (outputName ⟨"w", "count", none⟩) = .null :=
  ((aggregateData_missing_values plainHost scenarioRows (.single "r") [⟨"w", "count", none⟩]
    (by decide)).1 scenarioRows [] ⟨"w", "count", none⟩).trans (by decide)

/-- C6: for a list of conditions, `filterData` returns a subsequence of the input rows (in
their original order), so at most as many rows, and an input row is retained if and only if
it passes every condition of the list. -/
theorem filterData_subsequence (h : Host) (data : List Row) (conditions : List Condition) :
    (filterData h data (some ⟨some conditions⟩)).Sublist data ∧
    (filterData h data (some ⟨some conditions⟩)).length ≤ data.length ∧
    ∀ row ∈ data, (row ∈ filterData h data (some ⟨some conditions⟩) ↔
      ∀ condition ∈ conditions, conditionHolds h row condition = true) := by
  rw [filterData_eq]
  refine ⟨List.filter_sublist _, List.length_filter_le _ _, ?_⟩
  intro row hrow
  simp [List.mem_filter, hrow, List.all_eq_true]

theorem neutralHost_antisymmetric : localeCompareAntisymmetric neutralHost :=
  fun _ _ => ⟨fun _ => rfl, fun hp => absurd hp (lt_irrefl (0 : Int)),
    fun hn => absurd hn (lt_irrefl (0 : Int))⟩

/-- C7: sorting twice gives the same rows as sorting once, for every dataset and every sort
specification, on an engine whose `localeCompare` answers exchanged arguments with the
opposite sign. -/
theorem sortData_idempotent (h : Host) (hlc : localeCompareAntisymmetric h) (data : List Row)
    (params : Option SortParams) :
    sortData h (sortData h data params) params = sortData h data params :=
  sortData_sortData h hlc data params

/-- The hypothesis of C7 holds for a host, here applied to the scenario rows sorted by `v`
in descending order. -/
theorem sortData_idempotent_witness :
    localeCompareAntisymmetric neutralHost ∧
    sortData neutralHost (sortData neutralHost scenarioRows
        (some ⟨some [⟨"v", some "desc"⟩]⟩)) (some ⟨some [⟨"v", some "desc"⟩]⟩) =
      sortData neutralHost scenarioRows (some ⟨some [⟨"v", some "desc"⟩]⟩) :=
  ⟨neutralHost_antisymmetric,
   sortData_idempotent neutralHost neutralHost_antisymmetric scenarioRows
    (some ⟨some [⟨"v", some "desc"⟩]⟩)⟩

/-- C8: in the comparator of `sortData`, before the direction is applied, two
null/undefined values compare as `0`, a null/undefined value against another value as `-1`
and another value against a null/undefined value as `1`; the direction multiplies the
comparison by `-1` for `desc` and by `1` otherwise; the first sort key whose comparison is
not `0` gives the result, which is `0` when there is none; and this comparator is the one
the rows are sorted by. -/
theorem sortData_comparison (h : Host) :
    (∀ valA valB : Scalar, valA.isNullish = true → valB.isNullish = true →
      compareValues h valA valB = .fin 0) ∧
    (∀ valA valB : Scalar, valA.isNullish = true → valB.isNullish = false →
      compareValues h valA valB = .fin (-1)) ∧
    (∀ valA valB : Scalar, valA.isNullish = false → valB.isNullish = true →
      compareValues h valA valB = .fin 1) ∧
    (∀ column : String, directionSign ⟨column, some "desc"⟩ = .fin (-1) ∧
      directionSign ⟨column, some "asc"⟩ = .fin 1 ∧ directionSign ⟨column, none⟩ = .fin 1) ∧
    (∀ q : ℚ, JSNum.mul (.fin q) (.fin 1) = .fin q ∧ JSNum.mul (.fin q) (.fin (-1)) = .fin (-q)) ∧
    (∀ (pre : List SortColumn) (sortCol : SortColumn) (post : List SortColumn) (a b : Row),
      (∀ c ∈ pre, compareValues h (a.get c.column) (b.get c.column) = .fin 0) →
      compareValues h (a.get sortCol.column) (b.get sortCol.column) ≠ .fin 0 →
      compareRows h (pre ++ sortCol :: post) a b =
        JSNum.mul (compareValues h (a.get sortCol.column) (b.get sortCol.column))
          (directionSign sortCol)) ∧
    (∀ (columns : List SortColumn) (a b : Row),
      (∀ c ∈ columns, compareValues h (a.get c.column) (b.get c.column) = .fin 0) →
      compareRows h columns a b = .fin 0) ∧
    (∀ (data : List Row) (columns : List SortColumn), columns ≠ [] →
      sortData h data (some ⟨some columns⟩) =
        data.insertionSort (sortsBefore (compareRows h columns))) := by
  refine ⟨fun a b => (compareValues_nullish h a b).1, fun a b => (compareValues_nullish h a b).2.1,
    fun a b => (compareValues_nullish h a b).2.2, fun _ => ⟨rfl, rfl, rfl⟩, ?_,
    compareRows_first_nonzero h, compareRows_all_zero h, ?_⟩
  · intro q
    simp [JSNum.mul]
  · intro data columns hne
    have : columns.length ≠ 0 := fun hlen => hne (List.length_eq_zero.mp hlen)
    simp [sortData, this]

/-- C9: `convertValueType` is idempotent on every scalar: null, undefined, numbers,
booleans, dates and all strings. -/
theorem convertValueType_idempotent (h : Host) (x : Scalar) :
    convertValueType h (convertValueType h x) = convertValueType h x :=
  convertValueType_convertValueType h x

/-! ## `convertValueType`: the rounding of `parseFloat` -/

theorem nearestDouble_int (n : Int) (hn : |n| ≤ 2 ^ 53) : nearestDouble (n : ℚ) = n := by
  by_cases h0 : n = 0
  · subst h0
    simpa using nearestDouble_zero
  · have hq : (n : ℚ) ≠ 0 := by exact_mod_cast h0
    have habs1 : (1 : ℚ) ≤ |(n : ℚ)| := by
      have : 1 ≤ |n| := Int.one_le_abs h0
      exact_mod_cast this
    have habs2 : |(n : ℚ)| ≤ 2 ^ 53 := by exact_mod_cast hn
    have hb0 : 0 ≤ binade (n : ℚ) := le_binade _ hq 0 (by rw [pow2_eq]; simpa using habs1)
    have hb1 : binade (n : ℚ) ≤ 53 := by
      apply binade_le _ hq 53
      rw [pow2_eq]
      norm_num
      linarith
    have hu : ulpExponent (n : ℚ) = binade (n : ℚ) - 52 := by
      unfold ulpExponent
      omega
    by_cases hb : binade (n : ℚ) ≤ 52
    · apply nearestDouble_of_grid _ (n * 2 ^ (52 - binade (n : ℚ)).toNat)
      rw [hu, pow2_eq]
      push_cast
      have h2 : ((2 : ℚ) ^ (52 - binade (n : ℚ)).toNat) = (2 : ℚ) ^ (52 - binade (n : ℚ)) := by
        rw [← zpow_natCast]
        congr 1
        exact Int.toNat_of_nonneg (by omega)
      rw [h2, mul_assoc, ← zpow_add₀ (by norm_num)]
      have h3 : 52 - binade (n : ℚ) + (binade (n : ℚ) - 52) = 0 := by ring
      rw [h3, zpow_zero, mul_one]
    · have hb53 : binade (n : ℚ) = 53 := by omega
      have h1 := (binade_spec _ hq).1
      rw [hb53, pow2_53] at h1
      have h2 : (2 ^ 53 : Int) ≤ |n| := by exact_mod_cast h1
      have habs : |n| = 2 ^ 53 := le_antisymm hn h2
      apply nearestDouble_of_grid _ (n / 2)
      rw [hu, hb53]
      have h3 : (53 : Int) - 52 = 1 := by norm_num
      rw [h3, pow2_eq, zpow_one]
      have hev : n = (n / 2) * 2 := by
        rcases (abs_eq (by norm_num : (0 : Int) ≤ 2 ^ 53)).mp habs with h | h <;> omega
      have hev' : (n : ℚ) = ((n / 2 : Int) : ℚ) * 2 := by exact_mod_cast hev
      exact hev'

theorem roundToDouble_int (n : Int) (hn : |n| ≤ 2 ^ 53) : roundToDouble (n : ℚ) = .fin n := by
  have habs : |(n : ℚ)| ≤ 2 ^ 53 := by exact_mod_cast hn
  have hlt : |(n : ℚ)| < overflowThreshold := by
    rw [overflowThreshold_eq]
    refine lt_of_le_of_lt habs ?_
    norm_num
  rw [roundToDouble_of_lt _ hlt, nearestDouble_int n hn]

theorem decimalValue_int (negative : Bool) (intPart : List Char) :
    decimalValue negative intPart [] =
      (((if negative then -1 else 1) *
        ((Nat.ofDigits 10 (intPart.reverse.map (fun d => d.toNat - 48)) : Nat) : Int) : Int) :
          ℚ) := by
  unfold decimalValue
  have h0 : (Nat.ofDigits (10 : ℚ)
      (([] : List Char).reverse.map (fun d => d.toNat - 48))) = 0 := rfl
  have h1 := Nat.coe_ofDigits ℚ 10 (intPart.reverse.map (fun d => d.toNat - 48))
  rw [h0]
  cases negative
  · simp only [Bool.false_eq_true, if_false, one_mul, Int.cast_natCast, h1]
    simp
  · simp only [if_true, Int.cast_mul, Int.cast_neg, Int.cast_one, Int.cast_natCast, h1]
    simp

theorem convertValueType_of_numberPattern (h : Host) (s : String)
    (hpat : numberPattern (jsTrim s).data = true) :
    convertValueType h (.str s) = .num (parseFloat (jsTrim s).data) := by
  have hne : jsTrim s ≠ "" := by
    intro hempty
    rw [hempty] at hpat
    exact absurd hpat (by decide)
  simp [convertValueType, hne, hpat]

/-- C10, counterexample: the string `9007199254740993` denotes the decimal value
`9007199254740993`, and `convertValueType` returns the number `9007199254740992`, the
nearest double, whatever the engine is. -/
theorem convertValueType_number_not_exact :
    decimalValue false "9007199254740993".data [] = 9007199254740993 ∧
    ¬ ∃ h : Host,
      convertValueType h (.str "9007199254740993") = .num (.fin 9007199254740993) := by
  constructor
  · have hd : "9007199254740993".data =
        ['9', '0', '0', '7', '1', '9', '9', '2', '5', '4', '7', '4', '0', '9', '9', '3'] := rfl
    rw [hd]
    simp [decimalValue, Nat.ofDigits]
    norm_num
  · rintro ⟨h, hh⟩
    have hpat : numberPattern (jsTrim "9007199254740993").data = true := by
      with_unfolding_all decide
    have hpf : parseFloat (jsTrim "9007199254740993").data = .fin 9007199254740992 := by
      with_unfolding_all rfl
    rw [convertValueType_of_numberPattern h _ hpat, hpf] at hh
    injection hh with hh
    injection hh with hh
    norm_num at hh

/-- C10, amended: `convertValueType` turns a string into a number if and only if the trimmed
string is an optional `-`, one or more digits and optionally a `.` followed by one or more
digits; the number is then the double nearest to the decimal value of that numeral (ties go
to the even mantissa, values from `2^1024 - 2^970` on become `Infinity`), which is the
decimal value itself when the numeral has no fraction and its value is at most `2^53` in
magnitude. -/
theorem convertValueType_number_rounded (h : Host) (s : String) :
    ((∃ n, convertValueType h (.str s) = .num n) ↔ IsDecimalNumeral (jsTrim s).data) ∧
    ∀ (negative : Bool) (intPart frac : List Char), intPart ≠ [] →
      (∀ c ∈ intPart, c.isDigit = true) → (∀ c ∈ frac, c.isDigit = true) →
      (jsTrim s).data = (if negative then ['-'] else []) ++ intPart ++
        (if frac = [] then [] else '.' :: frac) →
      convertValueType h (.str s) = .num (roundToDouble (decimalValue negative intPart frac)) ∧
      (frac = [] → |decimalValue negative intPart frac| ≤ 2 ^ 53 →
        convertValueType h (.str s) = .num (.fin (decimalValue negative intPart frac))) := by
  constructor
  · constructor
    · rintro ⟨n, hn⟩
      rw [← numberPattern_iff]
      by_contra hpat
      simp only [convertValueType, hpat] at hn
      split_ifs at hn
      contradiction
    · intro hdec
      exact ⟨_, convertValueType_of_numberPattern h s ((numberPattern_iff _).mpr hdec)⟩
  · intro negative intPart frac hne hint hfrac hdata
    have hdec : IsDecimalNumeral (jsTrim s).data :=
      ⟨negative, intPart, frac, hne, hint, hfrac, hdata⟩
    have hval : convertValueType h (.str s) =
        .num (roundToDouble (decimalValue negative intPart frac)) := by
      rw [convertValueType_of_numberPattern h s ((numberPattern_iff _).mpr hdec), hdata,
        parseFloat_numeral negative intPart frac hne hint hfrac]
    refine ⟨hval, ?_⟩
    intro hf hle
    subst hf
    rw [hval]
    rw [decimalValue_int] at hle ⊢
    rw [roundToDouble_int _ (by exact_mod_cast hle)]

/-! ## Arithmetic on the numbers that are rationals -/

namespace JSNum

@[simp] theorem add_fin (a b : ℚ) : add (fin a) (fin b) = fin (a + b) := rfl

@[simp] theorem neg_fin (a : ℚ) : neg (fin a) = fin (-a) := rfl

@[simp] theorem sub_fin (a b : ℚ) : sub (fin a) (fin b) = fin (a - b) := by
  simp [sub, sub_eq_add_neg]

@[simp] theorem mul_fin (a b : ℚ) : mul (fin a) (fin b) = fin (a * b) := rfl

@[simp] theorem abs_fin (a : ℚ) : abs (fin a) = fin |a| := rfl

theorem div_fin {b : ℚ} (a : ℚ) (hb : b ≠ 0) : div (fin a) (fin b) = fin (a / b) := by
  simp [div, hb]

@[simp] theorem lt_fin (a b : ℚ) : lt (fin a) (fin b) = decide (a < b) := rfl

@[simp] theorem square_fin (a : ℚ) : square (fin a) = fin (a * a) := rfl

end JSNum

/-! ## `detectColumnType` on the empty string -/

/-- C11, failing input: for the column `['', '', '', 1]` the only value that is not `null`,
`undefined` or the empty string is a number, so numbers are all of the non-null values,
yet `detectColumnType` counts the three empty strings as strings, finds no non-null value
missing (`null` counter `0`) and returns `mixed`. -/
theorem detectColumnType_empty_strings :
    detectColumnType emptyStringColumn = "mixed" ∧
    numberCount emptyStringColumn = 1 ∧ nonNullCount emptyStringColumn = 1 ∧
    (typeCounts emptyStringColumn).string = 3 ∧ (typeCounts emptyStringColumn).null = 0 := by
  with_unfolding_all decide

/-! ## `getDataStatistics`: the statistics of a column -/

theorem get?_foldl_set {α : Type} (f : String → α) (ks : List String) (o : JSObject α)
    (col : String) :
    (ks.foldl (fun columns k => columns.set k (f k)) o).get? col =
      if col ∈ ks then some (f col) else o.get? col := by
  induction ks generalizing o with
  | nil => simp
  | cons k ks ih =>
    simp only [List.foldl, ih, List.mem_cons]
    by_cases h1 : col ∈ ks
    · simp [h1]
    · by_cases h2 : col = k
      · subst h2
        simp [h1, JSObject.get?_set_self]
      · simp [h1, h2, JSObject.get?_set_ne _ _ _ _ h2]

theorem getDataStatistics_column (m : JSMath) (currentData data : Option (List Row))
    (col : String) (stats : ColumnStats)
    (hcol : (getDataStatistics m currentData data).columns.get? col = some stats) :
    stats = columnStatsOf m (valuesOf (dataToAnalyze currentData data) col) := by
  unfold getDataStatistics at hcol
  split at hcol
  · simp [JSObject.get?] at hcol
  · next first rest heq =>
    simp only at hcol
    rw [get?_foldl_set (fun col => columnStatsOf m (valuesOf (first :: rest) col))] at hcol
    rw [heq]
    split at hcol
    · exact (Option.some.inj hcol).symm
    · simp [JSObject.get?] at hcol

theorem getDataStatistics_column_of_mem (m : JSMath) (data : List Row) (first : Row)
    (rest : List Row) (hdata : data = first :: rest) (col : String)
    (hmem : col ∈ JSObject.keys first) :
    (getDataStatistics m none (some data)).columns.get? col =
      some (columnStatsOf m (valuesOf data col)) := by
  subst hdata
  simp only [getDataStatistics, dataToAnalyze, Option.orElse, Option.getD]
  rw [get?_foldl_set (fun col => columnStatsOf m (valuesOf (first :: rest) col))]
  simp [hmem]

theorem numberCount_eq (values : List Scalar) :
    (values.filterMap Scalar.number?).length = numberCount values := by
  unfold numberCount
  induction values with
  | nil => rfl
  | cons v vs ih => cases v <;> simp [Scalar.number?, Scalar.typeOf, List.filterMap_cons, ih]

theorem numberCount_le_notNull (values : List Scalar) :
    numberCount values ≤ (values.filter (fun v => !v.isMissing)).length := by
  unfold numberCount
  apply List.Sublist.length_le
  apply List.monotone_filter_right
  intro v hv
  cases v <;> first | rfl | simp [Scalar.typeOf] at hv

theorem numberCount_eq_notNull (values : List Scalar)
    (h : ∀ v ∈ values, v.isMissing = false → v.typeOf = "number") :
    (values.filter (fun v => !v.isMissing)).length = numberCount values := by
  unfold numberCount
  congr 1
  apply List.filter_congr
  intro v hv
  cases hm : v.isMissing
  · simp [h v hv hm]
  · cases v <;> simp [Scalar.isMissing] at hm <;> simp [Scalar.typeOf]

theorem columnStatsOf_number (m : JSMath) (values : List Scalar)
    (htype : (columnStatsOf m values).type = "number") :
    (columnStatsOf m values).sum = some (sumOf (values.filterMap Scalar.number?)) ∧
    (columnStatsOf m values).mean =
      some (JSNum.div (sumOf (values.filterMap Scalar.number?)) (.fin (numberCount values))) := by
  have ht : detectColumnType values = "number" := htype
  simp only [columnStatsOf, ht, if_true, numberCount_eq, and_self]

/-! ## `getDataStatistics`: the most frequent strings -/

namespace JSObject
variable {α : Type}

theorem keys_replace (o : JSObject α) (k : String) (v : α) : (o.replace k v).keys = o.keys := by
  induction o with
  | nil => rfl
  | cons kv rest ih =>
    obtain ⟨k0, v0⟩ := kv
    by_cases hkk : k0 = k
    · simp [replace, keys, hkk]
    · simp only [replace, hkk, if_false, keys, List.map_cons] at ih ⊢
      rw [ih]

theorem get?_eq_none_iff (o : JSObject α) (k : String) : o.get? k = none ↔ k ∉ o.keys := by
  induction o with
  | nil => simp [get?, keys]
  | cons kv rest ih =>
    obtain ⟨k0, v0⟩ := kv
    by_cases hkk : k0 = k
    · simp [get?, keys, hkk]
    · simp only [get?, hkk, if_false, keys, List.map_cons, List.mem_cons, not_or] at ih ⊢
      rw [ih]
      exact ⟨fun h => ⟨fun hk => hkk hk.symm, h⟩, fun h => h.2⟩

theorem nodup_keys_set (o : JSObject α) (k : String) (v : α) (h : o.keys.Nodup) :
    (o.set k v).keys.Nodup := by
  unfold set
  split
  · rw [keys_replace]; exact h
  · next hk =>
    have hnone : o.get? k = none := by simpa [hasKey] using hk
    have hperm : (o.insertNew k v).keys.Perm (k :: o.keys) := (perm_insertNew o k v).map Prod.fst
    rw [hperm.nodup_iff, List.nodup_cons]
    exact ⟨(get?_eq_none_iff o k).mp hnone, h⟩

theorem get?_of_mem (o : JSObject α) (h : o.keys.Nodup) (k : String) (v : α)
    (hmem : (k, v) ∈ o) : o.get? k = some v := by
  induction o with
  | nil => simp at hmem
  | cons kv rest ih =>
    obtain ⟨k0, v0⟩ := kv
    simp only [keys, List.map_cons, List.nodup_cons] at h
    rcases List.mem_cons.mp hmem with heq | hrest
    · cases heq
      simp [get?]
    · have hne : k0 ≠ k := by
        intro hk
        apply h.1
        rw [hk]
        exact List.mem_map.mpr ⟨(k, v), hrest, rfl⟩
      simp only [get?, hne, if_false]
      exact ih h.2 hrest

theorem keys_set_of_not_index (o : JSObject α) (k : String) (v : α)
    (hk : arrayIndex? k = none) :
    (o.set k v).keys = if k ∈ o.keys then o.keys else o.keys ++ [k] := by
  unfold set
  by_cases hmem : k ∈ o.keys
  · have hhas : o.hasKey k = true := by
      cases hget : o.get? k with
      | none => exact absurd hmem ((get?_eq_none_iff o k).mp hget)
      | some x => simp [hasKey, hget]
    simp [hhas, hmem, keys_replace]
  · have hhas : o.hasKey k = false := by
      simp [hasKey, (get?_eq_none_iff o k).mpr hmem]
    rw [if_neg hmem]
    simp [hhas, insertNew, hk, keys]

end JSObject

theorem get?_foldl_countStrings (vs : List Scalar) (o : JSObject Nat) (s : String) :
    (vs.foldl countString o).get? s =
      if vs.count (.str s) = 0 then o.get? s
      else some ((o.get? s).getD 0 + vs.count (.str s)) := by
  induction vs generalizing o with
  | nil => simp
  | cons v vs ih =>
    rw [List.foldl, ih]
    cases v with
    | str s' =>
      simp only [countString]
      by_cases hs : s' = s
      · subst hs
        simp only [JSObject.get?_set_self, List.count_cons_self, Option.getD_some]
        split
        · next h0 => simp [h0]
        · simp; omega
      · have hne : (Scalar.str s' == Scalar.str s) = false := by simpa using hs
        simp only [JSObject.get?_set_ne _ _ _ _ (Ne.symm hs), List.count_cons, hne]
        simp
    | undefined => simp [countString, List.count_cons]
    | null => simp [countString, List.count_cons]
    | bool b => simp [countString, List.count_cons]
    | num n => simp [countString, List.count_cons]
    | date t => simp [countString, List.count_cons]

theorem nodup_keys_foldl_countStrings (vs : List Scalar) (o : JSObject Nat)
    (h : (JSObject.keys o).Nodup) :
    (JSObject.keys (vs.foldl countString o)).Nodup := by
  induction vs generalizing o with
  | nil => exact h
  | cons v vs ih =>
    rw [List.foldl]
    apply ih
    cases v <;> first | exact h | exact JSObject.nodup_keys_set _ _ _ h

theorem countStrings_mem (values : List Scalar) (p : String × Nat)
    (hp : p ∈ countStrings values) : p.2 = values.count (.str p.1) := by
  have hnodup := nodup_keys_foldl_countStrings values [] (by simp [JSObject.keys])
  have hget := JSObject.get?_of_mem (countStrings values) hnodup p.1 p.2 hp
  unfold countStrings at hget
  rw [get?_foldl_countStrings] at hget
  split at hget
  · simp [JSObject.get?] at hget
  · simpa [JSObject.get?] using hget.symm

theorem keys_foldl_countStrings (vs : List Scalar) (o : JSObject Nat)
    (hidx : ∀ s : String, Scalar.str s ∈ vs → arrayIndex? s = none) :
    JSObject.keys (vs.foldl countString o) =
      JSObject.keys o ++ (firstEncountered vs).filter (fun s => decide (s ∉ JSObject.keys o)) := by
  induction vs generalizing o with
  | nil => simp [firstEncountered, dedupBy]
  | cons v vs ih =>
    have hidx' : ∀ s : String, Scalar.str s ∈ vs → arrayIndex? s = none :=
      fun s hs => hidx s (List.mem_cons_of_mem _ hs)
    rw [List.foldl, ih _ hidx']
    cases v with
    | str s =>
      have hs := hidx s (List.mem_cons_self _ _)
      have hfe : firstEncountered (Scalar.str s :: vs) =
          s :: (firstEncountered vs).filter (fun y => !decide (s = y)) := by
        simp [firstEncountered, Scalar.string?, dedupBy]
      have hkeys := JSObject.keys_set_of_not_index o s ((JSObject.get? o s).getD 0 + 1) hs
      simp only [countString, hfe, hkeys]
      by_cases hmem : s ∈ JSObject.keys o
      · simp only [hmem, if_true, List.filter_cons, not_true_eq_false, decide_False,
          Bool.false_eq_true, if_false, List.filter_filter]
        congr 1
        apply List.filter_congr
        intro y _
        by_cases hy : y ∈ JSObject.keys o
        · simp [hy]
        · have : s ≠ y := fun h => hy (h ▸ hmem)
          simp [hy, this]
      · simp only [hmem, if_false, List.filter_cons, not_false_eq_true, decide_True, if_true,
          List.filter_filter, List.append_assoc, List.singleton_append]
        congr 2
        apply List.filter_congr
        intro y _
        by_cases hy : y ∈ JSObject.keys o
        · simp [hy]
        · by_cases hsy : s = y
          · simp [hsy]
          · have : ¬ y = s := fun h => hsy h.symm
            simp [hy, hsy, this]
    | undefined => simp [countString, firstEncountered, Scalar.string?]
    | null => simp [countString, firstEncountered, Scalar.string?]
    | bool b => simp [countString, firstEncountered, Scalar.string?]
    | num n => simp [countString, firstEncountered, Scalar.string?]
    | date t => simp [countString, firstEncountered, Scalar.string?]

theorem keys_countStrings (values : List Scalar)
    (hidx : ∀ s : String, Scalar.str s ∈ values → arrayIndex? s = none) :
    JSObject.keys (countStrings values) = firstEncountered values := by
  have h := keys_foldl_countStrings values [] hidx
  simpa [countStrings, JSObject.keys] using h

theorem sortsBefore_compareCounts (a b : String × Nat) :
    sortsBefore compareCounts a b ↔ b.2 ≤ a.2 := by
  simp [sortsBefore, compareCounts]

theorem filter_orderedInsert {α : Type} (r : α → α → Prop) [DecidableRel r] (p : α → Bool)
    (h : ∀ a b, p a = true → p b = true → r a b) (a : α) (l : List α) :
    (l.orderedInsert r a).filter p = (a :: l).filter p := by
  induction l with
  | nil => rfl
  | cons b l ih =>
    by_cases hab : r a b
    · simp [List.orderedInsert, hab]
    · simp only [List.orderedInsert, hab, if_false]
      rw [List.filter_cons, ih]
      cases hpa : p a
      · simp [List.filter_cons, hpa]
      · have hpb : p b = false := by
          cases hpb : p b
          · rfl
          · exact absurd (h a b hpa hpb) hab
        simp [List.filter_cons, hpa, hpb]

theorem filter_insertionSort {α : Type} (r : α → α → Prop) [DecidableRel r] (p : α → Bool)
    (h : ∀ a b, p a = true → p b = true → r a b) (l : List α) :
    (l.insertionSort r).filter p = l.filter p := by
  induction l with
  | nil => rfl
  | cons a l ih =>
    rw [List.insertionSort, filter_orderedInsert r p h, List.filter_cons, List.filter_cons, ih]

theorem mostFrequentOf_sorted (valueCounts : JSObject Nat) :
    (mostFrequentOf valueCounts).Sorted (fun a b => b.2 ≤ a.2) := by
  haveI : IsTotal (String × Nat) (sortsBefore compareCounts) :=
    ⟨fun a b => by
      rw [sortsBefore_compareCounts, sortsBefore_compareCounts]
      exact le_total _ _⟩
  haveI : IsTrans (String × Nat) (sortsBefore compareCounts) :=
    ⟨fun a b c => by
      rw [sortsBefore_compareCounts, sortsBefore_compareCounts, sortsBefore_compareCounts]
      exact fun h1 h2 => le_trans h2 h1⟩
  have h := List.sorted_insertionSort (sortsBefore compareCounts) valueCounts
  have h' : (valueCounts.insertionSort (sortsBefore compareCounts)).Sorted
      (fun a b => b.2 ≤ a.2) :=
    List.Pairwise.imp (fun {a b} hab => (sortsBefore_compareCounts a b).mp hab) h
  exact List.Pairwise.sublist (List.take_sublist _ _) h'

theorem mostFrequentOf_ties (valueCounts : JSObject Nat) :
    TiesInOrderOf (JSObject.keys valueCounts) (mostFrequentOf valueCounts) := by
  intro c
  have h1 : List.Sublist
      (((valueCounts.insertionSort (sortsBefore compareCounts)).take 10).filter
        (fun p => decide (p.2 = c)))
      ((valueCounts.insertionSort (sortsBefore compareCounts)).filter
        (fun p => decide (p.2 = c))) :=
    (List.take_sublist _ _).filter _
  rw [filter_insertionSort (sortsBefore compareCounts) (fun p => decide (p.2 = c))] at h1
  · exact (h1.trans (List.filter_sublist _)).map Prod.fst
  · intro a b ha hb
    rw [sortsBefore_compareCounts]
    simp only [decide_eq_true_eq] at ha hb
    omega

theorem mostFrequentOf_mem (valueCounts : JSObject Nat) (p : String × Nat)
    (hp : p ∈ mostFrequentOf valueCounts) : p ∈ valueCounts :=
  (List.perm_insertionSort _ _).subset (List.mem_of_mem_take hp)

theorem columnStatsOf_string (m : JSMath) (values : List Scalar)
    (htype : (columnStatsOf m values).type = "string") :
    (columnStatsOf m values).mostFrequent = some (mostFrequentOf (countStrings values)) := by
  have ht : detectColumnType values = "string" := htype
  simp only [columnStatsOf, ht, if_true]

/-! ## The claims about `getDataStatistics` -/

theorem mixedNumberRows_column (m : JSMath) :
    (getDataStatistics m none (some mixedNumberRows)).columns.get? "a" =
      some (columnStatsOf m (valuesOf mixedNumberRows "a")) :=
  getDataStatistics_column_of_mem m mixedNumberRows [("a", .num (.fin 1))]
    [[("a", .num (.fin 2))], [("a", .num (.fin 3))], [("a", .num (.fin 4))], [("a", .str "x")]]
    rfl "a" (by simp [JSObject.keys])

theorem mixedNumberRows_type (m : JSMath) :
    (columnStatsOf m (valuesOf mixedNumberRows "a")).type = "number" := by
  show detectColumnType (valuesOf mixedNumberRows "a") = "number"
  with_unfolding_all decide

/-- C12, counterexample: in the dataset whose column `a` holds `1, 2, 3, 4` and the string
`x`, the column is classified as number with sum `10` and `notNull` `5`, and the mean is
`10 / 4`, not `10 / 5`, whatever the engine's `Math` is. -/
theorem getDataStatistics_mean_not_over_notNull :
    ¬ ∃ m : JSMath, ∀ stats : ColumnStats,
      (getDataStatistics m none (some mixedNumberRows)).columns.get? "a" = some stats →
      stats.type = "number" →
      ∃ sum : JSNum, stats.sum = some sum ∧
        stats.mean = some (JSNum.div sum (.fin stats.notNull)) := by
  rintro ⟨m, h⟩
  obtain ⟨sum, hsum, hmean⟩ := h _ (mixedNumberRows_column m) (mixedNumberRows_type m)
  obtain ⟨hs, hm⟩ := columnStatsOf_number m _ (mixedNumberRows_type m)
  have h1 : sumOf ((valuesOf mixedNumberRows "a").filterMap Scalar.number?) = .fin 10 := by
    with_unfolding_all decide
  have h2 : numberCount (valuesOf mixedNumberRows "a") = 4 := by
    with_unfolding_all decide
  have h3 : (columnStatsOf m (valuesOf mixedNumberRows "a")).notNull = 5 := by
    show ((valuesOf mixedNumberRows "a").filter (fun v => !v.isMissing)).length = 5
    with_unfolding_all decide
  rw [hs, h1] at hsum
  cases hsum
  rw [hm, h1, h2, h3] at hmean
  revert hmean
  with_unfolding_all decide

/-- C12, amended: for every dataset and every column that `getDataStatistics` classifies
as number, the reported mean is the reported sum divided by the number of values of type
number in the column; that number is at most the reported `notNull`, and the mean is the
sum divided by `notNull` when every value of the column other than `null`, `undefined` and
the empty string is a number. -/
theorem getDataStatistics_mean (m : JSMath) (currentData data : Option (List Row))
    (col : String) (stats : ColumnStats) (_hname : col ≠ "__proto__")
    (hcol : (getDataStatistics m currentData data).columns.get? col = some stats)
    (htype : stats.type = "number") :
    ∃ sum : JSNum, stats.sum = some sum ∧
      stats.mean = some (JSNum.div sum
        (.fin (numberCount (valuesOf (dataToAnalyze currentData data) col)))) ∧
      numberCount (valuesOf (dataToAnalyze currentData data) col) ≤ stats.notNull ∧
      ((∀ v ∈ valuesOf (dataToAnalyze currentData data) col,
          v.isMissing = false → v.typeOf = "number") →
        stats.mean = some (JSNum.div sum (.fin stats.notNull))) := by
  have hstats := getDataStatistics_column m currentData data col stats hcol
  subst hstats
  obtain ⟨hs, hm⟩ := columnStatsOf_number m _ htype
  refine ⟨_, hs, hm, numberCount_le_notNull _, fun hall => ?_⟩
  rw [hm]
  have hn : (columnStatsOf m (valuesOf (dataToAnalyze currentData data) col)).notNull =
      numberCount (valuesOf (dataToAnalyze currentData data) col) :=
    numberCount_eq_notNull _ hall
  rw [hn]

theorem getDataStatistics_mean_witness :
    ∃ sum : JSNum, (columnStatsOf plainMath (valuesOf mixedNumberRows "a")).sum = some sum ∧
      (columnStatsOf plainMath (valuesOf mixedNumberRows "a")).mean = some (JSNum.div sum
        (.fin (numberCount (valuesOf (dataToAnalyze none (some mixedNumberRows)) "a")))) ∧
      numberCount (valuesOf (dataToAnalyze none (some mixedNumberRows)) "a") ≤
        (columnStatsOf plainMath (valuesOf mixedNumberRows "a")).notNull ∧
      ((∀ v ∈ valuesOf (dataToAnalyze none (some mixedNumberRows)) "a",
          v.isMissing = false → v.typeOf = "number") →
        (columnStatsOf plainMath (valuesOf mixedNumberRows "a")).mean =
          some (JSNum.div sum
            (.fin (columnStatsOf plainMath (valuesOf mixedNumberRows "a")).notNull))) :=
  getDataStatistics_mean plainMath none (some mixedNumberRows) "a"
    (columnStatsOf plainMath (valuesOf mixedNumberRows "a")) (by decide)
    (mixedNumberRows_column plainMath) (mixedNumberRows_type plainMath)

theorem indexStringRows_column (m : JSMath) :
    (getDataStatistics m none (some indexStringRows)).columns.get? "a" =
      some (columnStatsOf m (valuesOf indexStringRows "a")) :=
  getDataStatistics_column_of_mem m indexStringRows [("a", .str "5")] [[("a", .str "3")]]
    rfl "a" (by simp [JSObject.keys])

theorem indexStringRows_type (m : JSMath) :
    (columnStatsOf m (valuesOf indexStringRows "a")).type = "string" := by
  show detectColumnType (valuesOf indexStringRows "a") = "string"
  with_unfolding_all decide

/-- C13, counterexample: in the column that holds the strings `5` and `3`, met in this
order and once each, `mostFrequent` lists `3` before `5`: the two pairs have equal counts
and do not appear in the order in which their values were first encountered, whatever the
engine's `Math` is. -/
theorem getDataStatistics_ties_not_first_encountered :
    ¬ ∃ m : JSMath, ∀ stats : ColumnStats,
      (getDataStatistics m none (some indexStringRows)).columns.get? "a" = some stats →
      stats.type = "string" →
      ∃ mostFrequent : List (String × Nat), stats.mostFrequent = some mostFrequent ∧
        TiesInOrderOf (firstEncountered (valuesOf indexStringRows "a")) mostFrequent := by
  rintro ⟨m, h⟩
  obtain ⟨mf, hmf, hties⟩ := h _ (indexStringRows_column m) (indexStringRows_type m)
  rw [columnStatsOf_string m _ (indexStringRows_type m)] at hmf
  have h1 : mostFrequentOf (countStrings (valuesOf indexStringRows "a")) =
      [("3", 1), ("5", 1)] := by
    with_unfolding_all decide
  have h2 : firstEncountered (valuesOf indexStringRows "a") = ["5", "3"] := by
    with_unfolding_all decide
  rw [h1] at hmf
  cases hmf
  have h3 := hties 1
  rw [h2] at h3
  revert h3
  decide

/-- C13, amended: for every column that `getDataStatistics` classifies as string, that is
not named `__proto__` and none of whose strings is a property name inherited from
`Object.prototype`, `mostFrequent` lists (value, count) pairs with counts in non-increasing
order, at most 10 of them, each count the number of occurrences of the value in the column;
pairs with equal counts appear in the order in which `Object.entries` enumerates the counted
values, which is the order in which the values were first encountered when no value of the
column is a canonical array index. -/
theorem getDataStatistics_mostFrequent (m : JSMath) (currentData data : Option (List Row))
    (col : String) (stats : ColumnStats) (_hname : col ≠ "__proto__")
    (_hproto : ∀ s : String, Scalar.str s ∈ valuesOf (dataToAnalyze currentData data) col →
      isObjectPrototypeKey s = false)
    (hcol : (getDataStatistics m currentData data).columns.get? col = some stats)
    (htype : stats.type = "string") :
    ∃ mostFrequent : List (String × Nat), stats.mostFrequent = some mostFrequent ∧
      mostFrequent.Sorted (fun a b => b.2 ≤ a.2) ∧
      mostFrequent.length ≤ 10 ∧
      (∀ p ∈ mostFrequent,
        p.2 = (valuesOf (dataToAnalyze currentData data) col).count (.str p.1)) ∧
      TiesInOrderOf
        (JSObject.keys (countStrings (valuesOf (dataToAnalyze currentData data) col)))
        mostFrequent ∧
      ((∀ s : String, Scalar.str s ∈ valuesOf (dataToAnalyze currentData data) col →
          arrayIndex? s = none) →
        TiesInOrderOf (firstEncountered (valuesOf (dataToAnalyze currentData data) col))
          mostFrequent) := by
  have hstats := getDataStatistics_column m currentData data col stats hcol
  subst hstats
  refine ⟨_, columnStatsOf_string m _ htype, mostFrequentOf_sorted _, ?_, ?_,
    mostFrequentOf_ties _, fun hidx => ?_⟩
  · simp [mostFrequentOf, List.length_take]
  · intro p hp
    exact countStrings_mem _ p (mostFrequentOf_mem _ p hp)
  · rw [← keys_countStrings _ hidx]
    exact mostFrequentOf_ties _

theorem letterRows_column (m : JSMath) :
    (getDataStatistics m none (some letterRows)).columns.get? "a" =
      some (columnStatsOf m (valuesOf letterRows "a")) :=
  getDataStatistics_column_of_mem m letterRows [("a", .str "x")]
    [[("a", .str "y")], [("a", .str "x")]] rfl "a" (by simp [JSObject.keys])

theorem letterRows_type (m : JSMath) :
    (columnStatsOf m (valuesOf letterRows "a")).type = "string" := by
  show detectColumnType (valuesOf letterRows "a") = "string"
  with_unfolding_all decide

theorem letterRows_values : valuesOf (dataToAnalyze none (some letterRows)) "a" =
    [.str "x", .str "y", .str "x"] := by
  with_unfolding_all decide

theorem getDataStatistics_mostFrequent_witness :
    ∃ mostFrequent : List (String × Nat),
      (columnStatsOf plainMath (valuesOf letterRows "a")).mostFrequent = some mostFrequent ∧
      mostFrequent.Sorted (fun a b => b.2 ≤ a.2) ∧
      mostFrequent.length ≤ 10 ∧
      (∀ p ∈ mostFrequent,
        p.2 = (valuesOf (dataToAnalyze none (some letterRows)) "a").count (.str p.1)) ∧
      TiesInOrderOf
        (JSObject.keys (countStrings (valuesOf (dataToAnalyze none (some letterRows)) "a")))
        mostFrequent ∧
      ((∀ s : String, Scalar.str s ∈ valuesOf (dataToAnalyze none (some letterRows)) "a" →
          arrayIndex? s = none) →
        TiesInOrderOf (firstEncountered (valuesOf (dataToAnalyze none (some letterRows)) "a"))
          mostFrequent) :=
  getDataStatistics_mostFrequent plainMath none (some letterRows) "a"
    (columnStatsOf plainMath (valuesOf letterRows "a")) (by decide)
    (by
      intro s hs
      rw [letterRows_values] at hs
      simp only [List.mem_cons, Scalar.str.injEq, List.mem_singleton, List.not_mem_nil,
        or_false] at hs
      rcases hs with rfl | rfl | rfl <;> decide)
    (letterRows_column plainMath) (letterRows_type plainMath)

/-! ## `calculateVariableStatistics` on rational numbers -/

theorem foldl_add_fin (g : JSNum → JSNum) (g' : ℚ → ℚ) (hg : ∀ v, g (.fin v) = .fin (g' v))
    (qs : List ℚ) (a : ℚ) :
    (qs.map JSNum.fin).foldl (fun sum v => JSNum.add sum (g v)) (.fin a) =
      .fin (a + (qs.map g').sum) := by
  induction qs generalizing a with
  | nil => simp
  | cons q qs ih => simp [List.foldl, hg, ih, add_assoc]

theorem sumOf_fin (qs : List ℚ) : sumOf (qs.map JSNum.fin) = .fin qs.sum := by
  have h := foldl_add_fin (fun v => v) (fun v => v) (fun _ => rfl) qs 0
  simpa [sumOf] using h

theorem varianceOf_fin (qs : List ℚ) (hqs : qs ≠ []) (mean : ℚ) :
    varianceOf (qs.map JSNum.fin) (.fin mean) =
      .fin ((qs.map (fun v => (v - mean) * (v - mean))).sum / qs.length) := by
  have h := foldl_add_fin (fun v => JSNum.square (JSNum.sub v (.fin mean)))
    (fun v => (v - mean) * (v - mean)) (fun v => by simp) qs 0
  have hn : ((qs.length : ℕ) : ℚ) ≠ 0 := by
    simpa using hqs
  unfold varianceOf
  rw [h, List.length_map, JSNum.div_fin _ hn, zero_add]

theorem mean_fin (qs : List ℚ) (hqs : qs ≠ []) :
    JSNum.div (sumOf (qs.map JSNum.fin)) (.fin ((qs.map JSNum.fin).length : ℕ)) =
      .fin (qs.sum / qs.length) := by
  have hn : ((qs.length : ℕ) : ℚ) ≠ 0 := by
    simpa using hqs
  rw [sumOf_fin, List.length_map, JSNum.div_fin _ hn]

theorem sortsBefore_compareNumbers_fin (a b : ℚ) :
    sortsBefore compareNumbers (JSNum.fin a) (JSNum.fin b) ↔ a ≤ b := by
  simp [sortsBefore, compareNumbers]

theorem orderedInsert_fin (a : ℚ) (qs : List ℚ) :
    (qs.map JSNum.fin).orderedInsert (sortsBefore compareNumbers) (.fin a) =
      (qs.orderedInsert (· ≤ ·) a).map JSNum.fin := by
  induction qs with
  | nil => rfl
  | cons q qs ih =>
    by_cases h : a ≤ q
    · have h' : sortsBefore compareNumbers (JSNum.fin a) (JSNum.fin q) :=
        (sortsBefore_compareNumbers_fin a q).mpr h
      simp [List.orderedInsert, h, h']
    · have h' : ¬ sortsBefore compareNumbers (JSNum.fin a) (JSNum.fin q) :=
        fun hs => h ((sortsBefore_compareNumbers_fin a q).mp hs)
      simp only [List.map_cons, List.orderedInsert, h, h', if_false, ih]

theorem insertionSort_fin (qs : List ℚ) :
    (qs.map JSNum.fin).insertionSort (sortsBefore compareNumbers) =
      (qs.insertionSort (· ≤ ·)).map JSNum.fin := by
  induction qs with
  | nil => rfl
  | cons q qs ih => simp only [List.map_cons, List.insertionSort, ih, orderedInsert_fin]

theorem median_fin (m : JSMath) (qs : List ℚ) (hqs : qs ≠ []) :
    (calculateVariableStatistics m (qs.map JSNum.fin)).median =
      .num (.fin ((qs.insertionSort (· ≤ ·)).getD (qs.length / 2) 0)) := by
  have hlen : 0 < qs.length := List.length_pos.mpr hqs
  have hlt : qs.length / 2 < (qs.insertionSort (· ≤ ·)).length := by
    rw [List.length_insertionSort]
    exact Nat.div_lt_self hlen (by decide)
  simp only [calculateVariableStatistics, insertionSort_fin, elementAt, List.length_map]
  rw [List.getD_eq_getElem _ _ hlt]
  simp [List.getElem?_eq_getElem hlt]

/-- C14: for a non-empty list of numbers of length `n`, `calculateVariableStatistics`
returns as mean the sum divided by `n`, as variance the sum of the squared deviations from
that mean divided by `n` (the population variance, not divided by `n - 1`), and as `stdDev`
the value of `Math.sqrt` at that variance; for `[25, 35, 45]` the mean is `35` and the
variance is `200/3`. -/
theorem calculateVariableStatistics_moments (m : JSMath) :
    (∀ qs : List ℚ, qs ≠ [] →
      (calculateVariableStatistics m (qs.map JSNum.fin)).count = qs.length ∧
      (calculateVariableStatistics m (qs.map JSNum.fin)).mean = .fin (qs.sum / qs.length) ∧
      (calculateVariableStatistics m (qs.map JSNum.fin)).variance =
        .fin ((qs.map (fun v => (v - qs.sum / qs.length) * (v - qs.sum / qs.length))).sum
          / qs.length) ∧
      (calculateVariableStatistics m (qs.map JSNum.fin)).stdDev =
        m.sqrt (calculateVariableStatistics m (qs.map JSNum.fin)).variance) ∧
    (calculateVariableStatistics m [.fin 25, .fin 35, .fin 45]).mean = .fin 35 ∧
    (calculateVariableStatistics m [.fin 25, .fin 35, .fin 45]).variance = .fin (200 / 3) := by
  have hgen : ∀ qs : List ℚ, qs ≠ [] →
      (calculateVariableStatistics m (qs.map JSNum.fin)).mean = .fin (qs.sum / qs.length) ∧
      (calculateVariableStatistics m (qs.map JSNum.fin)).variance =
        .fin ((qs.map (fun v => (v - qs.sum / qs.length) * (v - qs.sum / qs.length))).sum
          / qs.length) := by
    intro qs hqs
    have hmean := mean_fin qs hqs
    constructor
    · exact hmean
    · show varianceOf _ (JSNum.div (sumOf (qs.map JSNum.fin))
        (.fin ((qs.map JSNum.fin).length : ℕ))) = _
      rw [hmean, varianceOf_fin qs hqs]
  refine ⟨fun qs hqs => ⟨by simp [calculateVariableStatistics], (hgen qs hqs).1,
    (hgen qs hqs).2, rfl⟩, ?_, ?_⟩
  · have h := (hgen [25, 35, 45] (by simp)).1
    simp only [List.map_cons, List.map_nil] at h
    rw [h]; norm_num
  · have h := (hgen [25, 35, 45] (by simp)).2
    simp only [List.map_cons, List.map_nil] at h
    rw [h]; norm_num

/-- C15: for a non-empty list of numbers of length `n`, the median that
`calculateVariableStatistics` returns is the element at index `floor(n/2)` of the list
sorted in ascending order, whichever sorted rearrangement of the list is taken: the middle
element for `n = 2k + 1`, the upper of the two middle elements (index `k`, not `k - 1`) for
`n = 2k`, and always one of the listed numbers. -/
theorem calculateVariableStatistics_median (m : JSMath) (qs sorted : List ℚ) (hqs : qs ≠ [])
    (hperm : sorted.Perm qs) (hsorted : sorted.Sorted (· ≤ ·)) :
    qs.length / 2 < sorted.length ∧
    (calculateVariableStatistics m (qs.map JSNum.fin)).median =
      .num (.fin (sorted.getD (qs.length / 2) 0)) ∧
    sorted.getD (qs.length / 2) 0 ∈ qs ∧
    (∀ k : Nat, qs.length = 2 * k + 1 ∨ qs.length = 2 * k →
      (calculateVariableStatistics m (qs.map JSNum.fin)).median =
        .num (.fin (sorted.getD k 0))) := by
  have hs : sorted = qs.insertionSort (· ≤ ·) :=
    List.eq_of_perm_of_sorted (hperm.trans (List.perm_insertionSort _ qs).symm) hsorted
      (List.sorted_insertionSort _ qs)
  have hlen : 0 < qs.length := List.length_pos.mpr hqs
  have hlt : qs.length / 2 < sorted.length := by
    rw [hperm.length_eq]
    exact Nat.div_lt_self hlen (by decide)
  have hmed := median_fin m qs hqs
  rw [← hs] at hmed
  refine ⟨hlt, hmed, ?_, ?_⟩
  · rw [List.getD_eq_getElem _ _ hlt]
    exact hperm.subset (List.getElem_mem _)
  · intro k hk
    have : qs.length / 2 = k := by omega
    rw [hmed, this]

theorem calculateVariableStatistics_median_witness :
    ([4, 1, 3, 2] : List ℚ).length / 2 < ([1, 2, 3, 4] : List ℚ).length ∧
    (calculateVariableStatistics plainMath (([4, 1, 3, 2] : List ℚ).map JSNum.fin)).median =
      .num (.fin (([1, 2, 3, 4] : List ℚ).getD (([4, 1, 3, 2] : List ℚ).length / 2) 0)) ∧
    ([1, 2, 3, 4] : List ℚ).getD (([4, 1, 3, 2] : List ℚ).length / 2) 0 ∈ ([4, 1, 3, 2] : List ℚ) ∧
    (∀ k : Nat, ([4, 1, 3, 2] : List ℚ).length = 2 * k + 1 ∨
        ([4, 1, 3, 2] : List ℚ).length = 2 * k →
      (calculateVariableStatistics plainMath (([4, 1, 3, 2] : List ℚ).map JSNum.fin)).median =
        .num (.fin (([1, 2, 3, 4] : List ℚ).getD k 0))) :=
  calculateVariableStatistics_median plainMath [4, 1, 3, 2] [1, 2, 3, 4] (by simp)
    (by decide) (by norm_num [List.Sorted])

/-! ## `normalCDF` on rational numbers -/

theorem tOf_pos (z : ℚ) : 0 < tOf z := by
  unfold tOf
  have : 0 ≤ |z| := abs_nonneg z
  positivity

theorem tOf_le_one (z : ℚ) : tOf z ≤ 1 := by
  unfold tOf
  have h : 0 ≤ |z| := abs_nonneg z
  rw [div_le_one (by positivity)]
  linarith

theorem tOf_anti (y z : ℚ) (h : |y| ≤ |z|) : tOf z ≤ tOf y := by
  unfold tOf
  have hy : 0 ≤ |y| := abs_nonneg y
  apply one_div_le_one_div_of_le (by positivity)
  linarith

set_option maxHeartbeats 1000000 in
theorem polyQ_mono (s t : ℚ) (hs : 0 ≤ s) (hst : s ≤ t) (ht : t ≤ 1) : polyQ s ≤ polyQ t := by
  unfold polyQ
  nlinarith [mul_nonneg hs hs, mul_nonneg (sub_nonneg.mpr hst) hs, sq_nonneg (s - t),
    sq_nonneg (s + t), mul_nonneg (sub_nonneg.mpr hst) (sub_nonneg.mpr ht), sq_nonneg (s * s),
    sq_nonneg (t * t), sq_nonneg (s * t)]

theorem polyQ_nonneg (t : ℚ) (h0 : 0 ≤ t) (h1 : t ≤ 1) : 0 ≤ polyQ t := by
  have h := polyQ_mono 0 t le_rfl h0 h1
  have hz : polyQ 0 = 0 := by norm_num [polyQ]
  linarith

theorem polyQ_le (t : ℚ) (h0 : 0 ≤ t) (h1 : t ≤ 1) : polyQ t ≤ 1.253314 := by
  have h := polyQ_mono t 1 h0 h1 le_rfl
  have hz : polyQ 1 = 1.253314 := by norm_num [polyQ]
  linarith

theorem tailQ_nonneg (z e : ℚ) (he : 0 ≤ e) : 0 ≤ tailQ z e := by
  unfold tailQ
  have := polyQ_nonneg (tOf z) (tOf_pos z).le (tOf_le_one z)
  positivity

theorem tailQ_le_half (z e : ℚ) (he1 : e ≤ 1) : tailQ z e ≤ 1 / 2 := by
  unfold tailQ
  have h0 := polyQ_nonneg (tOf z) (tOf_pos z).le (tOf_le_one z)
  have h1 := polyQ_le (tOf z) (tOf_pos z).le (tOf_le_one z)
  have h2 : e * polyQ (tOf z) ≤ 1 * 1.253314 := mul_le_mul he1 h1 h0 (by norm_num)
  have h3 : 0.3989423 * e * polyQ (tOf z) = 0.3989423 * (e * polyQ (tOf z)) := by ring
  rw [h3]
  have h4 : (0.3989423 : ℚ) * (e * polyQ (tOf z)) ≤ 0.3989423 * (1 * 1.253314) :=
    mul_le_mul_of_nonneg_left h2 (by norm_num)
  have h5 : (0.3989423 : ℚ) * (1 * 1.253314) ≤ 1 / 2 := by norm_num
  linarith

theorem tailQ_mono (y z e f : ℚ) (habs : |z| ≤ |y|) (he : 0 ≤ e) (hef : e ≤ f) :
    tailQ y e ≤ tailQ z f := by
  unfold tailQ
  have hp := polyQ_mono (tOf y) (tOf z) (tOf_pos y).le (tOf_anti z y habs) (tOf_le_one z)
  have h0 := polyQ_nonneg (tOf y) (tOf_pos y).le (tOf_le_one y)
  have hf : 0 ≤ f := le_trans he hef
  have h1 : e * polyQ (tOf y) ≤ f * polyQ (tOf z) := mul_le_mul hef hp h0 hf
  have h2 : (0.3989423 : ℚ) * (e * polyQ (tOf y)) ≤ 0.3989423 * (f * polyQ (tOf z)) :=
    mul_le_mul_of_nonneg_left h1 (by norm_num)
  calc 0.3989423 * e * polyQ (tOf y) = 0.3989423 * (e * polyQ (tOf y)) := by ring
    _ ≤ 0.3989423 * (f * polyQ (tOf z)) := h2
    _ = 0.3989423 * f * polyQ (tOf z) := by ring

theorem normalCDF_fin (m : JSMath) (z e : ℚ) (he : m.exp (.fin (-z * z / 2)) = .fin e) :
    normalCDF m (.fin z) = .fin (if 0 < z then 1 - tailQ z e else tailQ z e) := by
  have hden : (1 + 0.2316419 * |z| : ℚ) ≠ 0 := by
    have : 0 ≤ |z| := abs_nonneg z
    positivity
  have h2 : (2 : ℚ) ≠ 0 := by norm_num
  simp only [normalCDF, tailPolynomial, JSNum.abs_fin, JSNum.mul_fin, JSNum.add_fin,
    JSNum.neg_fin, JSNum.div_fin _ hden, JSNum.div_fin _ h2, he, JSNum.lt_fin,
    decide_eq_true_eq]
  split
  · simp only [JSNum.sub_fin, tailQ, polyQ, tOf]
    congr 1; ring
  · simp only [tailQ, polyQ, tOf]
    congr 1; ring

theorem normalCDF_range (m : JSMath) (hb : expBounded m) (z : ℚ) :
    ∃ p : ℚ, normalCDF m (.fin z) = .fin p ∧ 0 ≤ p ∧ p ≤ 1 := by
  obtain ⟨e, he, he0, he1⟩ := hb (-z * z / 2) (by nlinarith [mul_self_nonneg z])
  have h0 := tailQ_nonneg z e he0
  have h1 := tailQ_le_half z e he1
  refine ⟨_, normalCDF_fin m z e he, ?_⟩
  split <;> constructor <;> linarith

theorem normalCDF_mono (m : JSMath) (hb : expBounded m) (hm : expMonotone m) (y z : ℚ)
    (hyz : y ≤ z) :
    ∃ p q : ℚ, normalCDF m (.fin y) = .fin p ∧ normalCDF m (.fin z) = .fin q ∧ p ≤ q := by
  obtain ⟨e, he, he0, he1⟩ := hb (-y * y / 2) (by nlinarith [mul_self_nonneg y])
  obtain ⟨f, hf, hf0, hf1⟩ := hb (-z * z / 2) (by nlinarith [mul_self_nonneg z])
  refine ⟨_, _, normalCDF_fin m y e he, normalCDF_fin m z f hf, ?_⟩
  by_cases hz : 0 < z
  · by_cases hy : 0 < y
    · rw [if_pos hy, if_pos hz]
      have hfe : f ≤ e :=
        hm _ _ f e (by nlinarith) (by nlinarith [mul_self_nonneg y]) hf he
      have := tailQ_mono z y f e (by rw [abs_of_pos hy, abs_of_pos hz]; exact hyz) hf0 hfe
      linarith
    · rw [if_neg hy, if_pos hz]
      have h1 := tailQ_le_half y e he1
      have h2 := tailQ_le_half z f hf1
      linarith
  · have hy : ¬ 0 < y := fun h => hz (lt_of_lt_of_le h hyz)
    rw [if_neg hy, if_neg hz]
    have hef : e ≤ f :=
      hm _ _ e f (by nlinarith) (by nlinarith [mul_self_nonneg z]) he hf
    exact tailQ_mono y z e f
      (by rw [abs_of_nonpos (not_lt.mp hy), abs_of_nonpos (not_lt.mp hz)]; linarith) he0 hef

theorem calculateNormalProbability_fin (m : JSMath) (x mean stdDev : ℚ) (hsd : 0 < stdDev) :
    calculateNormalProbability m (.fin x) (.fin mean) (.fin stdDev) =
      normalCDF m (.fin ((x - mean) / stdDev)) := by
  simp only [calculateNormalProbability, JSNum.sub_fin, JSNum.div_fin _ hsd.ne.symm]

theorem plainMath_expBounded : expBounded plainMath := by
  intro y _
  by_cases h : y = 0
  · exact ⟨1, by simp [plainMath, h], by norm_num, le_rfl⟩
  · exact ⟨0, by simp [plainMath, h], le_rfl, by norm_num⟩

theorem plainMath_expMonotone : expMonotone plainMath := by
  intro y z e f hyz hz he hf
  by_cases h : z = 0
  · have hf1 : f = 1 := by simpa [plainMath, h] using hf.symm
    by_cases hy : y = 0
    · have : e = 1 := by simpa [plainMath, hy] using he.symm
      linarith
    · have : e = 0 := by simpa [plainMath, hy] using he.symm
      linarith
  · have hy : y ≠ 0 := fun hy0 => h (le_antisymm hz (hy0 ▸ hyz))
    have h1 : e = 0 := by simpa [plainMath, hy] using he.symm
    have h2 : f = 0 := by simpa [plainMath, h] using hf.symm
    linarith

theorem JSNum.mul_nan (d : JSNum) : JSNum.mul d .nan = .nan := by
  cases d <;> rfl

theorem JSNum.nan_mul (d : JSNum) : JSNum.mul .nan d = .nan := by
  cases d <;> rfl

theorem normalCDF_nan (m : JSMath) : normalCDF m .nan = .nan := by
  have ht : JSNum.div (.fin 1) (JSNum.add (.fin 1) (JSNum.mul (.fin 0.2316419)
      (JSNum.abs .nan))) = .nan := rfl
  have hlt : JSNum.lt (.fin 0) .nan = false := rfl
  unfold normalCDF
  simp only [ht, hlt, JSNum.mul_nan, JSNum.nan_mul, Bool.false_eq_true, if_false]

theorem normalCDF_posInf (m : JSMath) (hexp : m.exp .negInf = .fin 0) :
    normalCDF m .posInf = .fin 1 := by
  have h1 : JSNum.div (.fin 1) (JSNum.add (.fin 1) (JSNum.mul (.fin 0.2316419)
      (JSNum.abs .posInf))) = .fin 0 := by
    with_unfolding_all rfl
  have h2 : JSNum.div (JSNum.mul (JSNum.neg .posInf) .posInf) (.fin 2) = .negInf := by
    with_unfolding_all rfl
  have h3 : JSNum.lt (.fin 0) .posInf = true := rfl
  simp only [normalCDF, h1, h2, h3, hexp, tailPolynomial, JSNum.mul_fin, JSNum.add_fin,
    JSNum.sub_fin, if_true]
  norm_num

theorem normalCDF_negInf (m : JSMath) (hexp : m.exp .negInf = .fin 0) :
    normalCDF m .negInf = .fin 0 := by
  have h1 : JSNum.div (.fin 1) (JSNum.add (.fin 1) (JSNum.mul (.fin 0.2316419)
      (JSNum.abs .negInf))) = .fin 0 := by
    with_unfolding_all rfl
  have h2 : JSNum.div (JSNum.mul (JSNum.neg .negInf) .negInf) (.fin 2) = .negInf := by
    with_unfolding_all rfl
  have h3 : JSNum.lt (.fin 0) .negInf = false := rfl
  simp only [normalCDF, h1, h2, h3, hexp, tailPolynomial, JSNum.mul_fin, JSNum.add_fin]
  norm_num

theorem calculateNormalProbability_zero_stdDev (m : JSMath) (hexp : m.exp .negInf = .fin 0)
    (x mean : ℚ) :
    (mean < x → calculateNormalProbability m (.fin x) (.fin mean) (.fin 0) = .fin 1) ∧
    (x < mean → calculateNormalProbability m (.fin x) (.fin mean) (.fin 0) = .fin 0) ∧
    (x = mean → calculateNormalProbability m (.fin x) (.fin mean) (.fin 0) = .nan) := by
  refine ⟨fun h => ?_, fun h => ?_, fun h => ?_⟩
  · have hz : JSNum.div (JSNum.sub (.fin x) (.fin mean)) (.fin 0) = .posInf := by
      simp [JSNum.div, sub_pos.mpr h]
    rw [calculateNormalProbability, hz, normalCDF_posInf m hexp]
  · have hz : JSNum.div (JSNum.sub (.fin x) (.fin mean)) (.fin 0) = .negInf := by
      have h1 : ¬ (0 < x - mean) := by linarith
      have h2 : x - mean < 0 := by linarith
      simp [JSNum.div, h1, h2]
    rw [calculateNormalProbability, hz, normalCDF_negInf m hexp]
  · have hz : JSNum.div (JSNum.sub (.fin x) (.fin mean)) (.fin 0) = .nan := by
      simp [JSNum.div, h]
    rw [calculateNormalProbability, hz, normalCDF_nan]

/-! ## The claims about the normal distribution -/

/-- C16: where `Math.exp(0)` is `1`, `normalCDF(0)` is `0.4999999697822`, which lies within
`0.001` of `0.5`, and for every mean and every positive standard deviation
`calculateNormalProbability(mean, mean, stdDev)` is `normalCDF(0)`, so it lies within
`0.001` of `0.5` too. -/
theorem normalCDF_zero (m : JSMath) (hexp : m.exp (.fin 0) = .fin 1) :
    normalCDF m (.fin 0) = .fin (2499999848911 / 5000000000000) ∧
    |(2499999848911 / 5000000000000 : ℚ) - 1 / 2| ≤ 1 / 1000 ∧
    ∀ mean stdDev : ℚ, 0 < stdDev →
      calculateNormalProbability m (.fin mean) (.fin mean) (.fin stdDev) =
        .fin (2499999848911 / 5000000000000) := by
  have h0 : normalCDF m (.fin 0) = .fin (2499999848911 / 5000000000000) := by
    have he : m.exp (.fin (-(0 : ℚ) * 0 / 2)) = .fin 1 := by
      have : (-(0 : ℚ) * 0 / 2) = 0 := by norm_num
      rw [this, hexp]
    rw [normalCDF_fin m 0 1 he]
    norm_num [tailQ, polyQ, tOf]
  refine ⟨h0, ?_, ?_⟩
  · rw [abs_le]; constructor <;> norm_num
  · intro mean stdDev hsd
    rw [calculateNormalProbability_fin m mean mean stdDev hsd, sub_self, zero_div, h0]

theorem normalCDF_zero_witness :
    plainMath.exp (.fin 0) = .fin 1 ∧
    normalCDF plainMath (.fin 0) = .fin (2499999848911 / 5000000000000) ∧
    |(2499999848911 / 5000000000000 : ℚ) - 1 / 2| ≤ 1 / 1000 ∧
    ∀ mean stdDev : ℚ, 0 < stdDev →
      calculateNormalProbability plainMath (.fin mean) (.fin mean) (.fin stdDev) =
        .fin (2499999848911 / 5000000000000) :=
  ⟨rfl, normalCDF_zero plainMath rfl⟩

/-- C17: where `Math.exp` maps the numbers up to `0` into `[0, 1]`, `normalCDF(z)` is a
number in `[0, 1]` for every rational `z`, and for every `x`, every mean and every positive
standard deviation both `calculateNormalProbability(x, mean, stdDev)` and `1` minus it are
numbers in `[0, 1]`. -/
theorem normalCDF_unit_interval (m : JSMath) (hb : expBounded m) :
    (∀ z : ℚ, ∃ p : ℚ, normalCDF m (.fin z) = .fin p ∧ 0 ≤ p ∧ p ≤ 1) ∧
    ∀ x mean stdDev : ℚ, 0 < stdDev →
      ∃ p : ℚ, calculateNormalProbability m (.fin x) (.fin mean) (.fin stdDev) = .fin p ∧
        0 ≤ p ∧ p ≤ 1 ∧
        JSNum.sub (.fin 1) (calculateNormalProbability m (.fin x) (.fin mean) (.fin stdDev)) =
          .fin (1 - p) ∧ 0 ≤ 1 - p ∧ 1 - p ≤ 1 := by
  refine ⟨normalCDF_range m hb, ?_⟩
  intro x mean stdDev hsd
  obtain ⟨p, hp, h0, h1⟩ := normalCDF_range m hb ((x - mean) / stdDev)
  rw [calculateNormalProbability_fin m x mean stdDev hsd, hp]
  exact ⟨p, rfl, h0, h1, by simp, by linarith, by linarith⟩

theorem normalCDF_unit_interval_witness :
    expBounded plainMath ∧
    (∀ z : ℚ, ∃ p : ℚ, normalCDF plainMath (.fin z) = .fin p ∧ 0 ≤ p ∧ p ≤ 1) ∧
    ∀ x mean stdDev : ℚ, 0 < stdDev →
      ∃ p : ℚ, calculateNormalProbability plainMath (.fin x) (.fin mean) (.fin stdDev) = .fin p ∧
        0 ≤ p ∧ p ≤ 1 ∧
        JSNum.sub (.fin 1)
            (calculateNormalProbability plainMath (.fin x) (.fin mean) (.fin stdDev)) =
          .fin (1 - p) ∧ 0 ≤ 1 - p ∧ 1 - p ≤ 1 :=
  ⟨plainMath_expBounded, normalCDF_unit_interval plainMath plainMath_expBounded⟩

/-- C19: with a fitted model, the page elements present and two bounds that are numbers, a
range query with `min >= max` shows the error message and leaves the state, and with it the
calculation history, as it was; with `min < max` it shows
`normalCDF((max - mean) / stdDev) - normalCDF((min - mean) / stdDev)`, the bounds taken as
given, and puts one entry with that probability first in the history, which keeps its 20
first entries. -/
theorem calculateRangeProbability_bounds (m : JSMath) (state : ProbState)
    (stats : VariableStatistics) (minValue maxValue : JSNum)
    (hstats : state.variableStats = some stats)
    (hmin : minValue.isNaN = false) (hmax : maxValue.isNaN = false) :
    (JSNum.lt minValue maxValue = false →
      (calculateRangeProbability m state true minValue maxValue).shown =
        some (.error "El valor mínimo debe ser menor que el máximo") ∧
      (calculateRangeProbability m state true minValue maxValue).state = state) ∧
    (JSNum.lt minValue maxValue = true →
      (calculateRangeProbability m state true minValue maxValue).shown =
        some (.probability
          (JSNum.sub (normalCDF m (JSNum.div (JSNum.sub maxValue stats.mean) stats.stdDev))
            (normalCDF m (JSNum.div (JSNum.sub minValue stats.mean) stats.stdDev)))) ∧
      (calculateRangeProbability m state true minValue maxValue).state.calculationHistory =
        ({ type := "Entre rangos", bounds := [minValue, maxValue],
           probability :=
             JSNum.sub (normalCDF m (JSNum.div (JSNum.sub maxValue stats.mean) stats.stdDev))
               (normalCDF m (JSNum.div (JSNum.sub minValue stats.mean) stats.stdDev)),
           variableName := state.currentVariable, mean := stats.mean,
           stdDev := stats.stdDev } :: state.calculationHistory).take 20) := by
  constructor
  · intro hlt
    simp [calculateRangeProbability, hstats, hmin, hmax, JSNum.ge, hlt]
  · intro hlt
    simp [calculateRangeProbability, hstats, hmin, hmax, JSNum.ge, hlt, addToHistory,
      calculateNormalProbability]

theorem calculateRangeProbability_bounds_witness :
    fittedState.variableStats = some fittedStats ∧
    (calculateRangeProbability plainMath fittedState true (.fin 1) (.fin 0)).shown =
      some (.error "El valor mínimo debe ser menor que el máximo") ∧
    (calculateRangeProbability plainMath fittedState true (.fin 1) (.fin 0)).state =
      fittedState :=
  ⟨rfl, (calculateRangeProbability_bounds plainMath fittedState fittedStats (.fin 1) (.fin 0)
    rfl rfl rfl).1 (by with_unfolding_all decide)⟩

/-- C20, counterexample: with a standard deviation of `0` and `x` equal to the mean,
`calculateNormalProbability(5, 5, 0)` is neither `0` nor `1`, whatever `Math.exp` is: the
quotient `0 / 0` is `NaN` and so is the result. -/
theorem calculateNormalProbability_degenerate_nan :
    ¬ ∃ m : JSMath,
      calculateNormalProbability m (.fin 5) (.fin 5) (.fin 0) = .fin 0 ∨
      calculateNormalProbability m (.fin 5) (.fin 5) (.fin 0) = .fin 1 := by
  rintro ⟨m, h⟩
  have hn : calculateNormalProbability m (.fin 5) (.fin 5) (.fin 0) = .nan := by
    have hz : JSNum.div (JSNum.sub (.fin 5) (.fin 5)) (.fin 0) = .nan := by
      with_unfolding_all rfl
    rw [calculateNormalProbability, hz, normalCDF_nan]
  rw [hn] at h
  rcases h with h | h <;> cases h

/-- C20, amended: where `Math.exp(-Infinity)` is `0`, `calculateNormalProbability(x, mean, 0)`
is `1` when `x` is above the mean, `0` when `x` is below the mean and `NaN` when `x` is the
mean. -/
theorem calculateNormalProbability_degenerate (m : JSMath) (hexp : m.exp .negInf = .fin 0)
    (x mean : ℚ) :
    (mean < x → calculateNormalProbability m (.fin x) (.fin mean) (.fin 0) = .fin 1) ∧
    (x < mean → calculateNormalProbability m (.fin x) (.fin mean) (.fin 0) = .fin 0) ∧
    (x = mean → calculateNormalProbability m (.fin x) (.fin mean) (.fin 0) = .nan) :=
  calculateNormalProbability_zero_stdDev m hexp x mean

theorem calculateNormalProbability_degenerate_witness :
    plainMath.exp .negInf = .fin 0 ∧
    (((5 : ℚ) < 6 → calculateNormalProbability plainMath (.fin 6) (.fin 5) (.fin 0) = .fin 1) ∧
    ((6 : ℚ) < 5 → calculateNormalProbability plainMath (.fin 6) (.fin 5) (.fin 0) = .fin 0) ∧
    ((6 : ℚ) = 5 → calculateNormalProbability plainMath (.fin 6) (.fin 5) (.fin 0) = .nan)) :=
  ⟨rfl, calculateNormalProbability_degenerate plainMath rfl 6 5⟩

/-! ## The history of datasets -/

theorem take_append_take {α : Type} (n : Nat) (xs ys : List α) :
    (xs ++ ys.take n).take n = (xs ++ ys).take n := by
  rw [List.take_append_eq_append_take, List.take_append_eq_append_take, List.take_take]
  congr 2
  omega

theorem addToDatasetHistory_take (h : Host) (env : CallEnv) (store : DataStore)
    (dataset : Dataset) :
    (addToDatasetHistory h env store dataset).datasetHistory =
      (historyEntry h env dataset :: store.datasetHistory).take 5 := by
  simp only [addToDatasetHistory, MAX_STORED_DATASETS]
  split
  · rfl
  · next hlen =>
    rw [List.take_of_length_le]
    exact not_lt.mp hlen

theorem foldl_addToDatasetHistory (h : Host) (calls : List (CallEnv × Dataset))
    (store : DataStore) (hlen : store.datasetHistory.length ≤ 5) :
    (calls.foldl (fun s call => addToDatasetHistory h call.1 s call.2) store).datasetHistory =
      ((calls.reverse.map (fun call => historyEntry h call.1 call.2)) ++
        store.datasetHistory).take 5 := by
  induction calls generalizing store with
  | nil => simp [List.take_of_length_le hlen]
  | cons call rest ih =>
    rw [List.foldl_cons, ih]
    · rw [addToDatasetHistory_take, take_append_take]
      simp
    · rw [addToDatasetHistory_take]
      simp [List.length_take]

theorem removeDatasetFromHistory_history (store : DataStore) (datasetId : Scalar) :
    (removeDatasetFromHistory store datasetId).datasetHistory =
      store.datasetHistory.filter (fun dataset => !dataset.id.strictEq datasetId) := by
  unfold removeDatasetFromHistory
  split <;> rfl

theorem storeOp_length (h : Host) (store : DataStore) (op : StoreOp)
    (hlen : store.datasetHistory.length ≤ 5) :
    (op.apply h store).datasetHistory.length ≤ 5 := by
  cases op with
  | add env dataset =>
    simp only [StoreOp.apply, addToDatasetHistory_take, List.length_take]
    omega
  | remove datasetId =>
    simp only [StoreOp.apply, removeDatasetFromHistory_history]
    exact le_trans (List.length_filter_le _ _) hlen
  | clear => simp [StoreOp.apply, clearAllData]

theorem storeOps_length (h : Host) (ops : List StoreOp) (store : DataStore)
    (hlen : store.datasetHistory.length ≤ 5) :
    (ops.foldl (StoreOp.apply h) store).datasetHistory.length ≤ 5 := by
  induction ops generalizing store with
  | nil => exact hlen
  | cons op rest ih =>
    rw [List.foldl_cons]
    exact ih _ (storeOp_length h store op hlen)

/-- C21: starting from the empty history, after the calls `calls` of `addToDatasetHistory`
the history holds the entries of the last `min(n, 5)` calls, the most recent first, so the
oldest ones are the ones dropped; after six calls it holds the entries of the last five; and
after any sequence of additions, removals and clearings the history has at most 5
entries. -/
theorem addToDatasetHistory_retention (h : Host) :
    (∀ calls : List (CallEnv × Dataset),
      (calls.foldl (fun s call => addToDatasetHistory h call.1 s call.2)
          initialStore).datasetHistory =
        (calls.reverse.take 5).map (fun call => historyEntry h call.1 call.2) ∧
      (calls.foldl (fun s call => addToDatasetHistory h call.1 s call.2)
          initialStore).datasetHistory.length = min calls.length 5) ∧
    (∀ c1 c2 c3 c4 c5 c6 : CallEnv × Dataset,
      ([c1, c2, c3, c4, c5, c6].foldl (fun s call => addToDatasetHistory h call.1 s call.2)
          initialStore).datasetHistory =
        [c6, c5, c4, c3, c2].map (fun call => historyEntry h call.1 call.2)) ∧
    (∀ ops : List StoreOp,
      (ops.foldl (StoreOp.apply h) initialStore).datasetHistory.length ≤ 5) := by
  have hgen : ∀ calls : List (CallEnv × Dataset),
      (calls.foldl (fun s call => addToDatasetHistory h call.1 s call.2)
          initialStore).datasetHistory =
        (calls.reverse.take 5).map (fun call => historyEntry h call.1 call.2) := by
    intro calls
    rw [foldl_addToDatasetHistory h calls initialStore (by simp [initialStore])]
    simp [initialStore, List.map_take]
  refine ⟨fun calls => ⟨hgen calls, ?_⟩, fun c1 c2 c3 c4 c5 c6 => ?_, fun ops => ?_⟩
  · rw [hgen calls]
    simp only [List.length_map, List.length_take, List.length_reverse]
    exact Nat.min_comm _ _
  · rw [hgen]
    rfl
  · exact storeOps_length h ops initialStore (by simp [initialStore])

/-- C22: the object that `saveToLocalStorage` writes lists one snapshot per history entry, in
order; the snapshot of an entry with data has as `dataSample` the first `min(100, length)`
rows of the data, in order, and as `totalRows` the number of rows of the data, and it has the
`id`, `timestamp`, `description` and `meta` of the entry; the snapshot of an entry without
data has an empty sample and `totalRows` `0`. -/
theorem saveToLocalStorage_snapshot (env : CallEnv) (store : DataStore) :
    (saveToLocalStorage env store).datasetHistory = store.datasetHistory.map snapshotOf ∧
    (∀ entry : DatasetEntry,
      (snapshotOf entry).id = entry.id ∧ (snapshotOf entry).timestamp = entry.timestamp ∧
      (snapshotOf entry).description = entry.description ∧
      (snapshotOf entry).meta = entry.meta ∧
      (∀ rows : List Row, entry.data = some rows →
        (snapshotOf entry).dataSample = rows.take (min 100 rows.length) ∧
        (snapshotOf entry).dataSample.length ≤ 100 ∧
        (snapshotOf entry).totalRows = rows.length) ∧
      (entry.data = none →
        (snapshotOf entry).dataSample = [] ∧ (snapshotOf entry).totalRows = 0)) := by
  refine ⟨rfl, fun entry => ⟨rfl, rfl, rfl, rfl, fun rows hrows => ?_, fun hnone => ?_⟩⟩
  · simp only [snapshotOf, hrows, Option.map_some', Option.getD_some, List.length_take]
    refine ⟨?_, by omega, trivial⟩
    by_cases hlen : 100 ≤ rows.length
    · rw [Nat.min_eq_left hlen]
    · rw [Nat.min_eq_right (by omega), List.take_length, List.take_of_length_le (by omega)]
  · simp [snapshotOf, hnone]

/-- C30: `removeDatasetFromHistory(id)` leaves in the history the entries whose id is not
strictly equal to `id`, in their previous order, and leaves the transformations as they
were; when the id of the current metadata is strictly equal to `id` the current data and
metadata become `null`, otherwise they stay as they were. -/
theorem removeDatasetFromHistory_frame (store : DataStore) (datasetId : Scalar) :
    (removeDatasetFromHistory store datasetId).datasetHistory =
      store.datasetHistory.filter (fun dataset => !dataset.id.strictEq datasetId) ∧
    (removeDatasetFromHistory store datasetId).datasetHistory.Sublist store.datasetHistory ∧
    (∀ entry : DatasetEntry, entry ∈ (removeDatasetFromHistory store datasetId).datasetHistory ↔
      entry ∈ store.datasetHistory ∧ entry.id.strictEq datasetId = false) ∧
    (removeDatasetFromHistory store datasetId).transformations = store.transformations ∧
    ((currentMetaId store).strictEq datasetId = true →
      (removeDatasetFromHistory store datasetId).currentData = none ∧
      (removeDatasetFromHistory store datasetId).currentMeta = none) ∧
    ((currentMetaId store).strictEq datasetId = false →
      (removeDatasetFromHistory store datasetId).currentData = store.currentData ∧
      (removeDatasetFromHistory store datasetId).currentMeta = store.currentMeta) ∧
    (∀ a b : String, Scalar.strictEq (.str a) (.str b) = decide (a = b)) := by
  have hhist := removeDatasetFromHistory_history store datasetId
  refine ⟨hhist, ?_, ?_, ?_, ?_, ?_, ?_⟩
  · rw [hhist]
    exact List.filter_sublist _
  · intro entry
    rw [hhist, List.mem_filter]
    simp
  · unfold removeDatasetFromHistory
    split <;> rfl
  · intro heq
    simp [removeDatasetFromHistory, heq]
  · intro hne
    simp [removeDatasetFromHistory, hne]
  · intro a b
    simp [Scalar.strictEq]

/-! ## Parameters that lack a required field, and transformations of an unknown type -/

/-- C23: `filterData` without `params` or without a `conditions` list, `sortData` without
`params`, without a `columns` list or with an empty one, `aggregateData` without `params`,
`groupBy` or an `aggregations` list, and `pivotData` without `params`, `rowFields`,
`columnField` or `valueField` return the dataset they were given, and `transformData`, which
hands on every error of theirs, returns that dataset for each of the four types when the
transformation has no `params`. -/
theorem missing_params_noop (h : Host) (data : List Row) :
    filterData h data none = data ∧
    filterData h data (some { conditions := none }) = data ∧
    sortData h data none = data ∧
    sortData h data (some { columns := none }) = data ∧
    sortData h data (some { columns := some [] }) = data ∧
    aggregateData h data none = data ∧
    (∀ p : AggregateParams, p.groupBy = none ∨ p.aggregations = none →
      aggregateData h data (some p) = data) ∧
    pivotData h data none = data.map Row.lift ∧
    (∀ p : PivotParams, p.rowFields = none ∨ p.columnField = none ∨ p.valueField = none →
      pivotData h data (some p) = data.map Row.lift) ∧
    Function.Injective Row.lift ∧
    (∀ (env : CallEnv) (store : DataStore) (type : String),
      type ∈ ["filter", "sort", "aggregate", "pivot"] → data ≠ [] →
      (transformData h env store (some data)
        (some { type := some type, params := none, description := none })).result =
        .ok (data.map Row.lift)) := by
  refine ⟨rfl, rfl, rfl, rfl, rfl, rfl, ?_, rfl, ?_, ?_, ?_⟩
  · intro p hp
    unfold aggregateData
    rcases hp with hp | hp
    · simp only [hp]
    · simp only [hp]
      cases p.groupBy <;> rfl
  · intro p hp
    unfold pivotData
    rcases hp with hp | hp | hp
    · simp only [hp]
    · simp only [hp]
      cases p.rowFields <;> rfl
    · simp only [hp]
      cases p.rowFields <;> cases p.columnField <;> rfl
  · intro a b hab
    unfold Row.lift at hab
    refine List.map_injective_iff.mpr ?_ hab
    intro x y hxy
    simp only [Prod.mk.injEq, JSValue.scalar.injEq] at hxy
    exact Prod.ext hxy.1 hxy.2
  · intro env store type htype hdata
    have hlen : data.length ≠ 0 := by simpa using hdata
    simp only [List.mem_cons, List.mem_singleton, List.not_mem_nil, or_false] at htype
    rcases htype with rfl | rfl | rfl | rfl <;>
      simp [transformData, dataToTransform, hlen, optTruthy, applyTransformation, filterData,
        sortData, aggregateData, pivotData]

theorem applyTransformation_unknown (h : Host) (type : String) (params : Option TransformParams)
    (rows : List Row) (htype : type ∉ ["filter", "sort", "aggregate", "pivot"]) :
    applyTransformation h type params rows = none := by
  simp only [List.mem_cons, List.mem_singleton, List.not_mem_nil, or_false, not_or] at htype
  simp [applyTransformation, htype.1, htype.2.1, htype.2.2.1, htype.2.2.2]

theorem transformData_empty (h : Host) (env : CallEnv) (store : DataStore)
    (data : Option (List Row)) (transformation : Option Transformation)
    (hrows : dataToTransform store data = []) :
    (transformData h env store data transformation).result = .ok [] ∧
    (transformData h env store data transformation).store = store := by
  simp [transformData, hrows]

/-- C24, counterexample: for the empty dataset `transformData` returns `[]` also when the
type of the transformation is the unknown `explode`: it reports no error, whatever the
engine, the environment and the store are. -/
theorem transformData_empty_no_error :
    ¬ ∃ (h : Host) (env : CallEnv) (store : DataStore) (message : String),
      (transformData h env store (some [])
        (some { type := some "explode", params := none, description := none })).result =
        .error message := by
  rintro ⟨h, env, store, message, herr⟩
  rw [(transformData_empty h env store (some []) _ rfl).1] at herr
  cases herr

/-- C24, amended: for every dataset that is not empty and every transformation whose type
is not one of `filter`, `sort`, `aggregate` and `pivot`, `transformData` throws an error and
leaves the store, and with it the history of transformations, as it was; for an empty
dataset it returns `[]` without an error and leaves the store as it was. -/
theorem transformData_unknown_type (h : Host) (env : CallEnv) (store : DataStore)
    (data : Option (List Row)) (t : Transformation)
    (htype : ∀ type : String, t.type = some type →
      type ∉ ["filter", "sort", "aggregate", "pivot"]) :
    (dataToTransform store data ≠ [] →
      (∃ message : String,
        (transformData h env store data (some t)).result = .error message) ∧
      (transformData h env store data (some t)).store = store) ∧
    (dataToTransform store data = [] →
      (transformData h env store data (some t)).result = .ok [] ∧
      (transformData h env store data (some t)).store = store) := by
  refine ⟨fun hrows => ?_, transformData_empty h env store data (some t)⟩
  have hlen : (dataToTransform store data).length ≠ 0 := by
    simpa using hrows
  unfold transformData
  simp only [hlen, if_false]
  cases htype' : t.type with
  | none => exact ⟨⟨_, rfl⟩, rfl⟩
  | some type =>
    by_cases hfalsy : type = ""
    · simp [optTruthy, hfalsy]
    · have hnone := applyTransformation_unknown h type t.params (dataToTransform store data)
        (htype type htype')
      simp [optTruthy, hfalsy, hnone]

theorem transformData_unknown_type_witness :
    (∃ message : String,
      (transformData plainHost plainEnv initialStore (some medianRows)
        (some { type := some "explode", params := none, description := none })).result =
        .error message) ∧
    (transformData plainHost plainEnv initialStore (some medianRows)
      (some { type := some "explode", params := none, description := none })).store =
      initialStore :=
  (transformData_unknown_type plainHost plainEnv initialStore (some medianRows)
    { type := some "explode", params := none, description := none }
    (by
      intro type htype
      cases htype
      decide)).1 (by simp [dataToTransform, medianRows])

/-! ## Aggregation functions that are not implemented -/

theorem applyAggregation_unknown (h : Host) (func : String) (values : List Scalar)
    (hfunc : func ∉ aggregateFunctions) : applyAggregation h func values = .null := by
  simp only [aggregateFunctions, List.mem_cons, List.mem_singleton, List.not_mem_nil, or_false,
    not_or] at hfunc
  obtain ⟨h1, h2, h3, h4, h5, h6, h7, h8, h9⟩ := hfunc
  simp [applyAggregation, h1, h2, h3, h4, h5, h6, h7, h8, h9]

theorem aggregationStep_unknown (h : Host) (func : String) (hfunc : func ∉ aggregateFunctions)
    (rows : List Row) (aggregated : Row) (column : String) (as : Option String) :
    (aggregationStep h rows aggregated ⟨column, func, as⟩).get (outputName ⟨column, func, as⟩) =
      .null := by
  unfold aggregationStep Row.get
  simp only
  split
  · rw [JSObject.get?_set_self]; rfl
  · rw [JSObject.get?_set_self, applyAggregation_unknown h func _ hfunc]; rfl

theorem aggregateCell_unknown (h : Host) (func : String) (hfunc : func ∉ pivotFunctions) :
    aggregateCell h func = aggregateCell h "last" := by
  simp only [pivotFunctions, List.mem_cons, List.mem_singleton, List.not_mem_nil, or_false,
    not_or] at hfunc
  obtain ⟨h1, h2, h3, h4, h5, h6, h7, h8⟩ := hfunc
  funext g colKey v
  simp [aggregateCell, h1, h2, h3, h4, h5, h6, h7, h8]

theorem finalizeGroup_unknown (h : Host) (func : String) (hfunc : func ∉ pivotFunctions) :
    finalizeGroup h func = finalizeGroup h "last" := by
  simp only [pivotFunctions, List.mem_cons, List.mem_singleton, List.not_mem_nil, or_false,
    not_or] at hfunc
  funext ucv group
  simp [finalizeGroup, hfunc.2.2.2.2.2.2.2]

theorem pivotGroups_unknown (h : Host) (func : String) (hfunc : func ∉ pivotFunctions)
    (rowFields : List String) (columnField valueField : String) (data : List Row) :
    pivotGroups h rowFields columnField valueField func data =
      pivotGroups h rowFields columnField valueField "last" data := by
  have hstep : pivotStep h rowFields columnField valueField func =
      pivotStep h rowFields columnField valueField "last" := by
    funext ucv rowGroups row
    simp only [pivotStep, aggregateRow, aggregateCell_unknown h func hfunc]
  simp only [pivotGroups, hstep]

theorem pivotData_unknown (h : Host) (func : String) (hfunc : func ∉ pivotFunctions)
    (hname : func ≠ "") (data : List Row) (p : PivotParams) :
    pivotData h data (some { p with aggregationFunc := some func }) =
      pivotData h data (some { p with aggregationFunc := some "last" }) := by
  simp only [pivotData, optTruthy, hname, ne_eq, not_false_eq_true, decide_True, if_true,
    Option.getD_some, pivotGroups_unknown h func hfunc, finalizeGroup_unknown h func hfunc]
  rfl

theorem aggregateData_nil (h : Host) (params : Option AggregateParams) :
    aggregateData h [] params = [] := by
  unfold aggregateData
  split
  · rfl
  · split
    · split
      · rfl
      · rfl
    · rfl

theorem pivotData_nil (h : Host) (params : Option PivotParams) :
    pivotData h [] params = [] := by
  unfold pivotData
  split
  · rfl
  · split
    · split
      · rfl
      · rfl
    · rfl

theorem transformData_aggregate (h : Host) (env : CallEnv) (store : DataStore)
    (data : Option (List Row)) (p : TransformParams) (description : Option String) :
    (transformData h env store data
      (some { type := some "aggregate", params := some p, description := description })).result =
      .ok ((aggregateData h (dataToTransform store data)
        (some p.toAggregateParams)).map Row.lift) := by
  unfold transformData
  by_cases hlen : (dataToTransform store data).length = 0
  · have hnil : dataToTransform store data = [] := List.length_eq_zero.mp hlen
    simp [hnil, aggregateData_nil]
  · simp [hlen, optTruthy, applyTransformation]

theorem transformData_pivot (h : Host) (env : CallEnv) (store : DataStore)
    (data : Option (List Row)) (p : TransformParams) (description : Option String) :
    (transformData h env store data
      (some { type := some "pivot", params := some p, description := description })).result =
      .ok (pivotData h (dataToTransform store data) (some p.toPivotParams)) := by
  unfold transformData
  by_cases hlen : (dataToTransform store data).length = 0
  · have hnil : dataToTransform store data = [] := List.length_eq_zero.mp hlen
    simp [hnil, pivotData_nil]
  · simp [hlen, optTruthy, applyTransformation]

/-- C25, counterexample: the aggregation `median`, which is not implemented, on the dataset
`[{g: 'a', c: 'X', v: 1}]` is no error of `aggregateData` for `transformData` to hand on,
whatever the engine, the environment and the store are. -/
theorem aggregateData_unknown_function_no_error :
    ¬ ∃ (h : Host) (env : CallEnv) (store : DataStore) (message : String),
      (transformData h env store (some medianRows)
        (some { type := some "aggregate", params := some medianAggregate,
                description := none })).result = .error message := by
  rintro ⟨h, env, store, message, herr⟩
  rw [transformData_aggregate h env store (some medianRows) medianAggregate none] at herr
  cases herr

/-- C25, amended: an aggregation whose function name is not one of the implemented ones is
no error.  `aggregateData` sets the output field of such an aggregation to `null` (the
output field is not named `__proto__`), and `pivotData` handles such a name as it handles
`last`.  Where no key of a group is a property name inherited from `Object.prototype` and no
group-by column is called `_rows` or `_count`, `transformData` returns the rows of
`aggregateData` without an error; where no key of a row group is a property name inherited
from `Object.prototype`, it returns the rows of `pivotData` without an error. -/
theorem unknown_aggregation_function (h : Host) (func : String)
    (hfunc : func ∉ aggregateFunctions) (hname : func ≠ "") :
    (∀ (rows : List Row) (aggregated : Row) (column : String) (as : Option String),
      outputName ⟨column, func, as⟩ ≠ "__proto__" →
      (aggregationStep h rows aggregated ⟨column, func, as⟩).get
        (outputName ⟨column, func, as⟩) = .null) ∧
    (∀ (data : List Row) (p : PivotParams),
      pivotData h data (some { p with aggregationFunc := some func }) =
        pivotData h data (some { p with aggregationFunc := some "last" })) ∧
    (∀ (env : CallEnv) (store : DataStore) (data : Option (List Row)) (p : TransformParams)
        (groupBy : FieldSpec) (aggregations : List Aggregation) (description : Option String),
      p.groupBy = some groupBy → p.aggregations = some aggregations →
      (∃ agg ∈ aggregations, agg.function = func) →
      (∀ row ∈ dataToTransform store data,
        isObjectPrototypeKey (groupKey h groupBy row) = false) →
      "_rows" ∉ groupBy.toList ∧ "_count" ∉ groupBy.toList →
      (transformData h env store data
        (some { type := some "aggregate", params := some p,
                description := description })).result =
        .ok ((aggregateData h (dataToTransform store data)
          (some p.toAggregateParams)).map Row.lift)) ∧
    (∀ (env : CallEnv) (store : DataStore) (data : Option (List Row)) (p : TransformParams)
        (rowFields : FieldSpec) (description : Option String),
      p.rowFields = some rowFields → p.aggregationFunc = some func →
      (∀ row ∈ dataToTransform store data,
        isObjectPrototypeKey (pivotRowKey h rowFields.toList row) = false) →
      (transformData h env store data
        (some { type := some "pivot", params := some p, description := description })).result =
        .ok (pivotData h (dataToTransform store data) (some p.toPivotParams))) := by
  have hpivot : func ∉ pivotFunctions := by
    intro hmem
    apply hfunc
    simp only [pivotFunctions, List.mem_cons, List.mem_singleton, List.not_mem_nil,
      or_false] at hmem
    simp only [aggregateFunctions, List.mem_cons, List.mem_singleton, List.not_mem_nil,
      or_false]
    tauto
  refine ⟨fun rows aggregated column as _ => aggregationStep_unknown h func hfunc rows
    aggregated column as, pivotData_unknown h func hpivot hname, ?_, ?_⟩
  · intro env store data p groupBy aggregations description _ _ _ _ _
    exact transformData_aggregate h env store data p description
  · intro env store data p rowFields description _ _ _
    exact transformData_pivot h env store data p description

theorem unknown_aggregation_function_witness :
    aggregateData plainHost medianRows (some medianAggregate.toAggregateParams) =
      [[("g", .str "a"), ("count", .num (.fin 1)), ("median_v", .null)]] ∧
    (aggregationStep plainHost medianRows [] ⟨"v", "median", none⟩).get
      (outputName ⟨"v", "median", none⟩) = .null ∧
    pivotData plainHost medianRows (some medianPivot.toPivotParams) =
      [[("_key", .str "a"), ("g", .str "a"), ("X", .num (.fin 1))]] ∧
    (transformData plainHost plainEnv initialStore (some medianRows)
      (some { type := some "aggregate", params := some medianAggregate,
              description := none })).result =
      .ok ((aggregateData plainHost medianRows
        (some medianAggregate.toAggregateParams)).map Row.lift) :=
  ⟨by with_unfolding_all decide,
   (unknown_aggregation_function plainHost "median" (by decide) (by decide)).1 medianRows []
     "v" none (by decide),
   by with_unfolding_all decide,
   (unknown_aggregation_function plainHost "median" (by decide) (by decide)).2.2.1 plainEnv
     initialStore (some medianRows) medianAggregate (.single "g")
     [⟨"v", "median", none⟩] none rfl rfl ⟨_, List.mem_singleton.mpr rfl, rfl⟩
     (by with_unfolding_all decide) (by decide)⟩

/-! ## The order of the numbers and the rounded operations -/

theorem JSNum.fadd_fin (a b : ℚ) : JSNum.fadd (.fin a) (.fin b) = roundToDouble (a + b) := rfl

theorem JSNum.fsub_fin (a b : ℚ) : JSNum.fsub (.fin a) (.fin b) = roundToDouble (a - b) := by
  simp [JSNum.fsub, JSNum.round]

theorem JSNum.fmul_fin (a b : ℚ) : JSNum.fmul (.fin a) (.fin b) = roundToDouble (a * b) := rfl

theorem JSNum.fdiv_fin {b : ℚ} (a : ℚ) (hb : b ≠ 0) :
    JSNum.fdiv (.fin a) (.fin b) = roundToDouble (a / b) := by
  simp [JSNum.fdiv, JSNum.div_fin a hb, JSNum.round]

theorem JSNum.ne_nan_of_le {a b : JSNum} (h : JSNum.le a b) : a ≠ .nan ∧ b ≠ .nan := by
  cases a <;> cases b <;> simp [JSNum.le] at h ⊢

theorem JSNum.negInf_le {a : JSNum} (h : a ≠ .nan) : JSNum.le .negInf a := by
  cases a <;> simp [JSNum.le] at h ⊢

theorem JSNum.le_posInf {a : JSNum} (h : a ≠ .nan) : JSNum.le a .posInf := by
  cases a <;> simp [JSNum.le] at h ⊢

theorem JSNum.le_self {a : JSNum} (h : a ≠ .nan) : JSNum.le a a := by
  cases a <;> simp [JSNum.le] at h ⊢

theorem JSNum.le_of_le_of_le {a b c : JSNum} (hab : JSNum.le a b) (hbc : JSNum.le b c) :
    JSNum.le a c := by
  cases a <;> cases b <;> cases c <;> simp [JSNum.le] at hab hbc ⊢
  exact hab.trans hbc

theorem JSNum.exists_fin_of_le {a b : ℚ} {x : JSNum} (h1 : JSNum.le (.fin a) x)
    (h2 : JSNum.le x (.fin b)) : ∃ t : ℚ, x = .fin t ∧ a ≤ t ∧ t ≤ b := by
  cases x with
  | fin t => exact ⟨t, rfl, h1, h2⟩
  | nan => simp [JSNum.le] at h1
  | posInf => simp [JSNum.le] at h2
  | negInf => simp [JSNum.le] at h1

theorem JSNum.round_ne_nan {a : JSNum} (h : a ≠ .nan) : a.round ≠ .nan := by
  cases a with
  | fin q => exact roundToDouble_ne_nan q
  | nan => exact absurd rfl h
  | posInf => simp [JSNum.round]
  | negInf => simp [JSNum.round]

theorem JSNum.round_le_round {a b : JSNum} (h : JSNum.le a b) : JSNum.le a.round b.round := by
  have hne := JSNum.ne_nan_of_le h
  cases a with
  | nan => simp [JSNum.le] at h
  | negInf => exact JSNum.negInf_le (JSNum.round_ne_nan hne.2)
  | posInf =>
    cases b with
    | posInf => exact JSNum.le_self (by simp [JSNum.round])
    | fin q => simp [JSNum.le] at h
    | nan => simp [JSNum.le] at h
    | negInf => simp [JSNum.le] at h
  | fin q =>
    cases b with
    | fin q' => exact roundToDouble_mono q q' h
    | posInf => exact JSNum.le_posInf (roundToDouble_ne_nan q)
    | nan => simp [JSNum.le] at h
    | negInf => simp [JSNum.le] at h

theorem JSNum.mul_le_mul_left {c : ℚ} (hc : 0 < c) {a b : JSNum} (h : JSNum.le a b) :
    JSNum.le (JSNum.mul (.fin c) a) (JSNum.mul (.fin c) b) := by
  cases a <;> cases b <;> simp [JSNum.le, JSNum.mul, JSNum.sgn, hc] at h ⊢
  exact h

theorem JSNum.add_le_add_left (c : ℚ) {a b : JSNum} (h : JSNum.le a b) :
    JSNum.le (JSNum.add (.fin c) a) (JSNum.add (.fin c) b) := by
  cases a <;> cases b <;> simp [JSNum.le, JSNum.add] at h ⊢
  exact h

theorem JSNum.div_le_div_right {c : ℚ} (hc : 0 < c) {a b : JSNum} (h : JSNum.le a b) :
    JSNum.le (JSNum.div a (.fin c)) (JSNum.div b (.fin c)) := by
  cases a <;> cases b <;> simp [JSNum.le, JSNum.div, JSNum.sgn, hc.ne.symm, hc.le] at h ⊢
  exact div_le_div_of_nonneg_right h hc.le

theorem JSNum.one_div_anti {a b : JSNum} (ha : JSNum.le (.fin 1) a) (h : JSNum.le a b) :
    JSNum.le (JSNum.div (.fin 1) b) (JSNum.div (.fin 1) a) := by
  cases a with
  | nan => simp [JSNum.le] at ha
  | negInf => simp [JSNum.le] at ha
  | posInf =>
    cases b with
    | posInf => simp [JSNum.le, JSNum.div]
    | fin q => simp [JSNum.le] at h
    | nan => simp [JSNum.le] at h
    | negInf => simp [JSNum.le] at h
  | fin s =>
    have hs : (1 : ℚ) ≤ s := ha
    have hs0 : s ≠ 0 := by linarith
    cases b with
    | posInf =>
      rw [JSNum.div_fin 1 hs0]
      show (0 : ℚ) ≤ 1 / s
      positivity
    | fin s' =>
      have hss : s ≤ s' := h
      have hs0' : s' ≠ 0 := by linarith
      rw [JSNum.div_fin 1 hs0, JSNum.div_fin 1 hs0']
      show 1 / s' ≤ 1 / s
      exact one_div_le_one_div_of_le (by linarith) hss
    | nan => simp [JSNum.le] at h
    | negInf => simp [JSNum.le] at h

theorem JSNum.neg_mul_self_anti {x y : JSNum} (h : JSNum.le (JSNum.abs x) (JSNum.abs y)) :
    JSNum.le (JSNum.mul (JSNum.neg y) y) (JSNum.mul (JSNum.neg x) x) := by
  cases x with
  | nan => simp [JSNum.le, JSNum.abs] at h
  | fin a =>
    cases y with
    | nan => simp [JSNum.le, JSNum.abs] at h
    | fin b =>
      have hab : |a| ≤ |b| := h
      have h1 := mul_self_le_mul_self (abs_nonneg a) hab
      rw [abs_mul_abs_self, abs_mul_abs_self] at h1
      show -b * b ≤ -a * a
      linarith
    | posInf => simp [JSNum.le, JSNum.mul, JSNum.neg, JSNum.sgn]
    | negInf => simp [JSNum.le, JSNum.mul, JSNum.neg, JSNum.sgn]
  | posInf =>
    cases y <;> simp [JSNum.le, JSNum.abs, JSNum.mul, JSNum.neg, JSNum.sgn] at h ⊢
  | negInf =>
    cases y <;> simp [JSNum.le, JSNum.abs, JSNum.mul, JSNum.neg, JSNum.sgn] at h ⊢

theorem JSNum.zero_le_abs {x : JSNum} (h : x ≠ .nan) : JSNum.le (.fin 0) (JSNum.abs x) := by
  cases x with
  | fin q =>
    show (0 : ℚ) ≤ |q|
    positivity
  | nan => exact absurd rfl h
  | posInf => simp [JSNum.le, JSNum.abs]
  | negInf => simp [JSNum.le, JSNum.abs]

theorem JSNum.fmul_le_fmul_left {c : ℚ} (hc : 0 < c) {a b : JSNum} (h : JSNum.le a b) :
    JSNum.le (JSNum.fmul (.fin c) a) (JSNum.fmul (.fin c) b) :=
  JSNum.round_le_round (JSNum.mul_le_mul_left hc h)

theorem JSNum.fadd_le_fadd_left (c : ℚ) {a b : JSNum} (h : JSNum.le a b) :
    JSNum.le (JSNum.fadd (.fin c) a) (JSNum.fadd (.fin c) b) :=
  JSNum.round_le_round (JSNum.add_le_add_left c h)

theorem JSNum.fdiv_le_fdiv_right {c : ℚ} (hc : 0 < c) {a b : JSNum} (h : JSNum.le a b) :
    JSNum.le (JSNum.fdiv a (.fin c)) (JSNum.fdiv b (.fin c)) :=
  JSNum.round_le_round (JSNum.div_le_div_right hc h)

theorem JSNum.one_fdiv_anti {a b : JSNum} (ha : JSNum.le (.fin 1) a) (h : JSNum.le a b) :
    JSNum.le (JSNum.fdiv (.fin 1) b) (JSNum.fdiv (.fin 1) a) :=
  JSNum.round_le_round (JSNum.one_div_anti ha h)

theorem roundToDouble_zero : roundToDouble 0 = .fin 0 := by
  rw [roundToDouble_of_lt 0 (by rw [abs_zero]; linarith [overflowThreshold_large]),
    nearestDouble_zero]

theorem roundToDouble_one : roundToDouble 1 = .fin 1 := by
  rw [roundToDouble_of_lt 1 (by rw [abs_one]; linarith [overflowThreshold_large]),
    nearestDouble_one]

/-! ## The values of `t` and of the argument of `Math.exp` in `normalCDF` -/

theorem literal_2316419 : literal 0.2316419 = (.fin (4172889498093575 / 18014398509481984)) := by
  with_unfolding_all rfl

theorem one_le_t64_denominator (x : JSNum) (hx : x ≠ .nan) :
    JSNum.le (.fin 1)
      (JSNum.fadd (.fin 1) (JSNum.fmul (literal 0.2316419) (JSNum.abs x))) := by
  rw [literal_2316419]
  have h1 := JSNum.fmul_le_fmul_left (c := 4172889498093575 / 18014398509481984) (by norm_num)
    (JSNum.zero_le_abs hx)
  rw [JSNum.fmul_fin, mul_zero, roundToDouble_zero] at h1
  have h2 := JSNum.fadd_le_fadd_left 1 h1
  rw [JSNum.fadd_fin, add_zero, roundToDouble_one] at h2
  exact h2

theorem t64_spec (x : JSNum) (hx : x ≠ .nan) : ∃ t : ℚ, t64 x = .fin t ∧ 0 ≤ t ∧ t ≤ 1 := by
  have h1 := one_le_t64_denominator x hx
  have h2 := JSNum.one_fdiv_anti (JSNum.le_self (by simp)) h1
  rw [JSNum.fdiv_fin 1 (by norm_num), div_one, roundToDouble_one] at h2
  have h3 := JSNum.one_fdiv_anti h1 (JSNum.le_posInf (JSNum.ne_nan_of_le h1).2)
  have h4 : JSNum.fdiv (.fin 1) .posInf = .fin 0 := by
    show JSNum.round (.fin 0) = .fin 0
    exact roundToDouble_zero
  rw [h4] at h3
  exact JSNum.exists_fin_of_le h3 h2

theorem t64_anti (x y : JSNum) (h : JSNum.le (JSNum.abs x) (JSNum.abs y)) :
    JSNum.le (t64 y) (t64 x) := by
  have hx : x ≠ .nan := by
    intro hx
    rw [hx] at h
    simp [JSNum.le, JSNum.abs] at h
  unfold t64
  apply JSNum.one_fdiv_anti (one_le_t64_denominator x hx)
  apply JSNum.fadd_le_fadd_left
  rw [literal_2316419]
  exact JSNum.fmul_le_fmul_left (by norm_num) h

theorem expArgument64_anti (x y : JSNum) (h : JSNum.le (JSNum.abs x) (JSNum.abs y)) :
    JSNum.le (expArgument64 y) (expArgument64 x) := by
  unfold expArgument64
  exact JSNum.fdiv_le_fdiv_right (by norm_num)
    (JSNum.round_le_round (JSNum.neg_mul_self_anti h))

theorem expArgument64_zero : expArgument64 (.fin 0) = .fin 0 := by
  unfold expArgument64
  rw [JSNum.neg_fin, JSNum.fmul_fin, neg_zero, mul_zero, roundToDouble_zero,
    JSNum.fdiv_fin 0 (by norm_num), zero_div, roundToDouble_zero]

theorem expArgument64_nonpos (x : JSNum) (hx : x ≠ .nan) :
    JSNum.le (expArgument64 x) (.fin 0) := by
  have h := expArgument64_anti (.fin 0) x (by
    rw [JSNum.abs_fin, abs_zero]
    exact JSNum.zero_le_abs hx)
  rw [expArgument64_zero] at h
  exact h

theorem exp_spec (m : JSMath) (hb : expBounded m) (hinf : m.exp .negInf = .fin 0) (a : JSNum)
    (ha : JSNum.le a (.fin 0)) : ∃ e : ℚ, m.exp a = .fin e ∧ 0 ≤ e ∧ e ≤ 1 := by
  cases a with
  | fin q => exact hb q ha
  | negInf => exact ⟨0, hinf, le_rfl, by norm_num⟩
  | nan => simp [JSNum.le] at ha
  | posInf => simp [JSNum.le] at ha

theorem exp_mono (m : JSMath) (hb : expBounded m) (hm : expMonotone m)
    (hinf : m.exp .negInf = .fin 0) (a b : JSNum) (hab : JSNum.le a b)
    (hb0 : JSNum.le b (.fin 0)) (e f : ℚ) (he : m.exp a = .fin e) (hf : m.exp b = .fin f) :
    e ≤ f := by
  obtain ⟨f', hf', hf0, _⟩ := exp_spec m hb hinf b hb0
  have hff : f = f' := by
    rw [hf] at hf'
    injection hf'
  cases a with
  | negInf =>
    rw [hinf] at he
    injection he with he
    rw [← he, hff]
    exact hf0
  | fin qa =>
    cases b with
    | fin qb => exact hm qa qb e f hab hb0 he hf
    | nan => simp [JSNum.le] at hab
    | posInf => simp [JSNum.le] at hb0
    | negInf => simp [JSNum.le] at hab
  | nan => simp [JSNum.le] at hab
  | posInf =>
    cases b <;> simp [JSNum.le] at hab hb0

/-! ## The rounding error of the polynomial of `normalCDF` -/

theorem roundToDouble_small (q : ℚ) (hq : |q| < 2) :
    ∃ r : ℚ, roundToDouble q = .fin r ∧ |r - q| ≤ 1 / 2 ^ 53 := by
  have hlt : |q| < overflowThreshold := lt_trans hq (by linarith [overflowThreshold_large])
  refine ⟨nearestDouble q, roundToDouble_of_lt q hlt, ?_⟩
  have h := nearestDouble_err q 0 (by norm_num) (by
    rw [pow2_eq]
    norm_num
    exact hq)
  rw [pow2_eq] at h
  norm_num at h ⊢
  exact h

theorem fmul_step (t v x e lo hi : ℚ) (ht0 : 0 ≤ t) (ht1 : t ≤ 1) (hv : |v - x| ≤ e)
    (hlo : lo ≤ x) (hhi : x ≤ hi) (hlo0 : lo ≤ 0) (hhi0 : 0 ≤ hi) (hb1 : -2 < lo - e)
    (hb2 : hi + e < 2) :
    ∃ r : ℚ, JSNum.fmul (.fin t) (.fin v) = .fin r ∧ |r - t * x| ≤ e + 1 / 2 ^ 53 ∧
      lo ≤ t * x ∧ t * x ≤ hi := by
  have hv' := abs_le.mp hv
  have h1 : lo ≤ t * x := by
    nlinarith [mul_nonneg ht0 (sub_nonneg.mpr hlo),
      mul_nonneg (sub_nonneg.mpr ht1) (neg_nonneg.mpr hlo0)]
  have h2 : t * x ≤ hi := by
    nlinarith [mul_nonneg ht0 (sub_nonneg.mpr hhi), mul_nonneg (sub_nonneg.mpr ht1) hhi0]
  have h3 : t * v - t * x ≤ e := by
    nlinarith [mul_nonneg ht0 (sub_nonneg.mpr hv'.2), mul_nonneg (sub_nonneg.mpr ht1)
      (le_trans (abs_nonneg _) hv)]
  have h4 : -e ≤ t * v - t * x := by
    nlinarith [mul_nonneg ht0 (sub_nonneg.mpr hv'.1), mul_nonneg (sub_nonneg.mpr ht1)
      (le_trans (abs_nonneg _) hv)]
  have hsmall : |t * v| < 2 := by
    rw [abs_lt]
    constructor <;> linarith
  obtain ⟨r, hr, herr⟩ := roundToDouble_small (t * v) hsmall
  have herr' := abs_le.mp herr
  refine ⟨r, by rw [JSNum.fmul_fin, hr], ?_, h1, h2⟩
  rw [abs_le]
  constructor <;> linarith

theorem fadd_step (c c' v x e lo hi : ℚ) (hc : |c' - c| ≤ 1 / 2 ^ 53) (hv : |v - x| ≤ e)
    (hlo : lo ≤ c + x) (hhi : c + x ≤ hi) (hb1 : -2 < lo - e - 1 / 2 ^ 53)
    (hb2 : hi + e + 1 / 2 ^ 53 < 2) :
    ∃ r : ℚ, JSNum.fadd (.fin c') (.fin v) = .fin r ∧ |r - (c + x)| ≤ e + 2 / 2 ^ 53 := by
  have hv' := abs_le.mp hv
  have hc' := abs_le.mp hc
  have hsmall : |c' + v| < 2 := by
    rw [abs_lt]
    constructor <;> linarith
  obtain ⟨r, hr, herr⟩ := roundToDouble_small (c' + v) hsmall
  have herr' := abs_le.mp herr
  refine ⟨r, by rw [JSNum.fadd_fin, hr], ?_⟩
  rw [abs_le]
  constructor <;> linarith

theorem literal_3989423 : literal 0.3989423 = (.fin (7186705574489315 / 18014398509481984)) := by
  with_unfolding_all rfl

theorem literal_13302744 : literal 1.3302744 = (.fin (2995511646070255 / 2251799813685248)) := by
  with_unfolding_all rfl

theorem literal_18212560 :
    literal (-1.8212560) = (.fin (-1025275980368285 / 562949953421312)) := by
  with_unfolding_all rfl

theorem literal_17814779 : literal 1.7814779 = (.fin (4011531603304387 / 2251799813685248)) := by
  with_unfolding_all rfl

theorem literal_3565638 :
    literal (-0.3565638) = (.fin (-100363787300863 / 281474976710656)) := by
  with_unfolding_all rfl

theorem literal_3193815 : literal 0.3193815 = (.fin (719183202194515 / 2251799813685248)) := by
  with_unfolding_all rfl

theorem tailPolynomial64_spec (t : ℚ) (ht0 : 0 ≤ t) (ht1 : t ≤ 1) :
    ∃ r : ℚ, tailPolynomial64 (.fin t) = .fin r ∧
      |r - (0.3193815 + t * (-0.3565638 + t * (1.7814779 + t * (-1.8212560 + t * 1.3302744))))|
        ≤ 13 / 2 ^ 53 ∧
      -0.0769604 ≤ 0.3193815 + t * (-0.3565638 + t * (1.7814779 + t * (-1.8212560 +
        t * 1.3302744))) ∧
      0.3193815 + t * (-0.3565638 + t * (1.7814779 + t * (-1.8212560 + t * 1.3302744)))
        ≤ 1.7442956 := by
  unfold tailPolynomial64
  rw [literal_13302744, literal_18212560, literal_17814779, literal_3565638, literal_3193815]
  obtain ⟨r1, hr1, he1, hlo1, hhi1⟩ := fmul_step t (2995511646070255 / 2251799813685248)
    1.3302744 (1 / 2 ^ 53) 0 1.3302744 ht0 ht1 (by rw [abs_le]; constructor <;> norm_num)
    (by norm_num) (by norm_num) le_rfl (by norm_num) (by norm_num) (by norm_num)
  rw [hr1]
  obtain ⟨r2, hr2, he2⟩ := fadd_step (-1.8212560) (-1025275980368285 / 562949953421312) r1
    (t * 1.3302744) (1 / 2 ^ 53 + 1 / 2 ^ 53) (-1.8212560) (-0.4909816)
    (by rw [abs_le]; constructor <;> norm_num) he1 (by linarith) (by linarith) (by norm_num)
    (by norm_num)
  rw [hr2]
  obtain ⟨r3, hr3, he3, hlo3, hhi3⟩ := fmul_step t r2 (-1.8212560 + t * 1.3302744)
    (1 / 2 ^ 53 + 1 / 2 ^ 53 + 2 / 2 ^ 53) (-1.8212560) 0 ht0 ht1 he2 (by linarith)
    (by linarith) (by norm_num) le_rfl (by norm_num) (by norm_num)
  rw [hr3]
  obtain ⟨r4, hr4, he4⟩ := fadd_step 1.7814779 (4011531603304387 / 2251799813685248) r3
    (t * (-1.8212560 + t * 1.3302744)) (1 / 2 ^ 53 + 1 / 2 ^ 53 + 2 / 2 ^ 53 + 1 / 2 ^ 53)
    (-0.0397781) 1.7814779 (by rw [abs_le]; constructor <;> norm_num) he3 (by linarith)
    (by linarith) (by norm_num) (by norm_num)
  rw [hr4]
  obtain ⟨r5, hr5, he5, hlo5, hhi5⟩ := fmul_step t r4
    (1.7814779 + t * (-1.8212560 + t * 1.3302744))
    (1 / 2 ^ 53 + 1 / 2 ^ 53 + 2 / 2 ^ 53 + 1 / 2 ^ 53 + 2 / 2 ^ 53) (-0.0397781) 1.7814779
    ht0 ht1 he4 (by linarith) (by linarith) (by norm_num) (by norm_num) (by norm_num)
    (by norm_num)
  rw [hr5]
  obtain ⟨r6, hr6, he6⟩ := fadd_step (-0.3565638) (-100363787300863 / 281474976710656) r5
    (t * (1.7814779 + t * (-1.8212560 + t * 1.3302744)))
    (1 / 2 ^ 53 + 1 / 2 ^ 53 + 2 / 2 ^ 53 + 1 / 2 ^ 53 + 2 / 2 ^ 53 + 1 / 2 ^ 53)
    (-0.3963419) 1.4249141 (by rw [abs_le]; constructor <;> norm_num) he5 (by linarith)
    (by linarith) (by norm_num) (by norm_num)
  rw [hr6]
  obtain ⟨r7, hr7, he7, hlo7, hhi7⟩ := fmul_step t r6
    (-0.3565638 + t * (1.7814779 + t * (-1.8212560 + t * 1.3302744)))
    (1 / 2 ^ 53 + 1 / 2 ^ 53 + 2 / 2 ^ 53 + 1 / 2 ^ 53 + 2 / 2 ^ 53 + 1 / 2 ^ 53 + 2 / 2 ^ 53)
    (-0.3963419) 1.4249141 ht0 ht1 he6 (by linarith) (by linarith) (by norm_num)
    (by norm_num) (by norm_num) (by norm_num)
  rw [hr7]
  obtain ⟨r8, hr8, he8⟩ := fadd_step 0.3193815 (719183202194515 / 2251799813685248) r7
    (t * (-0.3565638 + t * (1.7814779 + t * (-1.8212560 + t * 1.3302744))))
    (1 / 2 ^ 53 + 1 / 2 ^ 53 + 2 / 2 ^ 53 + 1 / 2 ^ 53 + 2 / 2 ^ 53 + 1 / 2 ^ 53 + 2 / 2 ^ 53
      + 1 / 2 ^ 53)
    (-0.0769604) 1.7442956 (by rw [abs_le]; constructor <;> norm_num) he7 (by linarith)
    (by linarith) (by norm_num) (by norm_num)
  refine ⟨r8, hr8, ?_, by linarith, by linarith⟩
  refine le_trans he8 ?_
  norm_num

/-! ## `normalCDF` in double arithmetic -/

theorem JSNum.ne_nan_of_abs {x : JSNum} (h : JSNum.abs x ≠ .nan) : x ≠ .nan := by
  intro hx
  rw [hx] at h
  exact h rfl

theorem mul_error (v w x y a b X W : ℚ) (hv : |v - x| ≤ a) (hw : |w - y| ≤ b) (hx : |x| ≤ X)
    (hW : |w| ≤ W) : |v * w - x * y| ≤ a * W + X * b := by
  have h : v * w - x * y = (v - x) * w + x * (w - y) := by ring
  rw [h]
  refine le_trans (abs_add _ _) ?_
  rw [abs_mul, abs_mul]
  have ha : 0 ≤ a := le_trans (abs_nonneg _) hv
  have hX : 0 ≤ X := le_trans (abs_nonneg _) hx
  exact add_le_add (mul_le_mul hv hW (abs_nonneg _) ha) (mul_le_mul hx hw (abs_nonneg _) hX)

theorem tail64_value_aux (t E r Y : ℚ) (ht0 : 0 ≤ t) (ht1 : t ≤ 1) (hE0 : 0 ≤ E) (hE1 : E ≤ 1)
    (her : |r - Y| ≤ 13 / 2 ^ 53) (hlo : -0.0769604 ≤ Y) (hhi : Y ≤ 1.7442956) :
    ∃ g : ℚ,
      JSNum.fmul (JSNum.fmul (JSNum.fmul (.fin (7186705574489315 / 18014398509481984))
        (.fin E)) (.fin t)) (.fin r) = .fin g ∧
      |g - 0.3989423 * E * t * Y| ≤ 1 / 2 ^ 49 := by
  have hEabs : |E| ≤ 1 := abs_le.mpr ⟨by linarith only [hE0], hE1⟩
  have htabs : |t| ≤ 1 := abs_le.mpr ⟨by linarith only [ht0], ht1⟩
  have hP : |Y| ≤ 1.7442956 := abs_le.mpr ⟨by linarith only [hlo], hhi⟩
  have her' := abs_le.mp her
  have hrabs : |r| ≤ 1.7442956 + 13 / 2 ^ 53 :=
    abs_le.mpr ⟨by linarith only [her'.1, hlo], by linarith only [her'.2, hhi]⟩
  have hX0 : |(0.3989423 : ℚ) * E| ≤ 0.3989423 :=
    abs_le.mpr ⟨by nlinarith only [hE0], by nlinarith only [hE1]⟩
  have hX1 : |(0.3989423 : ℚ) * E * t| ≤ 0.3989423 :=
    abs_le.mpr ⟨by nlinarith only [mul_nonneg hE0 ht0],
      by nlinarith only [mul_nonneg hE0 ht0, mul_le_one₀ hE1 ht0 ht1]⟩
  have hXY : |(0.3989423 : ℚ) * E * t * Y| ≤ 1 := by
    rw [abs_mul]
    calc |(0.3989423 : ℚ) * E * t| * |Y|
        ≤ 0.3989423 * 1.7442956 := mul_le_mul hX1 hP (abs_nonneg _) (by norm_num)
      _ ≤ 1 := by norm_num
  have hX0' := abs_le.mp hX0
  have hX1' := abs_le.mp hX1
  have hXY' := abs_le.mp hXY
  -- the product of the constant and the value of `Math.exp`
  have h0 := mul_error (7186705574489315 / 18014398509481984) E 0.3989423 E (1 / 2 ^ 53) 0
    0.3989423 1 (by rw [abs_le]; constructor <;> norm_num) (by simp)
    (by rw [abs_le]; constructor <;> norm_num) hEabs
  have h0' := abs_le.mp h0
  have hs0 : |(7186705574489315 / 18014398509481984 : ℚ) * E| < 2 :=
    abs_lt.mpr ⟨by linarith only [h0'.1, hX0'.1], by linarith only [h0'.2, hX0'.2]⟩
  obtain ⟨d0, hd0, he0⟩ := roundToDouble_small _ hs0
  rw [JSNum.fmul_fin, hd0]
  have he0' := abs_le.mp he0
  have hd0err : |d0 - 0.3989423 * E| ≤ 2 / 2 ^ 53 :=
    abs_le.mpr ⟨by linarith only [h0'.1, he0'.1], by linarith only [h0'.2, he0'.2]⟩
  -- the product with `t`
  have h1 := mul_error d0 t (0.3989423 * E) t (2 / 2 ^ 53) 0 0.3989423 1 hd0err (by simp) hX0
    htabs
  have h1' := abs_le.mp h1
  have hs1 : |d0 * t| < 2 :=
    abs_lt.mpr ⟨by linarith only [h1'.1, hX1'.1], by linarith only [h1'.2, hX1'.2]⟩
  obtain ⟨d1, hd1, he1⟩ := roundToDouble_small _ hs1
  rw [JSNum.fmul_fin, hd1]
  have he1' := abs_le.mp he1
  have hd1err : |d1 - 0.3989423 * E * t| ≤ 3 / 2 ^ 53 :=
    abs_le.mpr ⟨by linarith only [h1'.1, he1'.1], by linarith only [h1'.2, he1'.2]⟩
  -- the product with the polynomial
  have h2 := mul_error d1 r (0.3989423 * E * t) Y (3 / 2 ^ 53) (13 / 2 ^ 53) 0.3989423
    (1.7442956 + 13 / 2 ^ 53) hd1err her hX1 hrabs
  have h2' := abs_le.mp h2
  have hconst : (3 / 2 ^ 53 : ℚ) * (1.7442956 + 13 / 2 ^ 53) + 0.3989423 * (13 / 2 ^ 53) ≤
      11 / 2 ^ 53 := by norm_num
  have hs2 : |d1 * r| < 2 :=
    abs_lt.mpr ⟨by linarith only [h2'.1, hXY'.1, hconst],
      by linarith only [h2'.2, hXY'.2, hconst]⟩
  obtain ⟨g, hg, he2⟩ := roundToDouble_small _ hs2
  refine ⟨g, by rw [JSNum.fmul_fin, hg], ?_⟩
  have he2' := abs_le.mp he2
  exact abs_le.mpr ⟨by linarith only [h2'.1, he2'.1, hconst],
    by linarith only [h2'.2, he2'.2, hconst]⟩

theorem tail64_value (t E : ℚ) (ht0 : 0 ≤ t) (ht1 : t ≤ 1) (hE0 : 0 ≤ E) (hE1 : E ≤ 1) :
    ∃ g : ℚ,
      JSNum.fmul (JSNum.fmul (JSNum.fmul (literal 0.3989423) (.fin E)) (.fin t))
        (tailPolynomial64 (.fin t)) = .fin g ∧
      |g - 0.3989423 * E * polyQ t| ≤ 1 / 2 ^ 49 := by
  obtain ⟨r, hr, her, hlo, hhi⟩ := tailPolynomial64_spec t ht0 ht1
  rw [literal_3989423, hr]
  have hpoly : (0.3989423 : ℚ) * E * polyQ t = 0.3989423 * E * t *
      (0.3193815 + t * (-0.3565638 + t * (1.7814779 + t * (-1.8212560 + t * 1.3302744)))) := by
    unfold polyQ
    ring
  rw [hpoly]
  exact tail64_value_aux t E r _ ht0 ht1 hE0 hE1 her hlo hhi

theorem tail64_spec (m : JSMath) (hb : expBounded m) (hinf : m.exp .negInf = .fin 0)
    (x : JSNum) (hx : x ≠ .nan) :
    ∃ t E g : ℚ, t64 x = .fin t ∧ 0 ≤ t ∧ t ≤ 1 ∧ m.exp (expArgument64 x) = .fin E ∧ 0 ≤ E ∧
      E ≤ 1 ∧ tail64 m x = .fin g ∧ |g - 0.3989423 * E * polyQ t| ≤ 1 / 2 ^ 49 := by
  obtain ⟨t, ht, ht0, ht1⟩ := t64_spec x hx
  obtain ⟨E, hE, hE0, hE1⟩ := exp_spec m hb hinf _ (expArgument64_nonpos x hx)
  obtain ⟨g, hg, herr⟩ := tail64_value t E ht0 ht1 hE0 hE1
  refine ⟨t, E, g, ht, ht0, ht1, hE, hE0, hE1, ?_, herr⟩
  simp only [tail64, ht, hE]
  exact hg

theorem tail_exact_bounds (t E : ℚ) (ht0 : 0 ≤ t) (ht1 : t ≤ 1) (hE0 : 0 ≤ E) (hE1 : E ≤ 1) :
    0 ≤ 0.3989423 * E * polyQ t ∧ 0.3989423 * E * polyQ t ≤ 1 / 2 := by
  have h0 := polyQ_nonneg t ht0 ht1
  have h1 := polyQ_le t ht0 ht1
  constructor
  · positivity
  · have h2 : E * polyQ t ≤ 1 * 1.253314 := mul_le_mul hE1 h1 h0 (by norm_num)
    have h3 : (0.3989423 : ℚ) * E * polyQ t = 0.3989423 * (E * polyQ t) := by ring
    rw [h3]
    have h4 : (0.3989423 : ℚ) * (E * polyQ t) ≤ 0.3989423 * (1 * 1.253314) :=
      mul_le_mul_of_nonneg_left h2 (by norm_num)
    have h5 : (0.3989423 : ℚ) * (1 * 1.253314) ≤ 1 / 2 := by norm_num
    linarith

theorem tail64_bounds (m : JSMath) (hb : expBounded m) (hinf : m.exp .negInf = .fin 0)
    (x : JSNum) (hx : x ≠ .nan) :
    ∃ g : ℚ, tail64 m x = .fin g ∧ -(1 / 2 ^ 49) ≤ g ∧ g ≤ 1 / 2 + 1 / 2 ^ 49 := by
  obtain ⟨t, E, g, _, ht0, ht1, _, hE0, hE1, hg, herr⟩ := tail64_spec m hb hinf x hx
  obtain ⟨h0, h1⟩ := tail_exact_bounds t E ht0 ht1 hE0 hE1
  have herr' := abs_le.mp herr
  exact ⟨g, hg, by linarith, by linarith⟩

theorem tail64_anti (m : JSMath) (hb : expBounded m) (hm : expMonotone m)
    (hinf : m.exp .negInf = .fin 0) (x y : JSNum) (h : JSNum.le (JSNum.abs y) (JSNum.abs x))
    (p q : ℚ) (hp : tail64 m x = .fin p) (hq : tail64 m y = .fin q) : p ≤ q + 1 / 2 ^ 48 := by
  have hx : x ≠ .nan := JSNum.ne_nan_of_abs (JSNum.ne_nan_of_le h).2
  have hy : y ≠ .nan := JSNum.ne_nan_of_abs (JSNum.ne_nan_of_le h).1
  obtain ⟨t, E, g, ht, ht0, ht1, hE, hE0, hE1, hg, herr⟩ := tail64_spec m hb hinf x hx
  obtain ⟨s, F, k, hs, hs0, hs1, hF, hF0, hF1, hk, herr'⟩ := tail64_spec m hb hinf y hy
  have hpg : p = g := by
    rw [hp] at hg
    injection hg
  have hqk : q = k := by
    rw [hq] at hk
    injection hk
  have hts : t ≤ s := by
    have := t64_anti y x h
    rw [ht, hs] at this
    exact this
  have hEF : E ≤ F :=
    exp_mono m hb hm hinf _ _ (expArgument64_anti y x h) (expArgument64_nonpos y hy) E F hE hF
  have hpoly := polyQ_mono t s ht0 hts hs1
  have hpoly0 := polyQ_nonneg t ht0 ht1
  have h1 : E * polyQ t ≤ F * polyQ s := mul_le_mul hEF hpoly hpoly0 hF0
  have h2 : (0.3989423 : ℚ) * (E * polyQ t) ≤ 0.3989423 * (F * polyQ s) :=
    mul_le_mul_of_nonneg_left h1 (by norm_num)
  have e1 := abs_le.mp herr
  have e2 := abs_le.mp herr'
  rw [hpg, hqk]
  have h3 : (0.3989423 : ℚ) * E * polyQ t = 0.3989423 * (E * polyQ t) := by ring
  have h4 : (0.3989423 : ℚ) * F * polyQ s = 0.3989423 * (F * polyQ s) := by ring
  norm_num at e1 e2 ⊢
  linarith

/-! ## The monotonicity and the symmetry of `normalCDF` in double arithmetic -/

theorem JSNum.lt_zero_of_le {x y : JSNum} (h : JSNum.le x y)
    (hx : JSNum.lt (.fin 0) x = true) : JSNum.lt (.fin 0) y = true := by
  cases x <;> cases y <;> simp [JSNum.le, JSNum.lt] at h hx ⊢
  linarith

theorem JSNum.abs_le_abs_of_pos {x y : JSNum} (h : JSNum.le x y)
    (hx : JSNum.lt (.fin 0) x = true) : JSNum.le (JSNum.abs x) (JSNum.abs y) := by
  cases x <;> cases y <;> simp [JSNum.le, JSNum.lt, JSNum.abs] at h hx ⊢
  rw [abs_of_pos hx, abs_of_pos (lt_of_lt_of_le hx h)]
  exact h

theorem JSNum.abs_le_abs_of_nonpos {x y : JSNum} (h : JSNum.le x y)
    (hy : JSNum.lt (.fin 0) y = false) : JSNum.le (JSNum.abs y) (JSNum.abs x) := by
  cases x <;> cases y <;> simp [JSNum.le, JSNum.lt, JSNum.abs] at h hy ⊢
  rw [abs_of_nonpos hy, abs_of_nonpos (le_trans h hy)]
  linarith

theorem normalCDF64_of_pos (m : JSMath) (x : JSNum) (hx : JSNum.lt (.fin 0) x = true) :
    normalCDF64 m x = JSNum.fsub (.fin 1) (tail64 m x) := by
  simp [normalCDF64, hx]

theorem normalCDF64_of_nonpos (m : JSMath) (x : JSNum) (hx : JSNum.lt (.fin 0) x = false) :
    normalCDF64 m x = tail64 m x := by
  simp [normalCDF64, hx]

theorem one_fsub_spec (g : ℚ) (h0 : -(1 / 2 ^ 49) ≤ g) (h1 : g ≤ 1 + 1 / 2 ^ 48) :
    ∃ y : ℚ, JSNum.fsub (.fin 1) (.fin g) = .fin y ∧ |y - (1 - g)| ≤ 1 / 2 ^ 53 := by
  have hs : |1 - g| < 2 :=
    abs_lt.mpr ⟨by linarith only [h1], by linarith only [h0]⟩
  obtain ⟨y, hy, herr⟩ := roundToDouble_small _ hs
  exact ⟨y, by rw [JSNum.fsub_fin, hy], herr⟩

theorem normalCDF64_spec (m : JSMath) (hb : expBounded m) (hinf : m.exp .negInf = .fin 0)
    (x : JSNum) (hx : x ≠ .nan) :
    ∃ g p : ℚ, tail64 m x = .fin g ∧ normalCDF64 m x = .fin p ∧ -(1 / 2 ^ 49) ≤ g ∧
      g ≤ 1 / 2 + 1 / 2 ^ 49 ∧
      (JSNum.lt (.fin 0) x = true → |p - (1 - g)| ≤ 1 / 2 ^ 53) ∧
      (JSNum.lt (.fin 0) x = false → p = g) := by
  obtain ⟨g, hg, h0, h1⟩ := tail64_bounds m hb hinf x hx
  by_cases hpos : JSNum.lt (.fin 0) x = true
  · obtain ⟨y, hy, herr⟩ := one_fsub_spec g h0 (by linarith only [h1])
    refine ⟨g, y, hg, ?_, h0, h1, fun _ => herr, fun hn => ?_⟩
    · rw [normalCDF64_of_pos m x hpos, hg, hy]
    · rw [hpos] at hn
      cases hn
  · have hneg : JSNum.lt (.fin 0) x = false := by simpa using hpos
    refine ⟨g, g, hg, ?_, h0, h1, fun hp => absurd hp hpos, fun _ => rfl⟩
    rw [normalCDF64_of_nonpos m x hneg, hg]

theorem normalCDF64_mono (m : JSMath) (hb : expBounded m) (hm : expMonotone m)
    (hinf : m.exp .negInf = .fin 0) (x y : JSNum) (h : JSNum.le x y) :
    ∃ p q : ℚ, normalCDF64 m x = .fin p ∧ normalCDF64 m y = .fin q ∧
      p ≤ q + (1 / 2 ^ 48 + 1 / 2 ^ 52) ∧
      -(1 / 2 ^ 49) ≤ p ∧ p ≤ 1 + 1 / 2 ^ 48 ∧ -(1 / 2 ^ 49) ≤ q ∧ q ≤ 1 + 1 / 2 ^ 48 := by
  obtain ⟨hx, hy⟩ := JSNum.ne_nan_of_le h
  obtain ⟨g, p, hg, hp, hg0, hg1, hpos, hneg⟩ := normalCDF64_spec m hb hinf x hx
  obtain ⟨k, q, hk, hq, hk0, hk1, hpos', hneg'⟩ := normalCDF64_spec m hb hinf y hy
  have hpb : -(1 / 2 ^ 49) ≤ p ∧ p ≤ 1 + 1 / 2 ^ 48 := by
    by_cases hxp : JSNum.lt (.fin 0) x = true
    · have e := abs_le.mp (hpos hxp)
      exact ⟨by linarith only [e.1, hg1], by linarith only [e.2, hg0]⟩
    · have e := hneg (by simpa using hxp)
      rw [e]
      exact ⟨hg0, by linarith only [hg1]⟩
  have hqb : -(1 / 2 ^ 49) ≤ q ∧ q ≤ 1 + 1 / 2 ^ 48 := by
    by_cases hyp : JSNum.lt (.fin 0) y = true
    · have e := abs_le.mp (hpos' hyp)
      exact ⟨by linarith only [e.1, hk1], by linarith only [e.2, hk0]⟩
    · have e := hneg' (by simpa using hyp)
      rw [e]
      exact ⟨hk0, by linarith only [hk1]⟩
  refine ⟨p, q, hp, hq, ?_, hpb.1, hpb.2, hqb.1, hqb.2⟩
  by_cases hyp : JSNum.lt (.fin 0) y = true
  · have e2 := abs_le.mp (hpos' hyp)
    by_cases hxp : JSNum.lt (.fin 0) x = true
    · have e1 := abs_le.mp (hpos hxp)
      have ht := tail64_anti m hb hm hinf y x (JSNum.abs_le_abs_of_pos h hxp) k g hk hg
      linarith only [e1.2, e2.1, ht]
    · have e1 := hneg (by simpa using hxp)
      rw [e1]
      linarith only [e2.1, hg1, hk1]
  · have hyn : JSNum.lt (.fin 0) y = false := by simpa using hyp
    have hxn : JSNum.lt (.fin 0) x = false := by
      by_contra hxp
      exact hyp (JSNum.lt_zero_of_le h (by simpa using hxp))
    have e1 := hneg hxn
    have e2 := hneg' hyn
    have ht := tail64_anti m hb hm hinf x y (JSNum.abs_le_abs_of_nonpos h hyn) g k hg hk
    rw [e1, e2]
    linarith only [ht]

theorem standardize_mono (mean stdDev a b : ℚ) (hsd : 0 < stdDev) (hab : a ≤ b) :
    JSNum.le (JSNum.fdiv (JSNum.fsub (.fin a) (.fin mean)) (.fin stdDev))
      (JSNum.fdiv (JSNum.fsub (.fin b) (.fin mean)) (.fin stdDev)) := by
  apply JSNum.fdiv_le_fdiv_right hsd
  rw [JSNum.fsub_fin, JSNum.fsub_fin]
  exact roundToDouble_mono _ _ (by linarith)

theorem range_mono (m : JSMath) (hb : expBounded m) (hm : expMonotone m)
    (hinf : m.exp .negInf = .fin 0) (mean stdDev lo hi hi' : ℚ) (hsd : 0 < stdDev)
    (hlo : lo < hi) (hhi : hi ≤ hi') :
    ∃ r r' : ℚ,
      JSNum.fsub (calculateNormalProbability64 m (.fin hi) (.fin mean) (.fin stdDev))
        (calculateNormalProbability64 m (.fin lo) (.fin mean) (.fin stdDev)) = .fin r ∧
      JSNum.fsub (calculateNormalProbability64 m (.fin hi') (.fin mean) (.fin stdDev))
        (calculateNormalProbability64 m (.fin lo) (.fin mean) (.fin stdDev)) = .fin r' ∧
      r ≤ r' + 1 / 2 ^ 47 := by
  obtain ⟨p, q, hp, hq, hpq, hp0, hp1, hq0, hq1⟩ := normalCDF64_mono m hb hm hinf _ _
    (standardize_mono mean stdDev hi hi' hsd hhi)
  obtain ⟨l, p', hl, hp', _, hl0, hl1, _, _⟩ := normalCDF64_mono m hb hm hinf _ _
    (standardize_mono mean stdDev lo hi hsd hlo.le)
  have hs1 : |p - l| < 2 :=
    abs_lt.mpr ⟨by linarith only [hp0, hl1], by linarith only [hp1, hl0]⟩
  have hs2 : |q - l| < 2 :=
    abs_lt.mpr ⟨by linarith only [hq0, hl1], by linarith only [hq1, hl0]⟩
  obtain ⟨r, hr, e1⟩ := roundToDouble_small _ hs1
  obtain ⟨r', hr', e2⟩ := roundToDouble_small _ hs2
  have e1' := abs_le.mp e1
  have e2' := abs_le.mp e2
  refine ⟨r, r', ?_, ?_, by linarith only [e1'.2, e2'.1, hpq]⟩
  · unfold calculateNormalProbability64
    rw [hp, hl, JSNum.fsub_fin, hr]
  · unfold calculateNormalProbability64
    rw [hq, hl, JSNum.fsub_fin, hr']

theorem JSNum.neg_neg (x : JSNum) : JSNum.neg (JSNum.neg x) = x := by
  cases x <;> simp [JSNum.neg]

theorem JSNum.abs_neg (x : JSNum) : JSNum.abs (JSNum.neg x) = JSNum.abs x := by
  cases x <;> simp [JSNum.neg, JSNum.abs]

theorem JSNum.neg_mul_neg (x : JSNum) :
    JSNum.mul (JSNum.neg (JSNum.neg x)) (JSNum.neg x) = JSNum.mul (JSNum.neg x) x := by
  cases x with
  | fin q =>
    simp only [JSNum.neg_fin, JSNum.mul_fin]
    congr 1
    ring
  | nan => rfl
  | posInf => rfl
  | negInf => rfl

theorem tail64_neg (m : JSMath) (x : JSNum) : tail64 m (JSNum.neg x) = tail64 m x := by
  simp only [tail64, t64, expArgument64, JSNum.abs_neg, JSNum.fmul, JSNum.neg_mul_neg]

theorem JSNum.lt_zero_neg {x : JSNum} (hx : JSNum.lt (.fin 0) x = true) :
    JSNum.lt (.fin 0) (JSNum.neg x) = false := by
  cases x <;> simp [JSNum.lt, JSNum.neg] at hx ⊢
  linarith

theorem normalCDF64_neg (m : JSMath) (x : JSNum) (hx : JSNum.lt (.fin 0) x = true) :
    normalCDF64 m (JSNum.neg x) = tail64 m x ∧
    normalCDF64 m x = JSNum.fsub (.fin 1) (normalCDF64 m (JSNum.neg x)) := by
  have h1 : normalCDF64 m (JSNum.neg x) = tail64 m x := by
    rw [normalCDF64_of_nonpos m _ (JSNum.lt_zero_neg hx), tail64_neg]
  exact ⟨h1, by rw [h1, normalCDF64_of_pos m x hx]⟩

theorem normalCDF64_neg_near (m : JSMath) (hb : expBounded m) (hinf : m.exp .negInf = .fin 0)
    (x : JSNum) (hx : JSNum.lt (.fin 0) x = true) :
    ∃ p q : ℚ, normalCDF64 m (JSNum.neg x) = .fin p ∧
      JSNum.fsub (.fin 1) (normalCDF64 m x) = .fin q ∧ |p - q| ≤ 1 / 2 ^ 52 := by
  have hxn : x ≠ .nan := by
    intro h
    rw [h] at hx
    cases hx
  obtain ⟨g, p, hg, hp, hg0, hg1, hpos, _⟩ := normalCDF64_spec m hb hinf x hxn
  have e1 := abs_le.mp (hpos hx)
  obtain ⟨q, hq, e2⟩ := one_fsub_spec p (by linarith only [e1.1, hg1])
    (by linarith only [e1.2, hg0])
  have e2' := abs_le.mp e2
  refine ⟨g, q, ?_, ?_, ?_⟩
  · rw [(normalCDF64_neg m x hx).1, hg]
  · rw [hp, hq]
  · exact abs_le.mpr ⟨by linarith only [e1.1, e2'.2], by linarith only [e1.2, e2'.1]⟩

theorem JSNum.round_neg (a : JSNum) : (JSNum.neg a).round = JSNum.neg a.round := by
  cases a with
  | fin q => exact roundToDouble_neg q
  | nan => rfl
  | posInf => rfl
  | negInf => rfl

theorem JSNum.div_neg_left (a : JSNum) {c : ℚ} (hc : 0 < c) :
    JSNum.div (JSNum.neg a) (.fin c) = JSNum.neg (JSNum.div a (.fin c)) := by
  cases a with
  | fin q =>
    rw [JSNum.neg_fin, JSNum.div_fin _ hc.ne.symm, JSNum.div_fin _ hc.ne.symm, JSNum.neg_fin,
      neg_div]
  | nan => rfl
  | posInf => simp [JSNum.div, JSNum.neg, JSNum.sgn, hc.le]
  | negInf => simp [JSNum.div, JSNum.neg, JSNum.sgn, hc.le]

theorem standardize_neg (mean stdDev d : ℚ) (hsd : 0 < stdDev) :
    JSNum.fdiv (JSNum.fsub (.fin (mean - d)) (.fin mean)) (.fin stdDev) =
      JSNum.neg (JSNum.fdiv (JSNum.fsub (.fin (mean + d)) (.fin mean)) (.fin stdDev)) := by
  have h1 : mean - d - mean = -d := by ring
  have h2 : mean + d - mean = d := by ring
  rw [JSNum.fsub_fin, JSNum.fsub_fin, h1, h2, roundToDouble_neg]
  unfold JSNum.fdiv
  rw [JSNum.div_neg_left _ hsd, JSNum.round_neg]

/-! ## The values of `normalCDF` at three doubles

Every step is one rounded operation on the doubles that the steps before it give. -/

set_option maxRecDepth 4000 in
theorem normalCDF64_neg_one : normalCDF64 doubleMath (.fin (-1)) = (.fin (5716157762608715 /
    36028797018963968)) := by
  have h1 : JSNum.abs (.fin (-1)) = (.fin 1) := by with_unfolding_all rfl
  have h2 : JSNum.fmul (.fin (4172889498093575 / 18014398509481984)) (.fin 1) = (.fin
      (4172889498093575 / 18014398509481984)) := by with_unfolding_all rfl
  have h3 : JSNum.fadd (.fin 1) (.fin (4172889498093575 / 18014398509481984)) = (.fin
      (2773411000946945 / 2251799813685248)) := by with_unfolding_all rfl
  have h4 : JSNum.fdiv (.fin 1) (.fin (2773411000946945 / 2251799813685248)) = (.fin
      (7313164041220903 / 9007199254740992)) := by with_unfolding_all rfl
  have h5 : JSNum.neg (.fin (-1)) = (.fin 1) := by with_unfolding_all rfl
  have h6 : JSNum.fmul (.fin 1) (.fin (-1)) = (.fin (-1)) := by with_unfolding_all rfl
  have h7 : JSNum.fdiv (.fin (-1)) (.fin 2) = (.fin (-1 / 2)) := by with_unfolding_all rfl
  have h8 : doubleMath.exp (.fin (-1 / 2)) = (.fin (2731571253070597 / 4503599627370496)) := by
      with_unfolding_all rfl
  have h9 : JSNum.fmul (.fin (7186705574489315 / 18014398509481984)) (.fin (2731571253070597 /
      4503599627370496)) = (.fin (8717914546510929 / 36028797018963968)) := by with_unfolding_all
      rfl
  have h10 : JSNum.fmul (.fin (8717914546510929 / 36028797018963968)) (.fin (7313164041220903 /
      9007199254740992)) = (.fin (3539143377028229 / 18014398509481984)) := by with_unfolding_all
      rfl
  have h11 : JSNum.fmul (.fin (7313164041220903 / 9007199254740992)) (.fin (2995511646070255 /
      2251799813685248)) = (.fin (1216064363379589 / 1125899906842624)) := by with_unfolding_all rfl
  have h12 : JSNum.fadd (.fin (-1025275980368285 / 562949953421312)) (.fin (1216064363379589 /
      1125899906842624)) = (.fin (-834487597356981 / 1125899906842624)) := by with_unfolding_all rfl
  have h13 : JSNum.fmul (.fin (7313164041220903 / 9007199254740992)) (.fin (-834487597356981 /
      1125899906842624)) = (.fin (-5420326134451781 / 9007199254740992)) := by with_unfolding_all
      rfl
  have h14 : JSNum.fadd (.fin (4011531603304387 / 2251799813685248)) (.fin (-5420326134451781 /
      9007199254740992)) = (.fin (1328225034845721 / 1125899906842624)) := by with_unfolding_all rfl
  have h15 : JSNum.fmul (.fin (7313164041220903 / 9007199254740992)) (.fin (1328225034845721 /
      1125899906842624)) = (.fin (4313672780524017 / 4503599627370496)) := by with_unfolding_all rfl
  have h16 : JSNum.fadd (.fin (-100363787300863 / 281474976710656)) (.fin (4313672780524017 /
      4503599627370496)) = (.fin (2707852183710209 / 4503599627370496)) := by with_unfolding_all rfl
  have h17 : JSNum.fmul (.fin (7313164041220903 / 9007199254740992)) (.fin (2707852183710209 /
      4503599627370496)) = (.fin (1099285508113279 / 2251799813685248)) := by with_unfolding_all rfl
  have h18 : JSNum.fadd (.fin (719183202194515 / 2251799813685248)) (.fin (1099285508113279 /
      2251799813685248)) = (.fin (909234355153897 / 1125899906842624)) := by with_unfolding_all rfl
  have h19 : JSNum.fmul (.fin (3539143377028229 / 18014398509481984)) (.fin (909234355153897 /
      1125899906842624)) = (.fin (5716157762608715 / 36028797018963968)) := by with_unfolding_all
      rfl
  have hlt : JSNum.lt (.fin 0) (.fin (-1)) = false := by with_unfolding_all rfl
  simp only [normalCDF64, tail64, t64, expArgument64, tailPolynomial64, literal_2316419, h1, h2, h3,
    h4, h5, h6, h7, h8, literal_3989423, h9, h10, literal_13302744, h11, literal_18212560, h12, h13,
    literal_17814779, h14, h15, literal_3565638, h16, h17, literal_3193815, h18, h19, hlt,
    Bool.false_eq_true, if_false]

set_option maxRecDepth 4000 in
theorem normalCDF64_near_half : normalCDF64 doubleMath (.fin (4503599627371329 / 9007199254740992))
    = (.fin (3114070200871235 / 4503599627370496)) := by
  have h1 : JSNum.abs (.fin (4503599627371329 / 9007199254740992)) = (.fin (4503599627371329 /
      9007199254740992)) := by with_unfolding_all rfl
  have h2 : JSNum.fmul (.fin (4172889498093575 / 18014398509481984)) (.fin (4503599627371329 /
      9007199254740992)) = (.fin (4172889498094347 / 36028797018963968)) := by with_unfolding_all
      rfl
  have h3 : JSNum.fadd (.fin 1) (.fin (4172889498094347 / 36028797018963968)) = (.fin
      (5025210814632289 / 4503599627370496)) := by with_unfolding_all rfl
  have h4 : JSNum.fdiv (.fin 1) (.fin (5025210814632289 / 4503599627370496)) = (.fin
      (4036131090181099 / 4503599627370496)) := by with_unfolding_all rfl
  have h5 : JSNum.neg (.fin (4503599627371329 / 9007199254740992)) = (.fin (-4503599627371329 /
      9007199254740992)) := by with_unfolding_all rfl
  have h6 : JSNum.fmul (.fin (-4503599627371329 / 9007199254740992)) (.fin (4503599627371329 /
      9007199254740992)) = (.fin (-2251799813686081 / 9007199254740992)) := by with_unfolding_all
      rfl
  have h7 : JSNum.fdiv (.fin (-2251799813686081 / 9007199254740992)) (.fin 2) = (.fin
      (-2251799813686081 / 18014398509481984)) := by with_unfolding_all rfl
  have h8 : doubleMath.exp (.fin (-2251799813686081 / 18014398509481984)) = (.fin (3974412721635417
      / 4503599627370496)) := by with_unfolding_all rfl
  have h9 : JSNum.fmul (.fin (7186705574489315 / 18014398509481984)) (.fin (3974412721635417 /
      4503599627370496)) = (.fin (6342245409273973 / 18014398509481984)) := by with_unfolding_all
      rfl
  have h10 : JSNum.fmul (.fin (6342245409273973 / 18014398509481984)) (.fin (4036131090181099 /
      4503599627370496)) = (.fin (5683927523742811 / 18014398509481984)) := by with_unfolding_all
      rfl
  have h11 : JSNum.fmul (.fin (4036131090181099 / 4503599627370496)) (.fin (2995511646070255 /
      2251799813685248)) = (.fin (5369161864312007 / 4503599627370496)) := by with_unfolding_all rfl
  have h12 : JSNum.fadd (.fin (-1025275980368285 / 562949953421312)) (.fin (5369161864312007 /
      4503599627370496)) = (.fin (-2833045978634273 / 4503599627370496)) := by with_unfolding_all
      rfl
  have h13 : JSNum.fmul (.fin (4036131090181099 / 4503599627370496)) (.fin (-2833045978634273 /
      4503599627370496)) = (.fin (-5077958033740483 / 9007199254740992)) := by with_unfolding_all
      rfl
  have h14 : JSNum.fadd (.fin (4011531603304387 / 2251799813685248)) (.fin (-5077958033740483 /
      9007199254740992)) = (.fin (1371021047434633 / 1125899906842624)) := by with_unfolding_all rfl
  have h15 : JSNum.fmul (.fin (4036131090181099 / 4503599627370496)) (.fin (1371021047434633 /
      1125899906842624)) = (.fin (4914842466202509 / 4503599627370496)) := by with_unfolding_all rfl
  have h16 : JSNum.fadd (.fin (-100363787300863 / 281474976710656)) (.fin (4914842466202509 /
      4503599627370496)) = (.fin (3309021869388701 / 4503599627370496)) := by with_unfolding_all rfl
  have h17 : JSNum.fmul (.fin (4036131090181099 / 4503599627370496)) (.fin (3309021869388701 /
      4503599627370496)) = (.fin (2965549149609207 / 4503599627370496)) := by with_unfolding_all rfl
  have h18 : JSNum.fadd (.fin (719183202194515 / 2251799813685248)) (.fin (2965549149609207 /
      4503599627370496)) = (.fin (4403915553998237 / 4503599627370496)) := by with_unfolding_all rfl
  have h19 : JSNum.fmul (.fin (5683927523742811 / 18014398509481984)) (.fin (4403915553998237 /
      4503599627370496)) = (.fin (5558117705997045 / 18014398509481984)) := by with_unfolding_all
      rfl
  have hlt : JSNum.lt (.fin 0) (.fin (4503599627371329 / 9007199254740992)) = true := by
      with_unfolding_all rfl
  have h20 : JSNum.fsub (.fin 1) (.fin (5558117705997045 / 18014398509481984)) = (.fin
      (3114070200871235 / 4503599627370496)) := by with_unfolding_all rfl
  simp only [normalCDF64, tail64, t64, expArgument64, tailPolynomial64, literal_2316419, h1, h2, h3,
    h4, h5, h6, h7, h8, literal_3989423, h9, h10, literal_13302744, h11, literal_18212560, h12, h13,
    literal_17814779, h14, h15, literal_3565638, h16, h17, literal_3193815, h18, h19, hlt, h20,
    if_true]

set_option maxRecDepth 4000 in
theorem normalCDF64_next_half : normalCDF64 doubleMath (.fin (2251799813685665 / 4503599627370496))
    = (.fin (6228140401742469 / 9007199254740992)) := by
  have h1 : JSNum.abs (.fin (2251799813685665 / 4503599627370496)) = (.fin (2251799813685665 /
      4503599627370496)) := by with_unfolding_all rfl
  have h2 : JSNum.fmul (.fin (4172889498093575 / 18014398509481984)) (.fin (2251799813685665 /
      4503599627370496)) = (.fin (1043222374523587 / 9007199254740992)) := by with_unfolding_all rfl
  have h3 : JSNum.fadd (.fin 1) (.fin (1043222374523587 / 9007199254740992)) = (.fin
      (2512605407316145 / 2251799813685248)) := by with_unfolding_all rfl
  have h4 : JSNum.fdiv (.fin 1) (.fin (2512605407316145 / 2251799813685248)) = (.fin
      (8072262180362197 / 9007199254740992)) := by with_unfolding_all rfl
  have h5 : JSNum.neg (.fin (2251799813685665 / 4503599627370496)) = (.fin (-2251799813685665 /
      4503599627370496)) := by with_unfolding_all rfl
  have h6 : JSNum.fmul (.fin (-2251799813685665 / 4503599627370496)) (.fin (2251799813685665 /
      4503599627370496)) = (.fin (-1125899906843041 / 4503599627370496)) := by with_unfolding_all
      rfl
  have h7 : JSNum.fdiv (.fin (-1125899906843041 / 4503599627370496)) (.fin 2) = (.fin
      (-1125899906843041 / 9007199254740992)) := by with_unfolding_all rfl
  have h8 : doubleMath.exp (.fin (-1125899906843041 / 9007199254740992)) = (.fin (3974412721635417 /
      4503599627370496)) := by with_unfolding_all rfl
  have h9 : JSNum.fmul (.fin (7186705574489315 / 18014398509481984)) (.fin (3974412721635417 /
      4503599627370496)) = (.fin (6342245409273973 / 18014398509481984)) := by with_unfolding_all
      rfl
  have h10 : JSNum.fmul (.fin (6342245409273973 / 18014398509481984)) (.fin (8072262180362197 /
      9007199254740992)) = (.fin (5683927523742811 / 18014398509481984)) := by with_unfolding_all
      rfl
  have h11 : JSNum.fmul (.fin (8072262180362197 / 9007199254740992)) (.fin (2995511646070255 /
      2251799813685248)) = (.fin (5369161864312007 / 4503599627370496)) := by with_unfolding_all rfl
  have h12 : JSNum.fadd (.fin (-1025275980368285 / 562949953421312)) (.fin (5369161864312007 /
      4503599627370496)) = (.fin (-2833045978634273 / 4503599627370496)) := by with_unfolding_all
      rfl
  have h13 : JSNum.fmul (.fin (8072262180362197 / 9007199254740992)) (.fin (-2833045978634273 /
      4503599627370496)) = (.fin (-2538979016870241 / 4503599627370496)) := by with_unfolding_all
      rfl
  have h14 : JSNum.fadd (.fin (4011531603304387 / 2251799813685248)) (.fin (-2538979016870241 /
      4503599627370496)) = (.fin (5484084189738533 / 4503599627370496)) := by with_unfolding_all rfl
  have h15 : JSNum.fmul (.fin (8072262180362197 / 9007199254740992)) (.fin (5484084189738533 /
      4503599627370496)) = (.fin (2457421233101255 / 2251799813685248)) := by with_unfolding_all rfl
  have h16 : JSNum.fadd (.fin (-100363787300863 / 281474976710656)) (.fin (2457421233101255 /
      2251799813685248)) = (.fin (1654510934694351 / 2251799813685248)) := by with_unfolding_all rfl
  have h17 : JSNum.fmul (.fin (8072262180362197 / 9007199254740992)) (.fin (1654510934694351 /
      2251799813685248)) = (.fin (5931098299218415 / 9007199254740992)) := by with_unfolding_all rfl
  have h18 : JSNum.fadd (.fin (719183202194515 / 2251799813685248)) (.fin (5931098299218415 /
      9007199254740992)) = (.fin (8807831107996475 / 9007199254740992)) := by with_unfolding_all rfl
  have h19 : JSNum.fmul (.fin (5683927523742811 / 18014398509481984)) (.fin (8807831107996475 /
      9007199254740992)) = (.fin (2779058852998523 / 9007199254740992)) := by with_unfolding_all rfl
  have hlt : JSNum.lt (.fin 0) (.fin (2251799813685665 / 4503599627370496)) = true := by
      with_unfolding_all rfl
  have h20 : JSNum.fsub (.fin 1) (.fin (2779058852998523 / 9007199254740992)) = (.fin
      (6228140401742469 / 9007199254740992)) := by with_unfolding_all rfl
  simp only [normalCDF64, tail64, t64, expArgument64, tailPolynomial64, literal_2316419, h1, h2, h3,
    h4, h5, h6, h7, h8, literal_3989423, h9, h10, literal_13302744, h11, literal_18212560, h12, h13,
    literal_17814779, h14, h15, literal_3565638, h16, h17, literal_3193815, h18, h19, hlt, h20,
    if_true]

/-! ## The claims about `normalCDF` in double arithmetic -/

theorem doubleMath_expBounded : expBounded doubleMath := by
  intro y _
  show ∃ e : ℚ, (if 0 ≤ y then JSNum.fin 1
    else if -2251799813686082 / 2 ^ 54 ≤ y then JSNum.fin (3974412721635417 / 2 ^ 52)
    else if -1 / 2 ≤ y then JSNum.fin (2731571253070597 / 2 ^ 52)
    else JSNum.fin 0) = .fin e ∧ 0 ≤ e ∧ e ≤ 1
  split_ifs
  · exact ⟨1, rfl, by norm_num, le_rfl⟩
  · exact ⟨_, rfl, by norm_num, by norm_num⟩
  · exact ⟨_, rfl, by norm_num, by norm_num⟩
  · exact ⟨0, rfl, le_rfl, by norm_num⟩

theorem doubleMath_expMonotone : expMonotone doubleMath := by
  intro y z e f hyz _ he hf
  have he' : (if 0 ≤ y then JSNum.fin 1
    else if -2251799813686082 / 2 ^ 54 ≤ y then JSNum.fin (3974412721635417 / 2 ^ 52)
    else if -1 / 2 ≤ y then JSNum.fin (2731571253070597 / 2 ^ 52)
    else JSNum.fin 0) = .fin e := he
  have hf' : (if 0 ≤ z then JSNum.fin 1
    else if -2251799813686082 / 2 ^ 54 ≤ z then JSNum.fin (3974412721635417 / 2 ^ 52)
    else if -1 / 2 ≤ z then JSNum.fin (2731571253070597 / 2 ^ 52)
    else JSNum.fin 0) = .fin f := hf
  split_ifs at he' hf' <;> simp only [JSNum.fin.injEq] at he' hf' <;> subst he' hf' <;>
    first
    | (exfalso; linarith)
    | norm_num

set_option maxRecDepth 4000 in
theorem normalCDF64_one :
    normalCDF64 doubleMath (.fin 1) = .fin (7578159814088813 / 9007199254740992) := by
  have h1 : JSNum.lt (.fin 0) (.fin 1) = true := by with_unfolding_all rfl
  have h2 : JSNum.neg (.fin 1) = .fin (-1) := rfl
  have h3 : JSNum.fsub (.fin 1) (.fin (5716157762608715 / 36028797018963968)) =
      .fin (7578159814088813 / 9007199254740992) := by with_unfolding_all rfl
  rw [(normalCDF64_neg doubleMath (.fin 1) h1).2, h2, normalCDF64_neg_one, h3]

set_option maxRecDepth 4000 in
theorem one_fsub_normalCDF64_one :
    JSNum.fsub (.fin 1) (normalCDF64 doubleMath (.fin 1)) =
      .fin (5716157762608716 / 36028797018963968) := by
  rw [normalCDF64_one]
  with_unfolding_all rfl

set_option maxRecDepth 4000 in
theorem standardize_unit (x : ℚ) (hx : roundToDouble x = .fin x) :
    JSNum.fdiv (JSNum.fsub (.fin x) (.fin 0)) (.fin 1) = .fin x := by
  rw [JSNum.fsub_fin, sub_zero, hx, JSNum.fdiv_fin x (by norm_num), div_one, hx]

set_option maxRecDepth 4000 in
theorem standardize_neg_one :
    JSNum.fdiv (JSNum.fsub (.fin (-1)) (.fin 0)) (.fin 1) = .fin (-1) :=
  standardize_unit (-1) (by with_unfolding_all rfl)

set_option maxRecDepth 4000 in
theorem standardize_one :
    JSNum.fdiv (JSNum.fsub (.fin 1) (.fin 0)) (.fin 1) = .fin 1 :=
  standardize_unit 1 (by with_unfolding_all rfl)

set_option maxRecDepth 4000 in
theorem standardize_near_half :
    JSNum.fdiv (JSNum.fsub (.fin (4503599627371329 / 9007199254740992)) (.fin 0)) (.fin 1) =
      .fin (4503599627371329 / 9007199254740992) :=
  standardize_unit _ (by with_unfolding_all rfl)

set_option maxRecDepth 4000 in
theorem standardize_next_half :
    JSNum.fdiv (JSNum.fsub (.fin (2251799813685665 / 4503599627370496)) (.fin 0)) (.fin 1) =
      .fin (2251799813685665 / 4503599627370496) :=
  standardize_unit _ (by with_unfolding_all rfl)

set_option maxRecDepth 4000 in
theorem range_near_half :
    JSNum.fsub (.fin (3114070200871235 / 4503599627370496))
      (.fin (5716157762608715 / 36028797018963968)) =
      .fin (4799100961090291 / 9007199254740992) := by
  with_unfolding_all rfl

set_option maxRecDepth 4000 in
theorem range_next_half :
    JSNum.fsub (.fin (6228140401742469 / 9007199254740992))
      (.fin (5716157762608715 / 36028797018963968)) =
      .fin (2399550480545145 / 4503599627370496) := by
  with_unfolding_all rfl

/-- C18, counterexample: with a `Math.exp` that maps the numbers up to `0` into `[0, 1]`
without decreasing and takes the values of a double-precision engine at the arguments read,
`normalCDF(0.5000000000000925)` is `6228140401742470 / 2^53` and
`normalCDF(0.5000000000000926)` is `6228140401742469 / 2^53`, which is smaller; with mean
`0`, standard deviation `1` and lower bound `-1` the range probability up to the larger
bound is `4799100961090290 / 2^53`, below the range probability
`4799100961090291 / 2^53` up to the smaller bound. -/
theorem normalCDF64_not_monotone :
    expBounded doubleMath ∧ expMonotone doubleMath ∧
    ((-1 : ℚ) < 4503599627371329 / 2 ^ 53 ∧
      (4503599627371329 / 2 ^ 53 : ℚ) ≤ 4503599627371330 / 2 ^ 53) ∧
    normalCDF64 doubleMath (.fin (4503599627371329 / 2 ^ 53)) =
      .fin (6228140401742470 / 2 ^ 53) ∧
    normalCDF64 doubleMath (.fin (4503599627371330 / 2 ^ 53)) =
      .fin (6228140401742469 / 2 ^ 53) ∧
    JSNum.fsub
      (calculateNormalProbability64 doubleMath (.fin (4503599627371329 / 2 ^ 53)) (.fin 0)
        (.fin 1))
      (calculateNormalProbability64 doubleMath (.fin (-1)) (.fin 0) (.fin 1)) =
      .fin (4799100961090291 / 2 ^ 53) ∧
    JSNum.fsub
      (calculateNormalProbability64 doubleMath (.fin (4503599627371330 / 2 ^ 53)) (.fin 0)
        (.fin 1))
      (calculateNormalProbability64 doubleMath (.fin (-1)) (.fin 0) (.fin 1)) =
      .fin (4799100961090290 / 2 ^ 53) := by
  have hx1 : (4503599627371329 / 2 ^ 53 : ℚ) = 4503599627371329 / 9007199254740992 := by
    norm_num
  have hx2 : (4503599627371330 / 2 ^ 53 : ℚ) = 2251799813685665 / 4503599627370496 := by
    norm_num
  have hp1 : (6228140401742470 / 2 ^ 53 : ℚ) = 3114070200871235 / 4503599627370496 := by
    norm_num
  have hp2 : (6228140401742469 / 2 ^ 53 : ℚ) = 6228140401742469 / 9007199254740992 := by
    norm_num
  have hr1 : (4799100961090291 / 2 ^ 53 : ℚ) = 4799100961090291 / 9007199254740992 := by
    norm_num
  have hr2 : (4799100961090290 / 2 ^ 53 : ℚ) = 2399550480545145 / 4503599627370496 := by
    norm_num
  refine ⟨doubleMath_expBounded, doubleMath_expMonotone, ⟨by norm_num, by norm_num⟩, ?_, ?_,
    ?_, ?_⟩
  · rw [hx1, hp1, normalCDF64_near_half]
  · rw [hx2, hp2, normalCDF64_next_half]
  · rw [hx1, hr1]
    unfold calculateNormalProbability64
    rw [standardize_near_half, standardize_neg_one, normalCDF64_near_half, normalCDF64_neg_one,
      range_near_half]
  · rw [hx2, hr2]
    unfold calculateNormalProbability64
    rw [standardize_next_half, standardize_neg_one, normalCDF64_next_half, normalCDF64_neg_one,
      range_next_half]

/-- C18, amended: where `Math.exp` maps the numbers up to `0` into `[0, 1]` without
decreasing and `-Infinity` to `0`, `normalCDF` in double arithmetic decreases by at most
`2^-47` from an argument to a larger one, also from one side of `0` to the other, and for
every mean, every positive standard deviation and all `min < max <= max'` the range
probability up to `max'` is at least the range probability up to `max` minus `2^-47`. -/
theorem normalCDF64_monotone_up_to_rounding (m : JSMath) (hb : expBounded m)
    (hm : expMonotone m) (hinf : m.exp .negInf = .fin 0) :
    (∀ y z : ℚ, y ≤ z →
      ∃ p q : ℚ, normalCDF64 m (.fin y) = .fin p ∧ normalCDF64 m (.fin z) = .fin q ∧
        p ≤ q + 1 / 2 ^ 47) ∧
    ∀ mean stdDev lo hi hi' : ℚ, 0 < stdDev → lo < hi → hi ≤ hi' →
      ∃ r r' : ℚ,
        JSNum.fsub (calculateNormalProbability64 m (.fin hi) (.fin mean) (.fin stdDev))
          (calculateNormalProbability64 m (.fin lo) (.fin mean) (.fin stdDev)) = .fin r ∧
        JSNum.fsub (calculateNormalProbability64 m (.fin hi') (.fin mean) (.fin stdDev))
          (calculateNormalProbability64 m (.fin lo) (.fin mean) (.fin stdDev)) = .fin r' ∧
        r ≤ r' + 1 / 2 ^ 47 := by
  constructor
  · intro y z hyz
    obtain ⟨p, q, hp, hq, hpq, _⟩ := normalCDF64_mono m hb hm hinf (.fin y) (.fin z) hyz
    exact ⟨p, q, hp, hq, by linarith only [hpq]⟩
  · intro mean stdDev lo hi hi' hsd hlo hhi
    exact range_mono m hb hm hinf mean stdDev lo hi hi' hsd hlo hhi

theorem normalCDF64_monotone_up_to_rounding_witness :
    expBounded plainMath ∧ expMonotone plainMath ∧ plainMath.exp .negInf = .fin 0 ∧
    (∀ y z : ℚ, y ≤ z →
      ∃ p q : ℚ, normalCDF64 plainMath (.fin y) = .fin p ∧
        normalCDF64 plainMath (.fin z) = .fin q ∧ p ≤ q + 1 / 2 ^ 47) ∧
    ∀ mean stdDev lo hi hi' : ℚ, 0 < stdDev → lo < hi → hi ≤ hi' →
      ∃ r r' : ℚ,
        JSNum.fsub (calculateNormalProbability64 plainMath (.fin hi) (.fin mean) (.fin stdDev))
          (calculateNormalProbability64 plainMath (.fin lo) (.fin mean) (.fin stdDev)) =
          .fin r ∧
        JSNum.fsub
          (calculateNormalProbability64 plainMath (.fin hi') (.fin mean) (.fin stdDev))
          (calculateNormalProbability64 plainMath (.fin lo) (.fin mean) (.fin stdDev)) =
          .fin r' ∧
        r ≤ r' + 1 / 2 ^ 47 :=
  ⟨plainMath_expBounded, plainMath_expMonotone, rfl,
    normalCDF64_monotone_up_to_rounding plainMath plainMath_expBounded plainMath_expMonotone
      rfl⟩

/-- C29, counterexample: with a `Math.exp` that maps the numbers up to `0` into `[0, 1]` and
takes the value `2731571253070597 / 2^52` of a double-precision engine at `-0.5`,
`normalCDF(-1)` is `5716157762608715 / 2^55` and `1 - normalCDF(1)` is
`5716157762608716 / 2^55`; with mean `0` and standard deviation `1` these are the less-than
probability at `-1` and the greater-than probability at `1`. -/
theorem normalCDF64_not_symmetric :
    expBounded doubleMath ∧
    normalCDF64 doubleMath (.fin (-1)) = .fin (5716157762608715 / 2 ^ 55) ∧
    JSNum.fsub (.fin 1) (normalCDF64 doubleMath (.fin 1)) =
      .fin (5716157762608716 / 2 ^ 55) ∧
    normalCDF64 doubleMath (.fin (-1)) ≠
      JSNum.fsub (.fin 1) (normalCDF64 doubleMath (.fin 1)) ∧
    calculateNormalProbability64 doubleMath (.fin (-1)) (.fin 0) (.fin 1) =
      .fin (5716157762608715 / 2 ^ 55) ∧
    JSNum.fsub (.fin 1) (calculateNormalProbability64 doubleMath (.fin 1) (.fin 0) (.fin 1)) =
      .fin (5716157762608716 / 2 ^ 55) := by
  have hp : (5716157762608715 / 2 ^ 55 : ℚ) = 5716157762608715 / 36028797018963968 := by
    norm_num
  have hq : (5716157762608716 / 2 ^ 55 : ℚ) = 5716157762608716 / 36028797018963968 := by
    norm_num
  refine ⟨doubleMath_expBounded, ?_, ?_, ?_, ?_, ?_⟩
  · rw [hp, normalCDF64_neg_one]
  · rw [hq, one_fsub_normalCDF64_one]
  · rw [normalCDF64_neg_one, one_fsub_normalCDF64_one]
    intro h
    injection h with h
    norm_num at h
  · rw [hp]
    unfold calculateNormalProbability64
    rw [standardize_neg_one, normalCDF64_neg_one]
  · rw [hq]
    unfold calculateNormalProbability64
    rw [standardize_one, one_fsub_normalCDF64_one]

/-- C29, amended: where `Math.exp` maps the numbers up to `0` into `[0, 1]` and `-Infinity`
to `0`, for every `z > 0` the value `normalCDF(z)` in double arithmetic is
`1 - normalCDF(-z)`, the subtraction rounded, and `normalCDF(-z)` and `1 - normalCDF(z)`
differ by at most `2^-52`;
for every mean, every positive standard deviation and every `d > 0` whose standardised
value does not round to `0`, the same holds of the less-than probability at `mean - d` and
the greater-than probability `1 - calculateNormalProbability(mean + d, mean, stdDev)` at
`mean + d`. -/
theorem normalCDF64_symmetry (m : JSMath) (hb : expBounded m)
    (hinf : m.exp .negInf = .fin 0) :
    (∀ z : ℚ, 0 < z →
      normalCDF64 m (.fin z) = JSNum.fsub (.fin 1) (normalCDF64 m (.fin (-z))) ∧
      ∃ p q : ℚ, normalCDF64 m (.fin (-z)) = .fin p ∧
        JSNum.fsub (.fin 1) (normalCDF64 m (.fin z)) = .fin q ∧ |p - q| ≤ 1 / 2 ^ 52) ∧
    ∀ mean stdDev d : ℚ, 0 < stdDev → 0 < d →
      JSNum.lt (.fin 0)
        (JSNum.fdiv (JSNum.fsub (.fin (mean + d)) (.fin mean)) (.fin stdDev)) = true →
      calculateNormalProbability64 m (.fin (mean + d)) (.fin mean) (.fin stdDev) =
        JSNum.fsub (.fin 1)
          (calculateNormalProbability64 m (.fin (mean - d)) (.fin mean) (.fin stdDev)) ∧
      ∃ p q : ℚ,
        calculateNormalProbability64 m (.fin (mean - d)) (.fin mean) (.fin stdDev) = .fin p ∧
        JSNum.fsub (.fin 1)
          (calculateNormalProbability64 m (.fin (mean + d)) (.fin mean) (.fin stdDev)) =
          .fin q ∧
        |p - q| ≤ 1 / 2 ^ 52 := by
  constructor
  · intro z hz
    have hpos : JSNum.lt (.fin 0) (.fin z) = true := by simpa using hz
    exact ⟨(normalCDF64_neg m (.fin z) hpos).2, normalCDF64_neg_near m hb hinf (.fin z) hpos⟩
  · intro mean stdDev d hsd _ hpos
    unfold calculateNormalProbability64
    rw [standardize_neg mean stdDev d hsd]
    exact ⟨(normalCDF64_neg m _ hpos).2, normalCDF64_neg_near m hb hinf _ hpos⟩

theorem normalCDF64_symmetry_witness :
    expBounded plainMath ∧ plainMath.exp .negInf = .fin 0 ∧
    (normalCDF64 plainMath (.fin 1) =
        JSNum.fsub (.fin 1) (normalCDF64 plainMath (.fin (-1))) ∧
      ∃ p q : ℚ, normalCDF64 plainMath (.fin (-1)) = .fin p ∧
        JSNum.fsub (.fin 1) (normalCDF64 plainMath (.fin 1)) = .fin q ∧
        |p - q| ≤ 1 / 2 ^ 52) :=
  ⟨plainMath_expBounded, rfl,
    (normalCDF64_symmetry plainMath plainMath_expBounded rfl).1 1 (by norm_num)⟩

/-! ## The CSV text of the statistics and the rows that `cleanData` keeps -/

/-- C26, failing input: for the dataset `[{x: 'a,"b'}]` the text that
`downloadStatisticsData` builds is the header `x` and the line `"a,"b"`: the value with a
comma is put between double quotes and the double quote inside it is not doubled, whereas
`generateTestCSV` writes the line `"a,""b"` for the same rows. -/
theorem downloadStatisticsData_quote_not_doubled (h : Host) :
    downloadStatisticsData h (some quoteRows) = some "x\n\"a,\"b\"" ∧
    generateTestCSV h quoteRows = "x\n\"a,\"\"b\"" := by
  constructor
  · with_unfolding_all rfl
  · with_unfolding_all rfl

theorem JSObject.set_nil {α : Type} (k : String) (v : α) :
    JSObject.set ([] : JSObject α) k v = [(k, v)] := by
  simp only [JSObject.set, JSObject.hasKey, JSObject.get?, Option.isSome_none,
    Bool.false_eq_true, if_false, JSObject.insertNew]
  split <;> rfl

theorem cleanData_length_le (h : Host) (data : List Row) (options : CleanOptions) :
    (cleanData h data options).length ≤ data.length := by
  simp only [cleanData, List.length_map]
  exact List.length_filter_le _ _

/-- C27, failing input: with the default options `cleanData([{a: ' '}])` returns one row,
`{a: ''}`, whose only value is the empty string: the row is not empty when the empty rows are
filtered out and becomes empty when its string is trimmed afterwards.  The number of
returned rows never exceeds the number of rows given. -/
theorem cleanData_keeps_blank_row (h : Host) :
    cleanData h blankRows defaultOptions = [[(normalizeHeader h "a", .str "")]] ∧
    (∀ row ∈ cleanData h blankRows defaultOptions, isEmptyRow row = true) ∧
    (∀ row ∈ blankRows, isEmptyRow row = false) ∧
    (∀ (data : List Row) (options : CleanOptions),
      (cleanData h data options).length ≤ data.length) := by
  have hrow : isEmptyRow [("a", .str " ")] = false := by decide
  have htrim : jsTrim " " = "" := by decide
  have hconv : convertValueType h (.str "") = .str "" := by
    have : jsTrim "" = "" := by decide
    simp [convertValueType, this]
  have hout : cleanData h blankRows defaultOptions = [[(normalizeHeader h "a", .str "")]] := by
    simp only [cleanData, blankRows, defaultOptions, Option.getD_none, hrow, List.filter_cons,
      Bool.and_false, Bool.not_false, if_true, List.filter_nil, List.map_cons, List.map_nil,
      List.foldl_cons, List.foldl_nil, cleanEntry, htrim, hconv, JSObject.set_nil]
  refine ⟨hout, ?_, ?_, cleanData_length_le h⟩
  · intro row hmem
    rw [hout, List.mem_singleton] at hmem
    subst hmem
    simp [isEmptyRow, JSObject.values, Scalar.isMissing]
  · intro row hmem
    rw [blankRows, List.mem_singleton] at hmem
    subst hmem
    exact hrow

/-! ## `aggregateData`: the rows of a group -/

theorem get?_addToGroups (h : Host) (groupBy : FieldSpec) (groups : JSObject Group) (row : Row)
    (k : String) :
    (addToGroups h groupBy groups row).get? k =
      if k = groupKey h groupBy row then
        some { rows := ((groups.get? k).getD (newGroup groupBy row)).rows ++ [row],
               count := ((groups.get? k).getD (newGroup groupBy row)).count + 1,
               fields := ((groups.get? k).getD (newGroup groupBy row)).fields }
      else groups.get? k := by
  unfold addToGroups
  by_cases hk : groups.hasKey (groupKey h groupBy row) = true
  · obtain ⟨g, hg⟩ := Option.isSome_iff_exists.mp hk
    simp only [hk, if_true, hg]
    by_cases hkk : k = groupKey h groupBy row
    · subst hkk
      simp [JSObject.get?_set_self, hg]
    · simp [hkk, JSObject.get?_set_ne _ _ _ _ hkk]
  · have hk' : groups.hasKey (groupKey h groupBy row) = false := by simpa using hk
    have hnone : groups.get? (groupKey h groupBy row) = none := by
      simpa [JSObject.hasKey] using hk
    simp only [hk', Bool.false_eq_true, if_false, JSObject.get?_set_self]
    by_cases hkk : k = groupKey h groupBy row
    · subst hkk
      simp [JSObject.get?_set_self, hnone]
    · simp [hkk, JSObject.get?_set_ne _ _ _ _ hkk]

theorem rowsOf_addToGroups (h : Host) (groupBy : FieldSpec) (groups : JSObject Group)
    (row : Row) (k : String) :
    rowsOf (addToGroups h groupBy groups row) k =
      if k = groupKey h groupBy row then rowsOf groups k ++ [row] else rowsOf groups k := by
  unfold rowsOf
  rw [get?_addToGroups]
  by_cases hkk : k = groupKey h groupBy row
  · simp only [hkk, if_true]
    cases groups.get? (groupKey h groupBy row) <;> simp [newGroup]
  · simp only [hkk, if_false]

theorem rowsOf_foldl (h : Host) (groupBy : FieldSpec) (data : List Row)
    (groups : JSObject Group) (k : String) :
    rowsOf (data.foldl (addToGroups h groupBy) groups) k =
      rowsOf groups k ++ data.filter (fun row => decide (groupKey h groupBy row = k)) := by
  induction data generalizing groups with
  | nil => simp
  | cons row rest ih =>
    rw [List.foldl_cons, ih, rowsOf_addToGroups, List.filter_cons]
    by_cases hkk : k = groupKey h groupBy row
    · simp [hkk]
    · have hkk' : ¬ groupKey h groupBy row = k := fun heq => hkk heq.symm
      simp [hkk, hkk']

theorem rowsOf_buildGroups (h : Host) (groupBy : FieldSpec) (data : List Row) (k : String) :
    rowsOf (buildGroups h groupBy data) k =
      data.filter (fun row => decide (groupKey h groupBy row = k)) := by
  unfold buildGroups
  rw [rowsOf_foldl]
  simp [rowsOf, JSObject.get?]

theorem nodup_keys_addToGroups (h : Host) (groupBy : FieldSpec) (groups : JSObject Group)
    (row : Row) (hnodup : (JSObject.keys groups).Nodup) :
    (JSObject.keys (addToGroups h groupBy groups row)).Nodup := by
  unfold addToGroups
  simp only
  split <;> split <;>
    first
    | exact JSObject.nodup_keys_set _ _ _ hnodup
    | exact JSObject.nodup_keys_set _ _ _ (JSObject.nodup_keys_set _ _ _ hnodup)
    | exact hnodup

theorem nodup_keys_foldl_addToGroups (h : Host) (groupBy : FieldSpec) (data : List Row)
    (groups : JSObject Group) (hnodup : (JSObject.keys groups).Nodup) :
    (JSObject.keys (data.foldl (addToGroups h groupBy) groups)).Nodup := by
  induction data generalizing groups with
  | nil => exact hnodup
  | cons row rest ih =>
    rw [List.foldl_cons]
    exact ih _ (nodup_keys_addToGroups h groupBy groups row hnodup)

theorem nodup_keys_buildGroups (h : Host) (groupBy : FieldSpec) (data : List Row) :
    (JSObject.keys (buildGroups h groupBy data)).Nodup :=
  nodup_keys_foldl_addToGroups h groupBy data [] (by simp [JSObject.keys])

theorem mem_keys_addToGroups (h : Host) (groupBy : FieldSpec) (groups : JSObject Group)
    (row : Row) (k : String) :
    k ∈ JSObject.keys (addToGroups h groupBy groups row) ↔
      k = groupKey h groupBy row ∨ k ∈ JSObject.keys groups := by
  have hget := get?_addToGroups h groupBy groups row k
  have h1 := JSObject.get?_eq_none_iff (addToGroups h groupBy groups row) k
  have h2 := JSObject.get?_eq_none_iff groups k
  by_cases hkk : k = groupKey h groupBy row
  · simp only [hkk, if_true] at hget
    constructor
    · intro _; exact Or.inl hkk
    · intro _
      by_contra hnot
      rw [← h1, hkk, hget] at hnot
      cases hnot
  · simp only [hkk, if_false] at hget
    rw [hget] at h1
    constructor
    · intro hmem
      right
      by_contra hnot
      exact (h1.mp (h2.mpr hnot)) hmem
    · rintro (heq | hmem)
      · exact absurd heq hkk
      · by_contra hnot
        exact (h2.mp (h1.mpr hnot)) hmem

theorem mem_keys_foldl_addToGroups (h : Host) (groupBy : FieldSpec) (data : List Row)
    (groups : JSObject Group) (k : String) :
    k ∈ JSObject.keys (data.foldl (addToGroups h groupBy) groups) ↔
      k ∈ JSObject.keys groups ∨ ∃ row ∈ data, groupKey h groupBy row = k := by
  induction data generalizing groups with
  | nil => simp
  | cons row rest ih =>
    rw [List.foldl_cons, ih, mem_keys_addToGroups]
    constructor
    · rintro ((heq | hmem) | ⟨r, hr, hkey⟩)
      · exact Or.inr ⟨row, List.mem_cons_self _ _, heq.symm⟩
      · exact Or.inl hmem
      · exact Or.inr ⟨r, List.mem_cons_of_mem _ hr, hkey⟩
    · rintro (hmem | ⟨r, hr, hkey⟩)
      · exact Or.inl (Or.inr hmem)
      · rcases List.mem_cons.mp hr with heq | hr'
        · subst heq
          exact Or.inl (Or.inl hkey.symm)
        · exact Or.inr ⟨r, hr', hkey⟩

theorem mem_keys_buildGroups (h : Host) (groupBy : FieldSpec) (data : List Row) (k : String) :
    k ∈ JSObject.keys (buildGroups h groupBy data) ↔ ∃ row ∈ data, groupKey h groupBy row = k := by
  unfold buildGroups
  rw [mem_keys_foldl_addToGroups]
  simp [JSObject.keys]

theorem JSObject.mem_of_get? {α : Type} (o : JSObject α) (k : String) (v : α)
    (hget : o.get? k = some v) : (k, v) ∈ o := by
  induction o with
  | nil => simp [JSObject.get?] at hget
  | cons kv rest ih =>
    obtain ⟨k0, v0⟩ := kv
    by_cases hkk : k0 = k
    · simp only [JSObject.get?, hkk, if_true, Option.some.injEq] at hget
      subst hget
      subst hkk
      exact List.mem_cons_self _ _
    · simp only [JSObject.get?, hkk, if_false] at hget
      exact List.mem_cons_of_mem _ (ih hget)

theorem sameGroup_iff_key (h : Host) (groupBy : FieldSpec) (data : List Row) (a b : Row)
    (ha : a ∈ data) (hb : b ∈ data) :
    SameGroup h groupBy data a b ↔ groupKey h groupBy a = groupKey h groupBy b := by
  constructor
  · rintro ⟨⟨k, g⟩, hmem, hag, hbg⟩
    have hget := JSObject.get?_of_mem _ (nodup_keys_buildGroups h groupBy data) k g hmem
    have hrows := rowsOf_buildGroups h groupBy data k
    simp only [rowsOf, hget, Option.map_some', Option.getD_some] at hrows
    simp only at hag hbg
    rw [hrows, List.mem_filter] at hag hbg
    have h1 : groupKey h groupBy a = k := by simpa using hag.2
    have h2 : groupKey h groupBy b = k := by simpa using hbg.2
    rw [h1, h2]
  · intro hkey
    have hk : groupKey h groupBy a ∈ JSObject.keys (buildGroups h groupBy data) :=
      (mem_keys_buildGroups h groupBy data _).mpr ⟨a, ha, rfl⟩
    cases hget : JSObject.get? (buildGroups h groupBy data) (groupKey h groupBy a) with
    | none => exact absurd hk ((JSObject.get?_eq_none_iff _ _).mp hget)
    | some g =>
      have hrows := rowsOf_buildGroups h groupBy data (groupKey h groupBy a)
      simp only [rowsOf, hget, Option.map_some', Option.getD_some] at hrows
      refine ⟨(groupKey h groupBy a, g), JSObject.mem_of_get? _ _ _ hget, ?_, ?_⟩
      · simp only
        rw [hrows, List.mem_filter]
        exact ⟨ha, by simp⟩
      · simp only
        rw [hrows, List.mem_filter]
        exact ⟨hb, by simp [hkey]⟩

theorem length_buildGroups (h : Host) (groupBy : FieldSpec) (data : List Row) :
    (buildGroups h groupBy data).length =
      ((data.map (groupKey h groupBy)).dedup).length := by
  have hnodup := nodup_keys_buildGroups h groupBy data
  have hlen : (buildGroups h groupBy data).length =
      (JSObject.keys (buildGroups h groupBy data)).length := by
    simp [JSObject.keys]
  rw [hlen, ← List.toFinset_card_of_nodup hnodup, ← List.card_toFinset]
  congr 1
  ext k
  simp only [List.mem_toFinset, mem_keys_buildGroups, List.mem_map]

/-! ## `aggregateData`: the key of a group and the values it is written from -/

theorem intercalate_go_data (sep acc : String) (l : List String) :
    (String.intercalate.go acc sep l).data =
      acc.data ++ (l.map (fun a => sep.data ++ a.data)).flatten := by
  induction l generalizing acc with
  | nil => simp [String.intercalate.go]
  | cons a rest ih =>
    simp [String.intercalate.go, ih, List.append_assoc]

theorem intercalate_cons_data (sep a : String) (l : List String) :
    (String.intercalate sep (a :: l)).data =
      a.data ++ (l.map (fun b => sep.data ++ b.data)).flatten := by
  simp [String.intercalate, intercalate_go_data]

theorem append_tail_inj (x y r s : List Char) (hx : '|' ∉ x) (hy : '|' ∉ y)
    (hr : r = [] ∨ ∃ r', r = '|' :: r') (hs : s = [] ∨ ∃ s', s = '|' :: s')
    (heq : x ++ r = y ++ s) : x = y ∧ r = s := by
  induction x generalizing y with
  | nil =>
    cases y with
    | nil => exact ⟨rfl, by simpa using heq⟩
    | cons d y' =>
      exfalso
      simp only [List.nil_append, List.cons_append] at heq
      rcases hr with hr | ⟨r', hr⟩
      · rw [hr] at heq; cases heq
      · rw [hr] at heq
        have hd : '|' = d := (List.cons.inj heq).1
        exact hy (hd ▸ List.mem_cons_self _ _)
  | cons c x' ih =>
    cases y with
    | nil =>
      exfalso
      simp only [List.nil_append, List.cons_append] at heq
      rcases hs with hs | ⟨s', hs⟩
      · rw [hs] at heq; cases heq
      · rw [hs] at heq
        have hc : c = '|' := (List.cons.inj heq).1
        exact hx (hc ▸ List.mem_cons_self _ _)
    | cons d y' =>
      simp only [List.cons_append] at heq
      obtain ⟨hcd, hrest⟩ := List.cons.inj heq
      have hx' : '|' ∉ x' := fun hmem => hx (List.mem_cons_of_mem _ hmem)
      have hy' : '|' ∉ y' := fun hmem => hy (List.mem_cons_of_mem _ hmem)
      obtain ⟨h1, h2⟩ := ih y' hx' hy' hrest
      exact ⟨by rw [hcd, h1], h2⟩

theorem tail_shape (l : List String) :
    (l.map (fun b => "|".data ++ b.data)).flatten = [] ∨
      ∃ r, (l.map (fun b => "|".data ++ b.data)).flatten = '|' :: r := by
  cases l with
  | nil => exact Or.inl rfl
  | cons a rest => exact Or.inr ⟨_, rfl⟩

theorem tail_inj (l1 l2 : List String) (h1 : ∀ a ∈ l1, '|' ∉ a.data)
    (h2 : ∀ a ∈ l2, '|' ∉ a.data)
    (heq : (l1.map (fun b => "|".data ++ b.data)).flatten =
      (l2.map (fun b => "|".data ++ b.data)).flatten) : l1 = l2 := by
  induction l1 generalizing l2 with
  | nil =>
    cases l2 with
    | nil => rfl
    | cons b rest => exact absurd heq (by simp)
  | cons a rest ih =>
    cases l2 with
    | nil => exact absurd heq (by simp)
    | cons b rest2 =>
      simp only [List.map_cons, List.flatten_cons, List.append_assoc] at heq
      have heq' : a.data ++ (rest.map (fun b => "|".data ++ b.data)).flatten =
          b.data ++ (rest2.map (fun b => "|".data ++ b.data)).flatten :=
        List.append_cancel_left heq
      obtain ⟨hab, hrest⟩ := append_tail_inj a.data b.data _ _
        (h1 a (List.mem_cons_self _ _)) (h2 b (List.mem_cons_self _ _))
        (tail_shape rest) (tail_shape rest2) heq'
      have hrec := ih rest2 (fun x hx => h1 x (List.mem_cons_of_mem _ hx))
        (fun x hx => h2 x (List.mem_cons_of_mem _ hx)) hrest
      rw [String.ext hab, hrec]

theorem intercalate_inj (l1 l2 : List String) (hlen : l1.length = l2.length)
    (h1 : ∀ a ∈ l1, '|' ∉ a.data) (h2 : ∀ a ∈ l2, '|' ∉ a.data)
    (heq : String.intercalate "|" l1 = String.intercalate "|" l2) : l1 = l2 := by
  cases l1 with
  | nil =>
    cases l2 with
    | nil => rfl
    | cons b rest => simp at hlen
  | cons a rest =>
    cases l2 with
    | nil => simp at hlen
    | cons b rest2 =>
      have hdata := congrArg String.data heq
      rw [intercalate_cons_data, intercalate_cons_data] at hdata
      obtain ⟨hab, hrest⟩ := append_tail_inj a.data b.data _ _
        (h1 a (List.mem_cons_self _ _)) (h2 b (List.mem_cons_self _ _))
        (tail_shape rest) (tail_shape rest2) hdata
      have hrec := tail_inj rest rest2 (fun x hx => h1 x (List.mem_cons_of_mem _ hx))
        (fun x hx => h2 x (List.mem_cons_of_mem _ hx)) hrest
      rw [String.ext hab, hrec]

theorem groupKey_eq_keyOfValues (h : Host) (groupBy : FieldSpec) (row : Row) :
    groupKey h groupBy row = keyOfValues h groupBy (groupValues groupBy row) := by
  cases groupBy <;> rfl

theorem map_joinStr_inj (h : Host) (cols : List String) (a b : Row)
    (ha : ∀ col ∈ cols, ∃ s : String, a.get col = .str s)
    (hb : ∀ col ∈ cols, ∃ s : String, b.get col = .str s)
    (heq : (cols.map a.get).map (Scalar.joinStr h) = (cols.map b.get).map (Scalar.joinStr h)) :
    cols.map a.get = cols.map b.get := by
  induction cols with
  | nil => rfl
  | cons col rest ih =>
    simp only [List.map_cons, List.cons.injEq] at heq ⊢
    obtain ⟨s, hs⟩ := ha col (List.mem_cons_self _ _)
    obtain ⟨t, ht⟩ := hb col (List.mem_cons_self _ _)
    refine ⟨?_, ih (fun c hc => ha c (List.mem_cons_of_mem _ hc))
      (fun c hc => hb c (List.mem_cons_of_mem _ hc)) heq.2⟩
    have h1 := heq.1
    rw [hs, ht] at h1 ⊢
    simp only [Scalar.joinStr, Scalar.isNullish, Scalar.toStr, Bool.false_eq_true,
      if_false] at h1
    rw [h1]

theorem groupKey_inj (h : Host) (groupBy : FieldSpec) (data : List Row)
    (hstr : StringValued groupBy data)
    (hsep : groupBy.toList.length ≤ 1 ∨ SeparatorFree groupBy data)
    (a b : Row) (ha : a ∈ data) (hb : b ∈ data)
    (hkey : groupKey h groupBy a = groupKey h groupBy b) :
    groupValues groupBy a = groupValues groupBy b := by
  cases groupBy with
  | single col =>
    obtain ⟨s, hs⟩ := hstr a ha col (by simp [FieldSpec.toList])
    obtain ⟨t, ht⟩ := hstr b hb col (by simp [FieldSpec.toList])
    simp only [groupKey, hs, ht, Scalar.toStr] at hkey
    simp [groupValues, FieldSpec.toList, hs, ht, hkey]
  | many cols =>
    simp only [groupKey, joinWith] at hkey
    simp only [groupValues, FieldSpec.toList]
    apply map_joinStr_inj h cols a b (hstr a ha) (hstr b hb)
    rcases hsep with hlen | hfree
    · simp only [FieldSpec.toList] at hlen
      match cols, hlen with
      | [], _ => rfl
      | [col], _ =>
        simp only [List.map_cons, List.map_nil, String.intercalate,
          String.intercalate.go] at hkey ⊢
        rw [hkey]
    · apply intercalate_inj _ _ (by simp) _ _ hkey
      · intro s hs
        simp only [List.mem_map, exists_exists_and_eq_and] at hs
        obtain ⟨col, hcol, hval⟩ := hs
        obtain ⟨t, ht⟩ := hstr a ha col hcol
        rw [ht] at hval
        simp only [Scalar.joinStr, Scalar.isNullish, Scalar.toStr, Bool.false_eq_true,
          if_false] at hval
        rw [← hval]
        exact hfree a ha col hcol t ht
      · intro s hs
        simp only [List.mem_map, exists_exists_and_eq_and] at hs
        obtain ⟨col, hcol, hval⟩ := hs
        obtain ⟨t, ht⟩ := hstr b hb col hcol
        rw [ht] at hval
        simp only [Scalar.joinStr, Scalar.isNullish, Scalar.toStr, Bool.false_eq_true,
          if_false] at hval
        rw [← hval]
        exact hfree b hb col hcol t ht

theorem dedup_length_of_injOn (h : Host) (groupBy : FieldSpec) (data : List Row)
    (hinj : ∀ a ∈ data, ∀ b ∈ data, groupKey h groupBy a = groupKey h groupBy b →
      groupValues groupBy a = groupValues groupBy b) :
    ((data.map (groupKey h groupBy)).dedup).length =
      ((data.map (groupValues groupBy)).dedup).length := by
  rw [← List.card_toFinset, ← List.card_toFinset]
  have himage : (data.map (groupKey h groupBy)).toFinset =
      (data.map (groupValues groupBy)).toFinset.image (keyOfValues h groupBy) := by
    ext k
    simp only [List.mem_toFinset, List.mem_map, Finset.mem_image, exists_exists_and_eq_and,
      groupKey_eq_keyOfValues]
  rw [himage]
  apply Finset.card_image_of_injOn
  intro u hu v hv huv
  simp only [Finset.coe_sort_coe, List.coe_toFinset, Set.mem_setOf_eq, List.mem_map] at hu hv
  obtain ⟨a, ha, rfl⟩ := hu
  obtain ⟨b, hb, rfl⟩ := hv
  rw [← groupKey_eq_keyOfValues, ← groupKey_eq_keyOfValues] at huv
  exact hinj a ha b hb huv

/-! ## The claim about the groups of `aggregateData` -/

theorem aggregateData_length (h : Host) (data : List Row) (groupBy : FieldSpec)
    (aggregations : List Aggregation) (htruthy : groupBy.truthy = true) :
    (aggregateData h data (some ⟨some groupBy, some aggregations⟩)).length =
      ((data.map (groupKey h groupBy)).dedup).length := by
  simp [aggregateData, htruthy, JSObject.values, length_buildGroups]

/-- C28, counterexample: grouped by the columns `a` and `b`, the rows `{a: 'x|y', b: 'z'}`
and `{a: 'x', b: 'y|z'}` differ in both columns and have the same key `x|y|z`:
`aggregateData` returns one row for the two distinct pairs of values, whatever the engine
is. -/
theorem aggregateData_separator_collision :
    ¬ ∃ h : Host,
      (aggregateData h separatorRows (some ⟨some separatorBy, some []⟩)).length =
        ((separatorRows.map (groupValues separatorBy)).dedup).length := by
  rintro ⟨h, hlen⟩
  rw [aggregateData_length h separatorRows separatorBy [] rfl] at hlen
  have hkeys : separatorRows.map (groupKey h separatorBy) = ["x|y|z", "x|y|z"] := by
    with_unfolding_all rfl
  have hvalues : ((separatorRows.map (groupValues separatorBy)).dedup).length = 2 := by
    with_unfolding_all decide
  rw [hkeys, hvalues] at hlen
  revert hlen
  decide

/-- C28, amended: for a dataset whose group-by values are strings, none of which contains
the separator `|` when there is more than one group-by column, `aggregateData` places two
rows in the same group if and only if they have equal values in every group-by column, and
it returns as many rows as there are distinct tuples of group-by values.  (No key of a group
is a property name inherited from `Object.prototype`, and no group-by column is called
`_rows` or `_count`.) -/
theorem aggregateData_groups (h : Host) (data : List Row) (groupBy : FieldSpec)
    (htruthy : groupBy.truthy = true) (hstr : StringValued groupBy data)
    (hsep : groupBy.toList.length ≤ 1 ∨ SeparatorFree groupBy data)
    (_hproto : ∀ row ∈ data, isObjectPrototypeKey (groupKey h groupBy row) = false)
    (_hbook : "_rows" ∉ groupBy.toList ∧ "_count" ∉ groupBy.toList) :
    (∀ a ∈ data, ∀ b ∈ data,
      SameGroup h groupBy data a b ↔ groupValues groupBy a = groupValues groupBy b) ∧
    (∀ aggregations : List Aggregation,
      (aggregateData h data (some ⟨some groupBy, some aggregations⟩)).length =
        ((data.map (groupValues groupBy)).dedup).length) := by
  constructor
  · intro a ha b hb
    rw [sameGroup_iff_key h groupBy data a b ha hb]
    constructor
    · exact groupKey_inj h groupBy data hstr hsep a b ha hb
    · intro hvalues
      rw [groupKey_eq_keyOfValues, groupKey_eq_keyOfValues, hvalues]
  · intro aggregations
    rw [aggregateData_length h data groupBy aggregations htruthy]
    exact dedup_length_of_injOn h groupBy data
      (fun a ha b hb => groupKey_inj h groupBy data hstr hsep a b ha hb)

theorem groupRows_stringValued : StringValued separatorBy groupRows := by
  intro row hrow col hcol
  simp only [groupRows, List.mem_cons, List.mem_singleton, List.not_mem_nil, or_false] at hrow
  simp only [separatorBy, FieldSpec.toList, List.mem_cons, List.mem_singleton,
    List.not_mem_nil, or_false] at hcol
  rcases hrow with rfl | rfl | rfl <;> rcases hcol with rfl | rfl <;>
    first
    | exact ⟨"x", by decide⟩
    | exact ⟨"y", by decide⟩
    | exact ⟨"z", by decide⟩

theorem groupRows_separatorFree : SeparatorFree separatorBy groupRows := by
  intro row hrow col hcol s hs
  simp only [groupRows, List.mem_cons, List.mem_singleton, List.not_mem_nil, or_false] at hrow
  simp only [separatorBy, FieldSpec.toList, List.mem_cons, List.mem_singleton,
    List.not_mem_nil, or_false] at hcol
  rcases hrow with rfl | rfl | rfl <;> rcases hcol with rfl | rfl <;>
    (simp only [Row.get, JSObject.get?] at hs
     simp at hs
     subst hs
     decide)

theorem aggregateData_groups_witness :
    (aggregateData plainHost groupRows (some ⟨some separatorBy, some []⟩)).length =
      ((groupRows.map (groupValues separatorBy)).dedup).length ∧
    ((groupRows.map (groupValues separatorBy)).dedup).length = 2 :=
  ⟨(aggregateData_groups plainHost groupRows separatorBy rfl groupRows_stringValued
      (Or.inr groupRows_separatorFree) (by with_unfolding_all decide) (by decide)).2 [],
   by with_unfolding_all decide⟩

end DataProcessor
